import Mathlib

/-!
# fastbreaker: a shallow embedding of the circuit breaker

The Go package `fastbreaker` (files `state.go`, `configuration.go`,
`circuitbreaker.go`, `implementation.go`) is embedded as pure functions over an
explicit breaker record.  Every method of `*fastBreaker` becomes a function
taking the record and returning the record after the call (plus the Go return
values).  The two background activities (the window ticker goroutine and the
break timer callback) become functions of their own, applied once per tick and
once per firing.  All `atomic.Uint64` arithmetic is taken modulo `2 ^ 64`.
-/

namespace fastbreaker

/-! ## Machine integers -/

/-- Value of a natural number stored in a Go `uint64` (wrap-around). -/
def u64 (n : Nat) : Nat := n % 2 ^ 64

/-! ## state.go -/

/-- Go `type State uint32`. -/
abbrev State := Nat

/-- Go `StateStopped State = iota`. -/
abbrev StateStopped : State := 0

/-- Go `StateClosed`. -/
abbrev StateClosed : State := 1

/-- Go `StateHalfOpen`. -/
abbrev StateHalfOpen : State := 2

/-- Go `StateOpen`. -/
abbrev StateOpen : State := 3

/-! ## circuitbreaker.go -/

/-- The two sentinel errors of `circuitbreaker.go`. -/
inductive Error where
  | ErrCircuitStopped
  | ErrCircuitOpen
deriving DecidableEq, Repr

/-! ## configuration.go -/

/-- Go `type ShouldTripFunc func(executions uint64, failures uint64) bool`. -/
abbrev ShouldTripFunc := Nat → Nat → Bool

/-- Go `time.Second`, in nanoseconds. -/
def Second : Int := 1000000000

/-- Go `DefaultNumBuckets`. -/
def DefaultNumBuckets : Int := 10

/-- Go `DefaultBucketDuration`. -/
def DefaultBucketDuration : Int := 1 * Second

/-- Go `DefaultDurationOfBreak`. -/
def DefaultDurationOfBreak : Int := 5 * Second

/-- Go `DefaultShouldTrip`: `executions >= 20 && failures*2 >= executions`, the
product being a `uint64` product. -/
def DefaultShouldTrip (executions failures : Nat) : Bool :=
  decide (executions ≥ 20) && decide (u64 (failures * 2) ≥ executions)

/-- Go `type Configuration struct`; a nil `ShouldTrip` is `none`. -/
structure Configuration where
  NumBuckets : Int
  BucketDuration : Int
  DurationOfBreak : Int
  ShouldTrip : Option ShouldTripFunc

/-! ## The Go runtime pieces the breaker uses -/

/-- Go `time.Duration.Truncate`: rounding toward zero to a multiple of `m`;
unchanged when `m <= 0`. -/
def Truncate (d m : Int) : Int :=
  if m ≤ 0 then d else d - Int.tmod d m

/-- A non-nil `*time.Timer` made by `time.AfterFunc`: the duration it was armed
with and whether it is still pending (neither fired nor stopped). -/
structure Timer where
  duration : Int
  pending : Bool
deriving DecidableEq, Repr

/-- Go `(*time.Timer).Stop`. -/
def Timer.Stop (t : Timer) : Timer := { t with pending := false }

/-- A `*time.Ticker`: its period and whether it is still running. -/
structure Ticker where
  period : Int
  running : Bool
deriving DecidableEq, Repr

/-- Go `time.NewTicker`. -/
def NewTicker (d : Int) : Ticker := { period := d, running := true }

/-- Go `(*time.Ticker).Stop`. -/
def Ticker.Stop (t : Ticker) : Ticker := { t with running := false }

/-! ## implementation.go -/

/-- Go `type counters struct` (two `atomic.Uint64`). -/
structure counters where
  executions : Nat
  failures : Nat
deriving DecidableEq, Repr

/-- Go `(*counters).reset`. -/
def counters.reset (_c : counters) : counters := { executions := 0, failures := 0 }

/-- A `*ring.Ring` of `*counters`: the values met when walking the circular
list forward from the element the pointer designates (the order of
`ring.Do`).  The head is `r.Value`; the nil ring is the empty list. -/
abbrev Ring := List counters

/-- Go `ring.New(n)`: `n` elements (none when `n <= 0`); their values are
assigned by the loop in `New` before any use. -/
def Ring.New (n : Int) : Ring := List.replicate n.toNat { executions := 0, failures := 0 }

/-- Go `(*Ring).Next`: the pointer moves one element forward. -/
def Ring.Next : Ring → Ring
  | [] => []
  | c :: cs => cs ++ [c]

/-- Go `(*Ring).Len`. -/
def Ring.Len (r : Ring) : Nat := r.length

/-- Update of `r.Value` in place (`r.Value = v`, or a method call on the
pointer stored there). -/
def Ring.modifyValue (f : counters → counters) : Ring → Ring
  | [] => []
  | c :: cs => f c :: cs

/-- Go `type fastBreaker struct`.  `shouldTripCalls` is a ghost field: the
arguments of every call made to `configuration.ShouldTrip`, most recent first
(the counting wrapper of `TestCircuitBreaker`). -/
structure fastBreaker where
  configuration : Configuration
  state : State
  ring : Ring
  advanceTicker : Ticker
  totalCounters : counters
  rejected : Nat
  breakTimer : Option Timer
  halfOpenAllowed : Bool
  shouldTripCalls : List (Nat × Nat)

/-- The loop of `reset`: `i` times, reset the current bucket and move to the
next one. -/
def resetLoop : Nat → Ring → Ring
  | 0, r => r
  | i + 1, r => resetLoop i (Ring.Next (Ring.modifyValue counters.reset r))

/-- Go `(*fastBreaker).reset`: stop the break timer, swap the state to Closed
and, when the previous state was not Closed, walk the ring once resetting every
bucket. -/
def fastBreaker.reset (cb : fastBreaker) : fastBreaker :=
  let cb := match cb.breakTimer with
    | some t => { cb with breakTimer := some t.Stop }
    | none => cb
  let old := cb.state
  let cb := { cb with state := StateClosed }
  if old ≠ StateClosed then { cb with ring := resetLoop (Ring.Len cb.ring) cb.ring } else cb

/-- The loop of `New` that stores a fresh `&counters{}` in every element. -/
def initLoop : Nat → Ring → Ring
  | 0, r => r
  | i + 1, r =>
    initLoop i (Ring.Next (Ring.modifyValue (fun _ => { executions := 0, failures := 0 }) r))

/-- Go `New`. -/
def New (configuration : Configuration) : fastBreaker :=
  let configuration :=
    if configuration.NumBuckets ≤ 0 then
      { configuration with NumBuckets := DefaultNumBuckets }
    else configuration
  let configuration :=
    { configuration with BucketDuration := Truncate configuration.BucketDuration Second }
  let configuration :=
    if configuration.BucketDuration ≤ 0 then
      { configuration with BucketDuration := DefaultBucketDuration }
    else configuration
  let configuration :=
    { configuration with DurationOfBreak := Truncate configuration.DurationOfBreak Second }
  let configuration :=
    if configuration.DurationOfBreak ≤ 0 then
      { configuration with DurationOfBreak := DefaultDurationOfBreak }
    else configuration
  let configuration :=
    match configuration.ShouldTrip with
    | none => { configuration with ShouldTrip := some DefaultShouldTrip }
    | some _ => configuration
  let cb : fastBreaker :=
    { configuration := configuration
      state := StateStopped
      ring := Ring.New configuration.NumBuckets
      advanceTicker := NewTicker configuration.BucketDuration
      totalCounters := { executions := 0, failures := 0 }
      rejected := 0
      breakTimer := none
      halfOpenAllowed := false
      shouldTripCalls := [] }
  let cb := { cb with ring := initLoop (Ring.Len cb.ring) cb.ring }
  let cb := { cb with totalCounters := cb.totalCounters.reset }
  cb.reset

/-- Go `(*fastBreaker).Configuration`. -/
def fastBreaker.Configuration (cb : fastBreaker) : Configuration := cb.configuration

/-- Go `(*fastBreaker).Stop`. -/
def fastBreaker.Stop (cb : fastBreaker) : fastBreaker :=
  let cb := { cb with state := StateStopped }
  let cb := match cb.breakTimer with
    | some t => { cb with breakTimer := some t.Stop }
    | none => cb
  { cb with advanceTicker := cb.advanceTicker.Stop }

/-- The Go return values of `Allow` together with the breaker after the call.
`reporter` is the state the returned `func(bool)` is bound to
(`buildFeedbackFunc state`), `none` for a nil function. -/
structure AllowResult where
  reporter : Option State
  err : Option Error
  cb : fastBreaker

/-- Go `(*fastBreaker).Allow`. -/
def fastBreaker.Allow (cb : fastBreaker) : AllowResult :=
  if cb.state = StateStopped then
    { reporter := none, err := some Error.ErrCircuitStopped, cb := cb }
  else if cb.state = StateClosed then
    { reporter := some StateClosed, err := none, cb := cb }
  else if cb.state = StateHalfOpen ∧ cb.halfOpenAllowed = true then
    { reporter := some StateHalfOpen, err := none, cb := { cb with halfOpenAllowed := false } }
  else
    { reporter := none, err := some Error.ErrCircuitOpen,
      cb := { cb with rejected := u64 (cb.rejected + 1) } }

/-- Go `(*fastBreaker).State`. -/
def fastBreaker.State (cb : fastBreaker) : State := cb.state

/-- Go `(*fastBreaker).Executions`. -/
def fastBreaker.Executions (cb : fastBreaker) : Nat := cb.totalCounters.executions

/-- Go `(*fastBreaker).Failures`. -/
def fastBreaker.Failures (cb : fastBreaker) : Nat := cb.totalCounters.failures

/-- Go `(*fastBreaker).Rejected`. -/
def fastBreaker.Rejected (cb : fastBreaker) : Nat := cb.rejected

/-- Go `(*fastBreaker).RollingCounters`: `ring.Do` adding every bucket into two
`uint64` accumulators. -/
def fastBreaker.RollingCounters (cb : fastBreaker) : Nat × Nat :=
  cb.ring.foldl
    (fun acc counter => (u64 (acc.1 + counter.executions), u64 (acc.2 + counter.failures)))
    (0, 0)

/-- Go `(*fastBreaker).incExecutions`. -/
def fastBreaker.incExecutions (cb : fastBreaker) : fastBreaker :=
  { cb with
    totalCounters := { cb.totalCounters with executions := u64 (cb.totalCounters.executions + 1) }
    ring := Ring.modifyValue (fun c => { c with executions := u64 (c.executions + 1) }) cb.ring }

/-- Go `(*fastBreaker).incFailures`. -/
def fastBreaker.incFailures (cb : fastBreaker) : fastBreaker :=
  { cb with
    totalCounters := { cb.totalCounters with failures := u64 (cb.totalCounters.failures + 1) }
    ring := Ring.modifyValue (fun c => { c with failures := u64 (c.failures + 1) }) cb.ring }

/-- First statement of the function handed to `time.AfterFunc` in `tripFrom`:
`cb.state.CompareAndSwap(StateOpen, StateHalfOpen)`, with its boolean
result. -/
def fastBreaker.breakTimerSwap (cb : fastBreaker) : fastBreaker × Bool :=
  if cb.state = StateOpen then ({ cb with state := StateHalfOpen }, true) else (cb, false)

/-- Second statement of that function, run when the swap succeeded:
`cb.halfOpenAllowed.Store(true)`. -/
def fastBreaker.breakTimerStore (cb : fastBreaker) : fastBreaker :=
  { cb with halfOpenAllowed := true }

/-- Last statement of that function: `cb.breakTimer = nil`. -/
def fastBreaker.breakTimerClear (cb : fastBreaker) : fastBreaker :=
  { cb with breakTimer := none }

/-- The function handed to `time.AfterFunc` in `tripFrom`, run when the break
timer fires, no other call running between its statements. -/
def fastBreaker.breakTimerFunc (cb : fastBreaker) : fastBreaker :=
  let swapped := cb.breakTimerSwap
  let cb := if swapped.2 = true then swapped.1.breakTimerStore else swapped.1
  cb.breakTimerClear

/-- Go `(*fastBreaker).tripFrom`, with its boolean result. -/
def fastBreaker.tripFrom (cb : fastBreaker) (state : fastbreaker.State) : fastBreaker × Bool :=
  if cb.state = state then
    let cb := { cb with state := StateOpen }
    let cb := match cb.breakTimer with
      | none =>
        { cb with breakTimer := some { duration := cb.configuration.DurationOfBreak,
                                       pending := true } }
      | some _ => cb
    (cb, true)
  else (cb, false)

/-- Ghost update: note that `configuration.ShouldTrip` is being called with
these arguments. -/
def fastBreaker.recordShouldTrip (cb : fastBreaker) (executions failures : Nat) : fastBreaker :=
  { cb with shouldTripCalls := (executions, failures) :: cb.shouldTripCalls }

/-- Go `(*fastBreaker).handleFeedback`.  A nil `ShouldTrip` (which `New` never
leaves) makes the Go call panic after the two increments; the record then
holds what had been written before the panic. -/
def fastBreaker.handleFeedback (cb : fastBreaker) (executionState : fastbreaker.State)
    (success : Bool) :
    fastBreaker :=
  let state := cb.state
  if executionState ≠ state then cb
  else if state = StateClosed then
    let cb := cb.incExecutions
    if !success then
      let cb := cb.incFailures
      let (executions, failures) := cb.RollingCounters
      match cb.configuration.ShouldTrip with
      | none => cb
      | some shouldTrip =>
        let cb := cb.recordShouldTrip executions failures
        if shouldTrip executions failures then (cb.tripFrom StateClosed).1 else cb
    else cb
  else if state = StateHalfOpen then
    if success then cb.reset else (cb.tripFrom StateHalfOpen).1
  else cb

/-- Go `(*fastBreaker).buildFeedbackFunc`: the reporter bound to `state`. -/
def fastBreaker.buildFeedbackFunc (state : fastbreaker.State) : Bool → fastBreaker → fastBreaker :=
  fun success cb => cb.handleFeedback state success

/-- One iteration of the loop of Go `(*fastBreaker).advanceWindow`, run for
every tick of `advanceTicker`. -/
def fastBreaker.advanceWindow (cb : fastBreaker) : fastBreaker :=
  let next := Ring.Next cb.ring
  let next := Ring.modifyValue counters.reset next
  { cb with ring := next }

/-! ## Sequential executions of the breaker -/

/-- One operation on a breaker: a call of `Allow`, a call of a reporter bound
to `bound` with outcome `success`, one tick of the window ticker, one firing
of the break timer, or a call of `Stop`. -/
inductive Op where
  | allow
  | report (bound : State) (success : Bool)
  | tick
  | timer
  | stop
deriving DecidableEq, Repr

/-- The breaker after one operation. -/
def fastBreaker.step (cb : fastBreaker) : Op → fastBreaker
  | Op.allow => cb.Allow.cb
  | Op.report bound success => fastBreaker.buildFeedbackFunc bound success cb
  | Op.tick => cb.advanceWindow
  | Op.timer => cb.breakTimerFunc
  | Op.stop => cb.Stop

/-- The breaker after a sequence of operations, executed one after the
other. -/
def fastBreaker.run (cb : fastBreaker) : List Op → fastBreaker
  | [] => cb
  | op :: ops => (cb.step op).run ops

/-- Whether the state equals `st` after every operation of the sequence. -/
def fastBreaker.staysIn (st : fastbreaker.State) : fastBreaker → List Op → Bool
  | _, [] => true
  | cb, op :: ops => decide ((cb.step op).state = st) && fastBreaker.staysIn st (cb.step op) ops

/-- One step of an execution in which the callback of the break timer, once
its compare-and-swap has succeeded, runs statement by statement in the goroutine of the timer while other
goroutines call the breaker: a whole operation of another goroutine, the
statement `cb.halfOpenAllowed.Store(true)` of the callback, or its last
statement `cb.breakTimer = nil`. -/
inductive Stmt where
  | call (op : Op)
  | store
  | clear
deriving DecidableEq, Repr

/-- The breaker after one such step. -/
def fastBreaker.stmt (cb : fastBreaker) : Stmt → fastBreaker
  | Stmt.call op => cb.step op
  | Stmt.store => cb.breakTimerStore
  | Stmt.clear => cb.breakTimerClear

/-- The breaker after a sequence of such steps. -/
def fastBreaker.interleave (cb : fastBreaker) : List Stmt → fastBreaker
  | [] => cb
  | s :: ss => (cb.stmt s).interleave ss

/-- Whether the state equals `st` after every step of the sequence. -/
def fastBreaker.staysInAmid (st : fastbreaker.State) : fastBreaker → List Stmt → Bool
  | _, [] => true
  | cb, s :: ss =>
    decide ((cb.stmt s).state = st) && fastBreaker.staysInAmid st (cb.stmt s) ss

/-- A guarded execution as the tests perform it: `Allow`, then (when a
reporter was returned) `ticks` window ticks while the call is in flight and
finally the report through that reporter. -/
def fastBreaker.execute (cb : fastBreaker) (ticks : Nat) (success : Bool) : fastBreaker :=
  let r := cb.Allow
  match r.reporter with
  | some state =>
    fastBreaker.buildFeedbackFunc state success (fastBreaker.advanceWindow^[ticks] r.cb)
  | none => r.cb

/-- Traffic seen by a breaker: guarded executions and window ticks. -/
inductive Event where
  | call (ticks : Nat) (success : Bool)
  | tick
deriving DecidableEq, Repr

/-- The breaker after a sequence of events. -/
def fastBreaker.play (cb : fastBreaker) : List Event → fastBreaker
  | [] => cb
  | Event.call ticks success :: es => (cb.execute ticks success).play es
  | Event.tick :: es => cb.advanceWindow.play es

/-- The number of guarded executions in a sequence of events. -/
def calls : List Event → Nat
  | [] => 0
  | Event.call _ _ :: es => calls es + 1
  | Event.tick :: es => calls es

/-- Whether an event is a guarded execution reported as failed. -/
def Event.isFailure : Event → Bool
  | Event.call _ false => true
  | _ => false

/-- The states reachable from `New` by operations executed one after the
other, together with the bound states of the reporters handed out so far.  A
report needs a reporter that `Allow` returned earlier, a tick needs the ticker
to be running, a firing needs a pending break timer. -/
inductive Reachable : fastBreaker → List State → Prop where
  | new (c : Configuration) : Reachable (New c) []
  | allow {cb : fastBreaker} {rs : List State} :
      Reachable cb rs → Reachable cb.Allow.cb (cb.Allow.reporter.toList ++ rs)
  | report {cb : fastBreaker} {rs : List State} (bound : State) (success : Bool) :
      Reachable cb rs → bound ∈ rs →
      Reachable (fastBreaker.buildFeedbackFunc bound success cb) rs
  | tick {cb : fastBreaker} {rs : List State} :
      Reachable cb rs → cb.advanceTicker.running = true → Reachable cb.advanceWindow rs
  | timer {cb : fastBreaker} {rs : List State} (t : Timer) :
      Reachable cb rs → cb.breakTimer = some t → t.pending = true →
      Reachable cb.breakTimerFunc rs
  | stop {cb : fastBreaker} {rs : List State} :
      Reachable cb rs → Reachable cb.Stop rs

/-! ## Counting events along an execution -/

/-- Whether the operation, executed on `cb`, is an `Allow` that returns a
reporter. -/
def fastBreaker.grants (cb : fastBreaker) : Op → Bool
  | Op.allow => cb.Allow.reporter.isSome
  | _ => false

/-- Whether the operation, executed on `cb`, is an `Allow` that returns
`ErrCircuitOpen`. -/
def fastBreaker.rejects (cb : fastBreaker) : Op → Bool
  | Op.allow => decide (cb.Allow.err = some Error.ErrCircuitOpen)
  | _ => false

/-- Whether the operation, executed on `cb`, is a report that `handleFeedback`
counts as an execution: one made through a reporter bound to Closed while the
state is Closed. -/
def fastBreaker.countsExecution (cb : fastBreaker) : Op → Bool
  | Op.report bound _ => decide (bound = StateClosed ∧ cb.state = StateClosed)
  | _ => false

/-- Whether the operation, executed on `cb`, is a report that `handleFeedback`
counts as a failure: a failure reported through a reporter bound to Closed
while the state is Closed. -/
def fastBreaker.countsFailure (cb : fastBreaker) : Op → Bool
  | Op.report bound success =>
    decide (bound = StateClosed ∧ cb.state = StateClosed ∧ success = false)
  | _ => false

/-- The number of operations of a sequence that satisfy `p` in the state they
are executed in, the sequence starting on `cb`. -/
def fastBreaker.count (p : fastBreaker → Op → Bool) : fastBreaker → List Op → Nat
  | _, [] => 0
  | cb, op :: ops => (if p cb op = true then 1 else 0) + fastBreaker.count p (cb.step op) ops

/-- Whether the operation is a call of a reporter. -/
def fastBreaker.reports (_cb : fastBreaker) : Op → Bool
  | Op.report _ _ => true
  | _ => false

/-! ## prometheus/prometheus.go -/

/-- Go `interface FastBreaker` as the metrics adapter uses it: the values its
accessor methods return when a metric is sampled.  Any implementation may
stand behind it, so `State` is any state number. -/
structure FastBreaker where
  State : fastbreaker.State
  Executions : Nat
  Failures : Nat
  Rejected : Nat
  RollingCounters : Nat × Nat

/-- The breaker of this package behind the interface. -/
def fastBreaker.toFastBreaker (cb : fastBreaker) : FastBreaker :=
  { State := cb.State
    Executions := cb.Executions
    Failures := cb.Failures
    Rejected := cb.Rejected
    RollingCounters := cb.RollingCounters }

/-- The gauge function registered by Go `circuitBreakerOpen`; its two results
are the `float64` constants `0.0` and `1.0`. -/
def prometheus.circuitBreakerOpen (cb : FastBreaker) : ℚ :=
  if cb.State = StateClosed then 0 else 1

/-- The `uint64` difference `cb.Executions() - cb.Failures()` that the counter
function with the label `success`, registered by Go `executionsCounters`,
converts to `float64`. -/
def prometheus.executionsSuccess (cb : FastBreaker) : Nat :=
  u64 (cb.Executions + (2 ^ 64 - u64 cb.Failures))

/-! ## Sample breakers -/

/-- Go `fastbreaker.Configuration{}`: every field left at its zero value, so
that `New` applies every default. -/
def zeroConfiguration : Configuration :=
  { NumBuckets := 0, BucketDuration := 0, DurationOfBreak := 0, ShouldTrip := none }

/-- A configuration with two buckets whose policy trips on the first failure. -/
def tripAtOnce : Configuration :=
  { NumBuckets := 2, BucketDuration := 0, DurationOfBreak := 0,
    ShouldTrip := some (fun _ _ => true) }

/-- The breaker of `tripAtOnce` after one failed execution: it is Open. -/
def openBreaker : fastBreaker :=
  fastBreaker.buildFeedbackFunc StateClosed false (New tripAtOnce)

/-- The breaker `openBreaker` after its break timer fired: it is HalfOpen. -/
def halfOpenBreaker : fastBreaker := openBreaker.breakTimerFunc

/-- An execution of the breaker of `tripAtOnce` with two half-open periods:
a failure opens it, the timer fires, the single `Allow` of the first period is
granted and reports failure, the timer fires again, and the reporter of the
first period is called with success. -/
def staleHalfOpenReport : List Op :=
  [Op.allow, Op.report StateClosed false, Op.timer, Op.allow, Op.report StateHalfOpen false,
   Op.timer, Op.report StateHalfOpen true]

/-- The breaker of `tripAtOnce` after `staleHalfOpenReport` and one more failed
execution: it is Open, and the permit stored in the second half-open period
was never consumed. -/
def unusedPermitBreaker : fastBreaker :=
  (New tripAtOnce).run (staleHalfOpenReport ++ [Op.allow, Op.report StateClosed false])

/-! ## The callback of the break timer -/

/-- The callback of the break timer, run without interruption, as one update
of the record. -/
theorem breakTimerFunc_eq (cb : fastBreaker) :
    cb.breakTimerFunc
      = { (if cb.state = StateOpen then
            { cb with state := StateHalfOpen, halfOpenAllowed := true }
          else cb) with breakTimer := none } := by
  unfold fastBreaker.breakTimerFunc fastBreaker.breakTimerSwap fastBreaker.breakTimerStore
    fastBreaker.breakTimerClear
  by_cases h : cb.state = StateOpen <;> simp [h]

/-! ## Lemmas on rings -/

theorem counters_reset_eq (c : counters) : c.reset = { executions := 0, failures := 0 } := rfl

theorem u64_lt (n : Nat) : u64 n < 2 ^ 64 := Nat.mod_lt _ (by norm_num)

theorem u64_of_lt {n : Nat} (h : n < 2 ^ 64) : u64 n = n := Nat.mod_eq_of_lt h

theorem u64_u64_add (a b : Nat) : u64 (u64 a + b) = u64 (a + b) := by
  unfold u64; exact Nat.mod_add_mod a _ b

theorem u64_add_u64 (a b : Nat) : u64 (a + u64 b) = u64 (a + b) := by
  unfold u64; exact Nat.add_mod_mod a b _

theorem Ring_Next_length (r : Ring) : (Ring.Next r).length = r.length := by
  cases r <;> simp [Ring.Next]

theorem Ring_modifyValue_length (f : counters → counters) (r : Ring) :
    (Ring.modifyValue f r).length = r.length := by
  cases r <;> simp [Ring.modifyValue]

/-- Walking `ys.length` steps of the reset loop over `ys ++ zs` zeroes `ys` and
leaves the pointer on `zs`. -/
theorem resetLoop_append (ys zs : Ring) :
    resetLoop ys.length (ys ++ zs)
      = zs ++ List.replicate ys.length { executions := 0, failures := 0 } := by
  induction ys generalizing zs with
  | nil => simp [resetLoop]
  | cons y ys ih =>
    have h := ih (zs ++ [{ executions := 0, failures := 0 }])
    simp only [List.length_cons, List.cons_append, resetLoop, Ring.modifyValue, Ring.Next,
      counters_reset_eq]
    rw [List.append_assoc ys zs, h, List.append_assoc, List.replicate_succ]
    rfl

theorem resetLoop_full (r : Ring) :
    resetLoop (Ring.Len r) r = List.replicate r.length { executions := 0, failures := 0 } := by
  have h := resetLoop_append r []
  simpa [Ring.Len] using h

theorem initLoop_append (ys zs : Ring) :
    initLoop ys.length (ys ++ zs)
      = zs ++ List.replicate ys.length { executions := 0, failures := 0 } := by
  induction ys generalizing zs with
  | nil => simp [initLoop]
  | cons y ys ih =>
    have h := ih (zs ++ [{ executions := 0, failures := 0 }])
    simp only [List.length_cons, List.cons_append, initLoop, Ring.modifyValue, Ring.Next]
    rw [List.append_assoc ys zs, h, List.append_assoc, List.replicate_succ]
    rfl

theorem initLoop_full (r : Ring) :
    initLoop (Ring.Len r) r = List.replicate r.length { executions := 0, failures := 0 } := by
  have h := initLoop_append r []
  simpa [Ring.Len] using h

/-- The sums `ring.Do` accumulates, as plain sums reduced once. -/
theorem foldl_rolling (l : Ring) (a b : Nat) :
    l.foldl
        (fun acc counter => (u64 (acc.1 + counter.executions), u64 (acc.2 + counter.failures)))
        (u64 a, u64 b)
      = (u64 (a + (l.map counters.executions).sum), u64 (b + (l.map counters.failures).sum)) := by
  induction l generalizing a b with
  | nil => simp
  | cons c cs ih =>
    simp only [List.foldl_cons, List.map_cons, List.sum_cons, u64_u64_add]
    rw [ih]
    simp [Nat.add_assoc]

theorem RollingCounters_eq_sum (cb : fastBreaker) :
    cb.RollingCounters
      = (u64 (cb.ring.map counters.executions).sum, u64 (cb.ring.map counters.failures).sum) := by
  have h := foldl_rolling cb.ring 0 0
  simpa [fastBreaker.RollingCounters, u64] using h

/-! ## Stale reports -/

/-- C3: a reporter whose bound state differs from the current state of the
breaker leaves the whole breaker record unchanged, whatever outcome it is
called with: state, lifetime counters, rejected counter, every bucket, the
half-open permit and the break timer. -/
theorem handleFeedback_stale_unchanged (cb : fastBreaker) (bound : State) (success : Bool)
    (h : bound ≠ cb.state) :
    fastBreaker.buildFeedbackFunc bound success cb = cb := by
  simp [fastBreaker.buildFeedbackFunc, fastBreaker.handleFeedback, h]

theorem handleFeedback_stale_unchanged_witness :
    StateClosed ≠ openBreaker.state ∧
    fastBreaker.buildFeedbackFunc StateClosed true openBreaker = openBreaker :=
  ⟨by decide, handleFeedback_stale_unchanged openBreaker StateClosed true (by decide)⟩

/-! ## Half-open reports -/

theorem reset_state (cb : fastBreaker) : cb.reset.state = StateClosed := by
  unfold fastBreaker.reset
  cases cb.breakTimer <;> simp <;> split <;> rfl

theorem reset_totalCounters (cb : fastBreaker) : cb.reset.totalCounters = cb.totalCounters := by
  unfold fastBreaker.reset
  cases cb.breakTimer <;> simp <;> split <;> rfl

theorem reset_ring (cb : fastBreaker) (h : cb.state ≠ StateClosed) :
    cb.reset.ring = List.replicate cb.ring.length { executions := 0, failures := 0 } := by
  unfold fastBreaker.reset
  cases cb.breakTimer <;> simp [h, resetLoop_full]

theorem rolling_replicate_zero (cb : fastBreaker) (n : Nat)
    (h : cb.ring = List.replicate n { executions := 0, failures := 0 }) :
    cb.RollingCounters = (0, 0) := by
  rw [RollingCounters_eq_sum, h]
  simp [u64]

/-- C4: in HalfOpen, a success reported through a HalfOpen reporter closes the
breaker, zeroes every bucket (so `RollingCounters` is `(0, 0)`, over the same
number of buckets) and keeps `Executions` and `Failures` as they were. -/
theorem halfOpen_success_closes (cb : fastBreaker) (h : cb.State = StateHalfOpen) :
    (fastBreaker.buildFeedbackFunc StateHalfOpen true cb).State = StateClosed ∧
    (fastBreaker.buildFeedbackFunc StateHalfOpen true cb).RollingCounters = (0, 0) ∧
    (∀ c ∈ (fastBreaker.buildFeedbackFunc StateHalfOpen true cb).ring,
      c = { executions := 0, failures := 0 }) ∧
    (fastBreaker.buildFeedbackFunc StateHalfOpen true cb).ring.length = cb.ring.length ∧
    (fastBreaker.buildFeedbackFunc StateHalfOpen true cb).Executions = cb.Executions ∧
    (fastBreaker.buildFeedbackFunc StateHalfOpen true cb).Failures = cb.Failures := by
  have hs : cb.state = StateHalfOpen := h
  have hne : cb.state ≠ StateClosed := by rw [hs]; decide
  have e : fastBreaker.buildFeedbackFunc StateHalfOpen true cb = cb.reset := by
    simp [fastBreaker.buildFeedbackFunc, fastBreaker.handleFeedback, hs]
  rw [e]
  have hr := reset_ring cb hne
  refine ⟨reset_state cb, rolling_replicate_zero _ _ hr, ?_, ?_, ?_, ?_⟩
  · intro c hc
    rw [hr] at hc
    exact List.eq_of_mem_replicate hc
  · rw [hr]; simp
  · simp [fastBreaker.Executions, reset_totalCounters]
  · simp [fastBreaker.Failures, reset_totalCounters]

theorem halfOpen_success_closes_witness :
    halfOpenBreaker.State = StateHalfOpen ∧
    (fastBreaker.buildFeedbackFunc StateHalfOpen true halfOpenBreaker).State = StateClosed ∧
    (fastBreaker.buildFeedbackFunc StateHalfOpen true halfOpenBreaker).RollingCounters = (0, 0) :=
  ⟨by decide, (halfOpen_success_closes halfOpenBreaker (by decide)).1,
    (halfOpen_success_closes halfOpenBreaker (by decide)).2.1⟩

/-! ## Open and Stopped -/

theorem Allow_open (cb : fastBreaker) (h : cb.state = StateOpen) :
    cb.Allow = { reporter := none, err := some Error.ErrCircuitOpen,
                 cb := { cb with rejected := u64 (cb.rejected + 1) } } := by
  simp [fastBreaker.Allow, h]

theorem handleFeedback_open (cb : fastBreaker) (h : cb.state = StateOpen) (bound : State)
    (success : Bool) : cb.handleFeedback bound success = cb := by
  simp [fastBreaker.handleFeedback, h]

/-- C6: while the state is Open, `Allow` returns no reporter and
`ErrCircuitOpen`, adds one to `Rejected` (the `uint64` increment of
`rejected.Add(1)`, which is plus one below the top value) and changes nothing
else; and any single operation that takes the state away from Open is
either the firing of the break timer, which leads to HalfOpen, or `Stop`, which
leads to Stopped. -/
theorem open_rejects_until_timer_or_stop (cb : fastBreaker) (h : cb.State = StateOpen) :
    cb.Allow.reporter = none ∧
    cb.Allow.err = some Error.ErrCircuitOpen ∧
    cb.Allow.cb = { cb with rejected := u64 (cb.rejected + 1) } ∧
    cb.Allow.cb.Rejected = u64 (cb.Rejected + 1) ∧
    (cb.Rejected + 1 < 2 ^ 64 → cb.Allow.cb.Rejected = cb.Rejected + 1) ∧
    cb.Allow.cb.State = StateOpen ∧
    cb.Allow.cb.Executions = cb.Executions ∧
    cb.Allow.cb.Failures = cb.Failures ∧
    cb.Allow.cb.RollingCounters = cb.RollingCounters ∧
    (∀ op : Op, (cb.step op).State ≠ StateOpen →
      (op = Op.timer ∧ (cb.step op).State = StateHalfOpen) ∨
      (op = Op.stop ∧ (cb.step op).State = StateStopped)) := by
  have hs : cb.state = StateOpen := h
  rw [Allow_open cb hs]
  refine ⟨rfl, rfl, rfl, rfl, fun hlt => u64_of_lt hlt, hs, rfl, rfl, rfl, ?_⟩
  intro op hop
  cases op with
  | allow => exact absurd (by simp [fastBreaker.step, Allow_open cb hs, fastBreaker.State, hs]) hop
  | report bound success =>
    exact absurd (by
      simp [fastBreaker.step, fastBreaker.buildFeedbackFunc, handleFeedback_open cb hs,
        fastBreaker.State, hs]) hop
  | tick => exact absurd (by simp [fastBreaker.step, fastBreaker.advanceWindow, fastBreaker.State, hs]) hop
  | timer =>
    left
    simp [fastBreaker.step, breakTimerFunc_eq, fastBreaker.State, hs]
  | stop =>
    right
    refine ⟨rfl, ?_⟩
    simp only [fastBreaker.step, fastBreaker.Stop, fastBreaker.State]
    cases cb.breakTimer <;> rfl

theorem open_rejects_until_timer_or_stop_witness :
    openBreaker.State = StateOpen ∧
    openBreaker.Allow.err = some Error.ErrCircuitOpen ∧
    openBreaker.Allow.cb.Rejected = u64 (openBreaker.Rejected + 1) :=
  ⟨by decide, (open_rejects_until_timer_or_stop openBreaker (by decide)).2.1,
    (open_rejects_until_timer_or_stop openBreaker (by decide)).2.2.2.1⟩

theorem run_append (cb : fastBreaker) (xs ys : List Op) :
    cb.run (xs ++ ys) = (cb.run xs).run ys := by
  induction xs generalizing cb with
  | nil => rfl
  | cons x xs ih => simp [fastBreaker.run, ih]

theorem step_stopped (cb : fastBreaker) (op : Op) (h : cb.state = StateStopped)
    (ht : cb.advanceTicker.running = false) (hop : op ≠ Op.tick) :
    (cb.step op).state = StateStopped ∧ (cb.step op).totalCounters = cb.totalCounters ∧
    (cb.step op).rejected = cb.rejected ∧ (cb.step op).ring = cb.ring ∧
    (cb.step op).advanceTicker.running = false := by
  cases op with
  | allow => simp [fastBreaker.step, fastBreaker.Allow, h, ht]
  | report bound success =>
    simp only [fastBreaker.step, fastBreaker.buildFeedbackFunc, fastBreaker.handleFeedback, h]
    by_cases hb : bound = StateStopped <;> simp [hb, h, ht]
  | tick => exact absurd rfl hop
  | timer => simp [fastBreaker.step, breakTimerFunc_eq, h, ht]
  | stop =>
    simp only [fastBreaker.step, fastBreaker.Stop]
    cases cb.breakTimer <;> simp [Ticker.Stop]

theorem run_stopped (ops : List Op) (cb : fastBreaker) (h : cb.state = StateStopped)
    (ht : cb.advanceTicker.running = false) (hops : ∀ op ∈ ops, op ≠ Op.tick) :
    (cb.run ops).state = StateStopped ∧ (cb.run ops).totalCounters = cb.totalCounters ∧
    (cb.run ops).rejected = cb.rejected ∧ (cb.run ops).ring = cb.ring ∧
    (cb.run ops).advanceTicker.running = false := by
  induction ops generalizing cb with
  | nil => exact ⟨h, rfl, rfl, rfl, ht⟩
  | cons op ops ih =>
    have h1 := step_stopped cb op h ht (hops op (List.mem_cons_self _ _))
    have h2 := ih (cb.step op) h1.1 h1.2.2.2.2 (fun o ho => hops o (List.mem_cons_of_mem _ ho))
    simp only [fastBreaker.run]
    exact ⟨h2.1, h2.2.1.trans h1.2.1, h2.2.2.1.trans h1.2.2.1, h2.2.2.2.1.trans h1.2.2.2.1,
      h2.2.2.2.2⟩

theorem Stop_fields (cb : fastBreaker) :
    cb.Stop.state = StateStopped ∧ cb.Stop.totalCounters = cb.totalCounters ∧
    cb.Stop.rejected = cb.rejected ∧ cb.Stop.ring = cb.ring ∧
    cb.Stop.advanceTicker.running = false := by
  unfold fastBreaker.Stop
  cases cb.breakTimer <;> simp [Ticker.Stop]

/-- C7: after `Stop`, along every sequence of `Allow` calls, reporter calls
(any bound state, any outcome), break-timer firings and further `Stop` calls,
at every point of the sequence the state is Stopped, `Executions`, `Failures`,
`Rejected` and the rolling counters (indeed every bucket) are those of the
breaker when it was stopped, the window ticker stays stopped, and every
`Allow` of the sequence returns no reporter and `ErrCircuitStopped`. -/
theorem stopped_is_terminal (cb : fastBreaker) (ops : List Op)
    (hops : ∀ op ∈ ops, op ≠ Op.tick) :
    ∀ pre suf : List Op, ops = pre ++ suf →
      (cb.Stop.run pre).State = StateStopped ∧
      (cb.Stop.run pre).Executions = cb.Executions ∧
      (cb.Stop.run pre).Failures = cb.Failures ∧
      (cb.Stop.run pre).Rejected = cb.Rejected ∧
      (cb.Stop.run pre).RollingCounters = cb.RollingCounters ∧
      (cb.Stop.run pre).ring = cb.ring ∧
      (cb.Stop.run pre).advanceTicker.running = false ∧
      (cb.Stop.run pre).Allow.reporter = none ∧
      (cb.Stop.run pre).Allow.err = some Error.ErrCircuitStopped ∧
      (cb.Stop.run pre).Allow.cb = cb.Stop.run pre := by
  intro pre suf hsplit
  have hpre : ∀ op ∈ pre, op ≠ Op.tick := fun o ho =>
    hops o (by rw [hsplit]; exact List.mem_append_left _ ho)
  have hS := Stop_fields cb
  have hR := run_stopped pre cb.Stop hS.1 hS.2.2.2.2 hpre
  have hst : (cb.Stop.run pre).state = StateStopped := hR.1
  refine ⟨hR.1, ?_, ?_, ?_, ?_, ?_, ?_, ?_, ?_, ?_⟩
  · simp [fastBreaker.Executions, hR.2.1, hS.2.1]
  · simp [fastBreaker.Failures, hR.2.1, hS.2.1]
  · simp [fastBreaker.Rejected, hR.2.2.1, hS.2.2.1]
  · simp [fastBreaker.RollingCounters, hR.2.2.2.1, hS.2.2.2.1]
  · rw [hR.2.2.2.1, hS.2.2.2.1]
  · exact hR.2.2.2.2
  · simp [fastBreaker.Allow, hst]
  · simp [fastBreaker.Allow, hst]
  · simp [fastBreaker.Allow, hst]

theorem stopped_is_terminal_witness :
    (∀ op ∈ [Op.allow, Op.report StateHalfOpen true, Op.timer, Op.allow], op ≠ Op.tick) ∧
    (halfOpenBreaker.Stop.run [Op.allow, Op.report StateHalfOpen true, Op.timer]).State
      = StateStopped ∧
    (halfOpenBreaker.Stop.run [Op.allow, Op.report StateHalfOpen true, Op.timer]).Allow.err
      = some Error.ErrCircuitStopped :=
  ⟨by decide,
    (stopped_is_terminal halfOpenBreaker
      [Op.allow, Op.report StateHalfOpen true, Op.timer, Op.allow] (by decide)
      [Op.allow, Op.report StateHalfOpen true, Op.timer] [Op.allow] rfl).1,
    (stopped_is_terminal halfOpenBreaker
      [Op.allow, Op.report StateHalfOpen true, Op.timer, Op.allow] (by decide)
      [Op.allow, Op.report StateHalfOpen true, Op.timer] [Op.allow] rfl).2.2.2.2.2.2.2.2.1⟩

/-! ## The half-open permit -/

theorem step_halfOpen_permit (cb : fastBreaker) (op : Op) (h : cb.state = StateHalfOpen)
    (h2 : (cb.step op).state = StateHalfOpen) :
    (cb.step op).halfOpenAllowed = (cb.halfOpenAllowed && decide (op ≠ Op.allow)) ∧
    ((cb.step op).rejected = cb.rejected ∨ op = Op.allow) := by
  cases op with
  | allow =>
    cases hp : cb.halfOpenAllowed <;> simp [fastBreaker.step, fastBreaker.Allow, h, hp]
  | report bound success =>
    by_cases hb : bound = StateHalfOpen
    · subst hb
      exfalso
      cases success
      · simp [fastBreaker.step, fastBreaker.buildFeedbackFunc, fastBreaker.handleFeedback, h,
          fastBreaker.tripFrom] at h2
        revert h2
        cases cb.breakTimer <;> simp
      · simp [fastBreaker.step, fastBreaker.buildFeedbackFunc, fastBreaker.handleFeedback, h,
          reset_state] at h2
    · have hb2 : bound ≠ cb.state := by rw [h]; exact hb
      simp [fastBreaker.step, fastBreaker.buildFeedbackFunc, fastBreaker.handleFeedback, hb2]
  | tick => simp [fastBreaker.step, fastBreaker.advanceWindow]
  | timer => simp [fastBreaker.step, breakTimerFunc_eq, h]
  | stop =>
    exfalso
    have := (Stop_fields cb).1
    simp only [fastBreaker.step] at h2
    rw [this] at h2
    exact absurd h2 (by decide)

theorem staysIn_append (st : State) (xs ys : List Op) (cb : fastBreaker)
    (h : fastBreaker.staysIn st cb (xs ++ ys) = true) :
    fastBreaker.staysIn st cb xs = true := by
  induction xs generalizing cb with
  | nil => rfl
  | cons x xs ih =>
    simp only [List.cons_append, fastBreaker.staysIn, Bool.and_eq_true] at h ⊢
    exact ⟨h.1, ih _ h.2⟩

theorem run_halfOpen_permit (ops : List Op) (cb : fastBreaker) (h : cb.state = StateHalfOpen)
    (hstay : fastBreaker.staysIn StateHalfOpen cb ops = true) :
    (cb.run ops).state = StateHalfOpen ∧
    (cb.run ops).halfOpenAllowed = (cb.halfOpenAllowed && decide (Op.allow ∉ ops)) := by
  induction ops generalizing cb with
  | nil => simp [fastBreaker.run, h]
  | cons op ops ih =>
    simp only [fastBreaker.staysIn, Bool.and_eq_true, decide_eq_true_eq] at hstay
    have h1 := step_halfOpen_permit cb op h hstay.1
    have h2 := ih (cb.step op) hstay.1 hstay.2
    simp only [fastBreaker.run]
    refine ⟨h2.1, ?_⟩
    rw [h2.2, h1.1]
    by_cases ha : op = Op.allow
    · simp [ha]
    · have ha2 : ¬ Op.allow = op := fun e => ha e.symm
      simp [ha, ha2, List.mem_cons]

theorem Allow_halfOpen (cb : fastBreaker) (h : cb.state = StateHalfOpen) :
    (cb.halfOpenAllowed = true →
      cb.Allow.reporter = some StateHalfOpen ∧ cb.Allow.err = none ∧
      cb.Allow.cb.Rejected = cb.Rejected) ∧
    (cb.halfOpenAllowed = false →
      cb.Allow.reporter = none ∧ cb.Allow.err = some Error.ErrCircuitOpen ∧
      cb.Allow.cb.Rejected = u64 (cb.Rejected + 1) ∧
      (cb.Rejected + 1 < 2 ^ 64 → cb.Allow.cb.Rejected = cb.Rejected + 1)) := by
  constructor
  · intro hp
    simp [fastBreaker.Allow, h, hp, fastBreaker.Rejected]
  · intro hp
    have hrej : cb.Allow.cb.Rejected = u64 (cb.Rejected + 1) := by
      simp [fastBreaker.Allow, h, hp, fastBreaker.Rejected]
    refine ⟨?_, ?_, hrej, fun hlt => hrej.trans (u64_of_lt hlt)⟩
    · simp [fastBreaker.Allow, h, hp]
    · simp [fastBreaker.Allow, h, hp]

theorem stmt_halfOpen_permit (cb : fastBreaker) (s : Stmt) (h : cb.state = StateHalfOpen)
    (h2 : (cb.stmt s).state = StateHalfOpen) (hs : s ≠ Stmt.store) :
    (cb.stmt s).halfOpenAllowed
      = (cb.halfOpenAllowed && decide (s ≠ Stmt.call Op.allow)) := by
  cases s with
  | call op =>
    have := (step_halfOpen_permit cb op h h2).1
    simp only [fastBreaker.stmt]
    rw [this]
    by_cases ha : op = Op.allow
    · simp [ha]
    · simp [ha]
  | store => exact absurd rfl hs
  | clear => simp [fastBreaker.stmt, fastBreaker.breakTimerClear]

theorem staysInAmid_append (st : State) (xs ys : List Stmt) (cb : fastBreaker)
    (h : fastBreaker.staysInAmid st cb (xs ++ ys) = true) :
    fastBreaker.staysInAmid st cb xs = true := by
  induction xs generalizing cb with
  | nil => rfl
  | cons x xs ih =>
    simp only [List.cons_append, fastBreaker.staysInAmid, Bool.and_eq_true] at h ⊢
    exact ⟨h.1, ih _ h.2⟩

theorem interleave_halfOpen_permit (ss : List Stmt) (cb : fastBreaker)
    (h : cb.state = StateHalfOpen)
    (hstay : fastBreaker.staysInAmid StateHalfOpen cb ss = true)
    (hno : Stmt.store ∉ ss) :
    (cb.interleave ss).state = StateHalfOpen ∧
    (cb.interleave ss).halfOpenAllowed
      = (cb.halfOpenAllowed && decide (Stmt.call Op.allow ∉ ss)) := by
  induction ss generalizing cb with
  | nil => simp [fastBreaker.interleave, h]
  | cons s ss ih =>
    simp only [fastBreaker.staysInAmid, Bool.and_eq_true, decide_eq_true_eq] at hstay
    have hs : s ≠ Stmt.store := fun e => hno (by rw [e]; exact List.mem_cons_self _ _)
    have h1 := stmt_halfOpen_permit cb s h hstay.1 hs
    have h2 := ih (cb.stmt s) hstay.1 hstay.2 (fun hm => hno (List.mem_cons_of_mem _ hm))
    simp only [fastBreaker.interleave]
    refine ⟨h2.1, ?_⟩
    rw [h2.2, h1]
    by_cases ha : s = Stmt.call Op.allow
    · simp [ha]
    · have ha2 : ¬ Stmt.call Op.allow = s := fun e => ha e.symm
      simp [ha, ha2, List.mem_cons]

theorem breakTimerSwap_open (cb : fastBreaker) (h : cb.state = StateOpen) :
    cb.breakTimerSwap = ({ cb with state := StateHalfOpen }, true) := by
  simp [fastBreaker.breakTimerSwap, h]

/-- C2 (amended): let the callback of the break timer have moved an Open
breaker to HalfOpen by its compare-and-swap, and let the state stay HalfOpen
along the operations `early` that other goroutines run before the statement
`halfOpenAllowed.Store(true)` of the callback and along the steps `late` that
follow the store (whole operations and the statement `cb.breakTimer = nil`).  If the permit
was clear when the timer fired, every `Allow` of `early` returns no reporter
and `ErrCircuitOpen` and adds one to `Rejected`.  Whatever the permit was, the
`Allow` of `late` that has no `Allow` of `late` before it is granted a
reporter bound to HalfOpen without touching `Rejected`, and every other
`Allow` of `late` returns no reporter and `ErrCircuitOpen` and adds one to
`Rejected` (the `uint64` increment of `rejected.Add(1)`, which is plus one
below the top value).  The callback run without interruption is the case of
no operation in `early` and `cb.breakTimer = nil` first in `late`. -/
theorem halfOpen_grants_first_after_store (cb : fastBreaker) (early : List Op)
    (late : List Stmt) (h : cb.State = StateOpen)
    (hearly : fastBreaker.staysIn StateHalfOpen cb.breakTimerSwap.1 early = true)
    (hlate : fastBreaker.staysInAmid StateHalfOpen
      (cb.breakTimerSwap.1.run early).breakTimerStore late = true)
    (hstore : Stmt.store ∉ late) :
    cb.breakTimerSwap.2 = true ∧ cb.breakTimerSwap.1.State = StateHalfOpen ∧
    cb.breakTimerSwap.1.halfOpenAllowed = cb.halfOpenAllowed ∧
    (cb.halfOpenAllowed = false →
      ∀ pre suf : List Op, early = pre ++ Op.allow :: suf →
        (cb.breakTimerSwap.1.run pre).State = StateHalfOpen ∧
        (cb.breakTimerSwap.1.run pre).Allow.reporter = none ∧
        (cb.breakTimerSwap.1.run pre).Allow.err = some Error.ErrCircuitOpen ∧
        (cb.breakTimerSwap.1.run pre).Allow.cb.Rejected
          = u64 ((cb.breakTimerSwap.1.run pre).Rejected + 1) ∧
        ((cb.breakTimerSwap.1.run pre).Rejected + 1 < 2 ^ 64 →
          (cb.breakTimerSwap.1.run pre).Allow.cb.Rejected
            = (cb.breakTimerSwap.1.run pre).Rejected + 1)) ∧
    (∀ pre suf : List Stmt, late = pre ++ Stmt.call Op.allow :: suf →
      (((cb.breakTimerSwap.1.run early).breakTimerStore).interleave pre).State
        = StateHalfOpen ∧
      (Stmt.call Op.allow ∉ pre →
        (((cb.breakTimerSwap.1.run early).breakTimerStore).interleave pre).Allow.reporter
          = some StateHalfOpen ∧
        (((cb.breakTimerSwap.1.run early).breakTimerStore).interleave pre).Allow.err = none ∧
        (((cb.breakTimerSwap.1.run early).breakTimerStore).interleave pre).Allow.cb.Rejected
          = (((cb.breakTimerSwap.1.run early).breakTimerStore).interleave pre).Rejected) ∧
      (Stmt.call Op.allow ∈ pre →
        (((cb.breakTimerSwap.1.run early).breakTimerStore).interleave pre).Allow.reporter
          = none ∧
        (((cb.breakTimerSwap.1.run early).breakTimerStore).interleave pre).Allow.err
          = some Error.ErrCircuitOpen ∧
        (((cb.breakTimerSwap.1.run early).breakTimerStore).interleave pre).Allow.cb.Rejected
          = u64 ((((cb.breakTimerSwap.1.run early).breakTimerStore).interleave pre).Rejected
              + 1) ∧
        ((((cb.breakTimerSwap.1.run early).breakTimerStore).interleave pre).Rejected + 1
            < 2 ^ 64 →
          (((cb.breakTimerSwap.1.run early).breakTimerStore).interleave pre).Allow.cb.Rejected
            = (((cb.breakTimerSwap.1.run early).breakTimerStore).interleave pre).Rejected
              + 1))) ∧
    cb.breakTimerFunc = cb.breakTimerSwap.1.interleave [Stmt.store, Stmt.clear] := by
  have hs : cb.state = StateOpen := h
  have hsw := breakTimerSwap_open cb hs
  have h0 : cb.breakTimerSwap.1.state = StateHalfOpen := by rw [hsw]
  have hp0 : cb.breakTimerSwap.1.halfOpenAllowed = cb.halfOpenAllowed := by rw [hsw]
  have hE := run_halfOpen_permit early _ h0 hearly
  have h1 : ((cb.breakTimerSwap.1.run early).breakTimerStore).state = StateHalfOpen := hE.1
  have hp1 : ((cb.breakTimerSwap.1.run early).breakTimerStore).halfOpenAllowed = true := rfl
  refine ⟨by rw [hsw], h0, hp0, ?_, ?_, ?_⟩
  · intro hclear pre suf hsplit
    have hpre : fastBreaker.staysIn StateHalfOpen cb.breakTimerSwap.1 pre = true := by
      rw [hsplit] at hearly
      exact staysIn_append _ _ _ _ hearly
    have hR := run_halfOpen_permit pre _ h0 hpre
    rw [hp0, hclear, Bool.false_and] at hR
    exact ⟨hR.1, (Allow_halfOpen _ hR.1).2 hR.2⟩
  · intro pre suf hsplit
    have hpre : fastBreaker.staysInAmid StateHalfOpen
        (cb.breakTimerSwap.1.run early).breakTimerStore pre = true := by
      rw [hsplit] at hlate
      exact staysInAmid_append _ _ _ _ hlate
    have hno : Stmt.store ∉ pre := fun hm => hstore (by rw [hsplit]; simp [hm])
    have hR := interleave_halfOpen_permit pre _ h1 hpre hno
    rw [hp1, Bool.true_and] at hR
    refine ⟨hR.1, ?_, ?_⟩
    · intro hnone
      exact (Allow_halfOpen _ hR.1).1 (by rw [hR.2]; simp [hnone])
    · intro hsome
      exact (Allow_halfOpen _ hR.1).2 (by rw [hR.2]; simp [hsome])
  · simp only [fastBreaker.breakTimerFunc, fastBreaker.interleave, fastBreaker.stmt]
    rw [hsw]
    rfl

theorem halfOpen_grants_first_after_store_witness :
    openBreaker.State = StateOpen ∧ openBreaker.halfOpenAllowed = false ∧
    fastBreaker.staysIn StateHalfOpen openBreaker.breakTimerSwap.1 [Op.allow, Op.tick] = true ∧
    fastBreaker.staysInAmid StateHalfOpen
      (openBreaker.breakTimerSwap.1.run [Op.allow, Op.tick]).breakTimerStore
      [Stmt.call Op.allow, Stmt.clear, Stmt.call (Op.report StateClosed true),
        Stmt.call Op.allow] = true ∧
    openBreaker.breakTimerSwap.1.Allow.err = some Error.ErrCircuitOpen ∧
    ((openBreaker.breakTimerSwap.1.run [Op.allow, Op.tick]).breakTimerStore).Allow.reporter
      = some StateHalfOpen ∧
    (((openBreaker.breakTimerSwap.1.run [Op.allow, Op.tick]).breakTimerStore).interleave
      [Stmt.call Op.allow, Stmt.clear, Stmt.call (Op.report StateClosed true)]).Allow.err
      = some Error.ErrCircuitOpen :=
  ⟨by decide, by decide, by decide, by decide,
    ((halfOpen_grants_first_after_store openBreaker [Op.allow, Op.tick]
      [Stmt.call Op.allow, Stmt.clear, Stmt.call (Op.report StateClosed true),
        Stmt.call Op.allow] (by decide) (by decide) (by decide) (by decide)).2.2.2.1
      (by decide) [] [Op.tick] rfl).2.2.1,
    (((halfOpen_grants_first_after_store openBreaker [Op.allow, Op.tick]
      [Stmt.call Op.allow, Stmt.clear, Stmt.call (Op.report StateClosed true),
        Stmt.call Op.allow] (by decide) (by decide) (by decide) (by decide)).2.2.2.2.1
      [] [Stmt.clear, Stmt.call (Op.report StateClosed true), Stmt.call Op.allow] rfl).2.1
      (by decide)).1,
    (((halfOpen_grants_first_after_store openBreaker [Op.allow, Op.tick]
      [Stmt.call Op.allow, Stmt.clear, Stmt.call (Op.report StateClosed true),
        Stmt.call Op.allow] (by decide) (by decide) (by decide) (by decide)).2.2.2.2.1
      [Stmt.call Op.allow, Stmt.clear, Stmt.call (Op.report StateClosed true)]
      [] rfl).2.2 (by decide)).2.1⟩

/-! ## The break timer along sequential executions -/

theorem New_state (c : Configuration) : (New c).state = StateClosed := by
  unfold New
  exact reset_state _

theorem New_breakTimer (c : Configuration) : (New c).breakTimer = none := by
  simp [New, fastBreaker.reset]

theorem handleFeedback_closed_success (cb : fastBreaker) (h : cb.state = StateClosed) :
    cb.handleFeedback StateClosed true = cb.incExecutions := by
  simp [fastBreaker.handleFeedback, h]

theorem handleFeedback_closed_failure_nil (cb : fastBreaker) (h : cb.state = StateClosed)
    (hp : cb.configuration.ShouldTrip = none) :
    cb.handleFeedback StateClosed false = cb.incExecutions.incFailures := by
  have hp2 : cb.incExecutions.incFailures.configuration.ShouldTrip = none := hp
  simp [fastBreaker.handleFeedback, h, hp2]

theorem handleFeedback_closed_failure (cb : fastBreaker) (shouldTrip : ShouldTripFunc)
    (h : cb.state = StateClosed) (hp : cb.configuration.ShouldTrip = some shouldTrip) :
    cb.handleFeedback StateClosed false
      = if shouldTrip cb.incExecutions.incFailures.RollingCounters.1
            cb.incExecutions.incFailures.RollingCounters.2 = true then
          ((cb.incExecutions.incFailures.recordShouldTrip
              cb.incExecutions.incFailures.RollingCounters.1
              cb.incExecutions.incFailures.RollingCounters.2).tripFrom StateClosed).1
        else
          cb.incExecutions.incFailures.recordShouldTrip
            cb.incExecutions.incFailures.RollingCounters.1
            cb.incExecutions.incFailures.RollingCounters.2 := by
  have hp2 : cb.incExecutions.incFailures.configuration.ShouldTrip = some shouldTrip := hp
  simp [fastBreaker.handleFeedback, h, hp2]

theorem handleFeedback_halfOpen_success (cb : fastBreaker) (h : cb.state = StateHalfOpen) :
    cb.handleFeedback StateHalfOpen true = cb.reset := by
  simp [fastBreaker.handleFeedback, h]

theorem handleFeedback_halfOpen_failure (cb : fastBreaker) (h : cb.state = StateHalfOpen) :
    cb.handleFeedback StateHalfOpen false = (cb.tripFrom StateHalfOpen).1 := by
  simp [fastBreaker.handleFeedback, h]

theorem handleFeedback_other (cb : fastBreaker) (bound : State) (success : Bool)
    (h : bound ≠ cb.state ∨ (cb.state ≠ StateClosed ∧ cb.state ≠ StateHalfOpen)) :
    cb.handleFeedback bound success = cb := by
  rcases h with h | ⟨h1, h2⟩
  · simp [fastBreaker.handleFeedback, h]
  · simp [fastBreaker.handleFeedback, h1, h2]

theorem tripFrom_eq (cb : fastBreaker) (st : State) (h : cb.state = st) :
    (cb.tripFrom st).1
      = { cb with
          state := StateOpen
          breakTimer := some (cb.breakTimer.getD
            { duration := cb.configuration.DurationOfBreak, pending := true }) } := by
  unfold fastBreaker.tripFrom
  cases hb : cb.breakTimer <;> simp [h, hb]

theorem reset_breakTimer (cb : fastBreaker) :
    cb.reset.breakTimer = cb.breakTimer.map Timer.Stop := by
  unfold fastBreaker.reset
  cases hb : cb.breakTimer <;> simp <;> split <;> simp [hb]

theorem reset_configuration (cb : fastBreaker) : cb.reset.configuration = cb.configuration := by
  unfold fastBreaker.reset
  cases cb.breakTimer <;> simp <;> split <;> rfl

/-- What a report does to the state, the break timer and the configuration:
nothing; or a failure opens a Closed or HalfOpen breaker, arming a timer when
none is referenced; or a success closes a HalfOpen breaker, stopping the
timer. -/
theorem handleFeedback_transition (cb : fastBreaker) (bound : State) (success : Bool) :
    (cb.handleFeedback bound success).configuration = cb.configuration ∧
    (((cb.handleFeedback bound success).state = cb.state ∧
        (cb.handleFeedback bound success).breakTimer = cb.breakTimer) ∨
     ((cb.state = StateClosed ∨ cb.state = StateHalfOpen) ∧ bound = cb.state ∧
        success = false ∧
        (cb.handleFeedback bound success).state = StateOpen ∧
        (cb.handleFeedback bound success).breakTimer
          = some (cb.breakTimer.getD
              { duration := cb.configuration.DurationOfBreak, pending := true })) ∨
     (cb.state = StateHalfOpen ∧ bound = cb.state ∧ success = true ∧
        (cb.handleFeedback bound success).state = StateClosed ∧
        (cb.handleFeedback bound success).breakTimer = cb.breakTimer.map Timer.Stop)) := by
  by_cases hb : bound = cb.state
  swap
  · rw [handleFeedback_other cb bound success (Or.inl hb)]
    exact ⟨rfl, Or.inl ⟨rfl, rfl⟩⟩
  by_cases hc : cb.state = StateClosed
  · rw [hb, hc]
    cases success
    · cases hp : cb.configuration.ShouldTrip with
      | none =>
        rw [handleFeedback_closed_failure_nil cb hc hp]
        exact ⟨rfl, Or.inl ⟨hc, rfl⟩⟩
      | some f =>
        rw [handleFeedback_closed_failure cb f hc hp]
        split
        · rw [tripFrom_eq _ _ (show (cb.incExecutions.incFailures.recordShouldTrip _ _).state
            = StateClosed from hc)]
          exact ⟨rfl, Or.inr (Or.inl ⟨Or.inl rfl, rfl, rfl, rfl, rfl⟩)⟩
        · exact ⟨rfl, Or.inl ⟨hc, rfl⟩⟩
    · rw [handleFeedback_closed_success cb hc]
      exact ⟨rfl, Or.inl ⟨hc, rfl⟩⟩
  by_cases hh : cb.state = StateHalfOpen
  · rw [hb, hh]
    cases success
    · rw [handleFeedback_halfOpen_failure cb hh, tripFrom_eq _ _ hh]
      exact ⟨rfl, Or.inr (Or.inl ⟨Or.inr rfl, rfl, rfl, rfl, rfl⟩)⟩
    · rw [handleFeedback_halfOpen_success cb hh]
      exact ⟨reset_configuration cb, Or.inr (Or.inr ⟨rfl, rfl, rfl, reset_state cb,
        reset_breakTimer cb⟩)⟩
  · rw [handleFeedback_other cb bound success (Or.inr ⟨hc, hh⟩)]
    exact ⟨rfl, Or.inl ⟨rfl, rfl⟩⟩

theorem Allow_cb_fields (cb : fastBreaker) :
    cb.Allow.cb.state = cb.state ∧ cb.Allow.cb.breakTimer = cb.breakTimer ∧
    cb.Allow.cb.configuration = cb.configuration ∧
    cb.Allow.cb.totalCounters = cb.totalCounters ∧ cb.Allow.cb.ring = cb.ring := by
  unfold fastBreaker.Allow
  repeat' split
  all_goals exact ⟨rfl, rfl, rfl, rfl, rfl⟩

/-- Along sequential executions the break timer is absent when the state is
Closed or HalfOpen, and pending for the configured duration when it is Open. -/
theorem reachable_breakTimer {cb : fastBreaker} {rs : List State} (hr : Reachable cb rs) :
    ((cb.state = StateClosed ∨ cb.state = StateHalfOpen) → cb.breakTimer = none) ∧
    (cb.state = StateOpen →
      cb.breakTimer = some { duration := cb.configuration.DurationOfBreak, pending := true }) := by
  induction hr with
  | new c =>
    refine ⟨fun _ => New_breakTimer c, fun h => ?_⟩
    rw [New_state] at h
    exact absurd h (by decide)
  | @allow cb rs _ ih =>
    have e := Allow_cb_fields cb
    rw [e.1, e.2.1, e.2.2.1]
    exact ih
  | @report cb rs bound success _ _ ih =>
    simp only [fastBreaker.buildFeedbackFunc]
    obtain ⟨hcfg, ht⟩ := handleFeedback_transition cb bound success
    rw [hcfg]
    rcases ht with ⟨h1, h2⟩ | ⟨h0, _, _, h1, h2⟩ | ⟨h0, _, _, h1, h2⟩
    · rw [h1, h2]; exact ih
    · rw [h1, h2, ih.1 h0]
      exact ⟨fun h => by rcases h with h | h <;> exact absurd h (by decide), fun _ => rfl⟩
    · rw [h1, h2, ih.1 (Or.inr h0)]
      exact ⟨fun _ => rfl, fun h => absurd h (by decide)⟩
  | @tick cb rs _ _ ih =>
    simpa [fastBreaker.advanceWindow] using ih
  | @timer cb rs t _ _ _ ih =>
    by_cases ho : cb.state = StateOpen
    · simp [breakTimerFunc_eq, ho]
    · simp [breakTimerFunc_eq, ho]
  | @stop cb rs _ ih =>
    have := (Stop_fields cb).1
    rw [this]
    exact ⟨fun h => by rcases h with h | h <;> exact absurd h (by decide),
      fun h => absurd h (by decide)⟩

theorem advanceWindow_iterate (k : Nat) (cb : fastBreaker) :
    fastBreaker.advanceWindow^[k] cb
      = { cb with ring := (fun r => Ring.modifyValue counters.reset (Ring.Next r))^[k] cb.ring } := by
  induction k generalizing cb with
  | zero => rfl
  | succ k ih =>
    rw [Function.iterate_succ_apply, Function.iterate_succ_apply, ih]
    rfl

/-- Ticks over `h :: y :: ys ++ zs`: after `ys.length + 1` of them the pointer
is on the bucket before `zs`, the buckets `y :: ys` have been zeroed and `h`
is the only one of the buckets behind the pointer not yet zeroed. -/
theorem ticks_closed_form (ys : Ring) (h y : counters) (zs : Ring) :
    (fun r => Ring.modifyValue counters.reset (Ring.Next r))^[ys.length + 1] (h :: y :: ys ++ zs)
      = { executions := 0, failures := 0 } :: zs
          ++ h :: List.replicate ys.length { executions := 0, failures := 0 } := by
  induction ys generalizing h y zs with
  | nil =>
    simp [Ring.Next, Ring.modifyValue, counters.reset]
  | cons y2 ys ih =>
    rw [List.length_cons, Function.iterate_succ_apply]
    have e : Ring.modifyValue counters.reset (Ring.Next (h :: y :: (y2 :: ys) ++ zs))
        = { executions := 0, failures := 0 } :: y2 :: ys ++ (zs ++ [h]) := by
      simp [Ring.Next, Ring.modifyValue, counters.reset]
    rw [e, ih]
    simp [List.replicate_succ]

theorem ticks_drop (k : Nat) (h : counters) (rest : Ring) (hk : 1 ≤ k) (hl : k ≤ rest.length) :
    (fun r => Ring.modifyValue counters.reset (Ring.Next r))^[k] (h :: rest)
      = { executions := 0, failures := 0 } :: rest.drop k
          ++ h :: List.replicate (k - 1) { executions := 0, failures := 0 } := by
  obtain ⟨j, rfl⟩ : ∃ j, k = j + 1 := ⟨k - 1, by omega⟩
  have hsplit : rest = rest.take (j + 1) ++ rest.drop (j + 1) := (List.take_append_drop _ _).symm
  have hlen : (rest.take (j + 1)).length = j + 1 := by
    rw [List.length_take]; omega
  cases ht : rest.take (j + 1) with
  | nil => rw [ht] at hlen; simp at hlen
  | cons y ys =>
    rw [ht] at hlen hsplit
    have hys : ys.length = j := by simpa using hlen
    have key := ticks_closed_form ys h y (rest.drop (j + 1))
    rw [hys] at key
    have e : h :: rest = h :: y :: ys ++ List.drop (j + 1) rest := by
      conv_lhs => rw [hsplit]
      rfl
    rw [e, key]
    simp

theorem ticks_full (r : Ring) :
    (fun r => Ring.modifyValue counters.reset (Ring.Next r))^[r.length] r
      = List.replicate r.length { executions := 0, failures := 0 } := by
  match r with
  | [] => rfl
  | [h] => simp [Ring.Next, Ring.modifyValue, counters.reset]
  | h :: y :: ys =>
    have key := ticks_closed_form ys h y []
    rw [show (h :: y :: ys).length = (ys.length + 1) + 1 from rfl,
      Function.iterate_succ_apply']
    simp only [List.append_nil] at key
    rw [key]
    simp [Ring.Next, Ring.modifyValue, counters.reset, List.replicate_succ,
      ← List.replicate_succ']

/-- As many ticks as there are buckets leave every bucket at zero. -/
theorem ticks_age_out (cb : fastBreaker) :
    (fastBreaker.advanceWindow^[Ring.Len cb.ring] cb).ring
      = List.replicate cb.ring.length { executions := 0, failures := 0 } := by
  rw [advanceWindow_iterate]
  exact ticks_full cb.ring

/-- C8: for a breaker with any number of buckets, in any state, as many window
ticks as there are buckets, with no report in between, leave every bucket at
zero, so that `RollingCounters` returns `(0, 0)`, while `Executions` and
`Failures` (and the state and `Rejected`) keep their values. -/
theorem rolling_counters_age_out (cb : fastBreaker) :
    (fastBreaker.advanceWindow^[Ring.Len cb.ring] cb).RollingCounters = (0, 0) ∧
    (∀ c ∈ (fastBreaker.advanceWindow^[Ring.Len cb.ring] cb).ring,
      c = { executions := 0, failures := 0 }) ∧
    (fastBreaker.advanceWindow^[Ring.Len cb.ring] cb).Executions = cb.Executions ∧
    (fastBreaker.advanceWindow^[Ring.Len cb.ring] cb).Failures = cb.Failures ∧
    (fastBreaker.advanceWindow^[Ring.Len cb.ring] cb).State = cb.State ∧
    (fastBreaker.advanceWindow^[Ring.Len cb.ring] cb).Rejected = cb.Rejected := by
  have hr := ticks_age_out cb
  refine ⟨rolling_replicate_zero _ cb.ring.length hr, ?_, ?_, ?_, ?_, ?_⟩
  · intro c hc
    rw [hr] at hc
    exact List.eq_of_mem_replicate hc
  all_goals rw [advanceWindow_iterate]
  all_goals rfl

theorem handleFeedback_closed_ring (cb : fastBreaker) (success : Bool) (h : counters)
    (rest : Ring) (hs : cb.state = StateClosed) (hr : cb.ring = h :: rest) :
    (cb.handleFeedback StateClosed success).ring
      = { executions := u64 (h.executions + 1),
          failures := if success = true then h.failures else u64 (h.failures + 1) } :: rest := by
  have e1 : cb.incExecutions.ring
      = { executions := u64 (h.executions + 1), failures := h.failures } :: rest := by
    simp [fastBreaker.incExecutions, hr, Ring.modifyValue]
  have e2 : cb.incExecutions.incFailures.ring
      = { executions := u64 (h.executions + 1), failures := u64 (h.failures + 1) } :: rest := by
    simp [fastBreaker.incFailures, e1, Ring.modifyValue]
  cases success
  · cases hp : cb.configuration.ShouldTrip with
    | none =>
      rw [handleFeedback_closed_failure_nil cb hs hp, e2]; simp
    | some f =>
      rw [handleFeedback_closed_failure cb f hs hp]
      split
      · rw [tripFrom_eq _ _ (show (cb.incExecutions.incFailures.recordShouldTrip _ _).state
            = StateClosed from hs)]
        simpa using e2
      · simpa using e2
  · rw [handleFeedback_closed_success cb hs, e1]; simp

theorem sum_executions_ticked (zs : Ring) (x : counters) (m : Nat) :
    ((({ executions := 0, failures := 0 } : counters) :: zs
        ++ x :: List.replicate m { executions := 0, failures := 0 }).map counters.executions).sum
      = (zs.map counters.executions).sum + x.executions := by
  simp

theorem sum_failures_ticked (zs : Ring) (x : counters) (m : Nat) :
    ((({ executions := 0, failures := 0 } : counters) :: zs
        ++ x :: List.replicate m { executions := 0, failures := 0 }).map counters.failures).sum
      = (zs.map counters.failures).sum + x.failures := by
  simp

theorem u64_succ_inside (a b : Nat) : u64 (a + u64 (b + 1)) = u64 (u64 (a + b) + 1) := by
  rw [u64_add_u64, u64_u64_add, Nat.add_assoc]

theorem u64_succ_inside_left (a b : Nat) : u64 (u64 (b + 1) + a) = u64 (u64 (b + a) + 1) := by
  rw [u64_u64_add, u64_u64_add]; congr 1; omega

/-- A report counted in the Closed state, seen through `RollingCounters` after
`k` further ticks. -/
theorem report_in_window (cb : fastBreaker) (success : Bool) (k : Nat)
    (hs : cb.state = StateClosed) (hk : k < Ring.Len cb.ring) :
    (fastBreaker.advanceWindow^[k] (cb.handleFeedback StateClosed success)).RollingCounters
      = (u64 ((fastBreaker.advanceWindow^[k] cb).RollingCounters.1 + 1),
         if success = true then (fastBreaker.advanceWindow^[k] cb).RollingCounters.2
         else u64 ((fastBreaker.advanceWindow^[k] cb).RollingCounters.2 + 1)) := by
  cases hr : cb.ring with
  | nil => rw [hr] at hk; simp [Ring.Len] at hk
  | cons h rest =>
    have hring := handleFeedback_closed_ring cb success h rest hs hr
    have hlen : k ≤ rest.length := by
      rw [hr] at hk; simp [Ring.Len] at hk; omega
    rw [advanceWindow_iterate, advanceWindow_iterate, RollingCounters_eq_sum,
      RollingCounters_eq_sum]
    simp only [hring, hr]
    rcases Nat.eq_zero_or_pos k with h0 | hpos
    · subst h0
      cases success
      · simp [u64_succ_inside_left]
      · simp [u64_succ_inside_left, u64]; omega
    · rw [ticks_drop k _ rest hpos hlen, ticks_drop k h rest hpos hlen,
        sum_executions_ticked, sum_failures_ticked, sum_executions_ticked, sum_failures_ticked]
      cases success
      · simp [u64_succ_inside]
      · simp [u64_succ_inside, u64]; omega

/-! ## The fresh breaker -/

theorem New_eq (c : Configuration) :
    New c =
      { configuration := (New c).configuration
        state := StateClosed
        ring := List.replicate (New c).configuration.NumBuckets.toNat
          { executions := 0, failures := 0 }
        advanceTicker := NewTicker (New c).configuration.BucketDuration
        totalCounters := { executions := 0, failures := 0 }
        rejected := 0
        breakTimer := none
        halfOpenAllowed := false
        shouldTripCalls := [] } := by
  simp [New, fastBreaker.reset, resetLoop_full, initLoop_full, Ring.New, counters.reset]

/-- The configuration a fresh breaker keeps: every field of the supplied one
that violates its minimum is replaced by the default. -/
theorem New_configuration (c : Configuration) :
    (New c).configuration =
      { NumBuckets := if c.NumBuckets ≤ 0 then DefaultNumBuckets else c.NumBuckets
        BucketDuration :=
          if Truncate c.BucketDuration Second ≤ 0 then DefaultBucketDuration
          else Truncate c.BucketDuration Second
        DurationOfBreak :=
          if Truncate c.DurationOfBreak Second ≤ 0 then DefaultDurationOfBreak
          else Truncate c.DurationOfBreak Second
        ShouldTrip := some (c.ShouldTrip.getD DefaultShouldTrip) } := by
  obtain ⟨n, b, d, p⟩ := c
  simp only [New, reset_configuration]
  by_cases h1 : n ≤ 0 <;> by_cases h2 : Truncate b Second ≤ 0 <;>
    by_cases h3 : Truncate d Second ≤ 0 <;> cases p <;> simp [h1, h2, h3]

theorem New_NumBuckets_pos (c : Configuration) : 1 ≤ (New c).configuration.NumBuckets := by
  rw [New_configuration]
  show 1 ≤ (if c.NumBuckets ≤ 0 then DefaultNumBuckets else c.NumBuckets)
  unfold DefaultNumBuckets
  split <;> omega

theorem New_NumBuckets_lt (c : Configuration) (h : c.NumBuckets < 2 ^ 63) :
    (New c).configuration.NumBuckets < 2 ^ 63 := by
  rw [New_configuration]
  show (if c.NumBuckets ≤ 0 then DefaultNumBuckets else c.NumBuckets) < 2 ^ 63
  unfold DefaultNumBuckets
  split
  · norm_num
  · exact h

theorem New_ShouldTrip (c : Configuration) :
    (New c).configuration.ShouldTrip = some (c.ShouldTrip.getD DefaultShouldTrip) := by
  rw [New_configuration]

/-! ## One successful execution per tick -/

theorem execute_closed (cb : fastBreaker) (ticks : Nat) (success : Bool)
    (h : cb.state = StateClosed) :
    cb.execute ticks success
      = (fastBreaker.advanceWindow^[ticks] cb).handleFeedback StateClosed success := by
  simp [fastBreaker.execute, fastBreaker.Allow, h, fastBreaker.buildFeedbackFunc]

theorem advanceWindow_iterate_state (k : Nat) (cb : fastBreaker) :
    (fastBreaker.advanceWindow^[k] cb).state = cb.state := by
  rw [advanceWindow_iterate]

theorem execute_success_closed (cb : fastBreaker) (h : cb.state = StateClosed) :
    cb.execute 0 true = cb.incExecutions := by
  rw [execute_closed cb 0 true h]
  exact handleFeedback_closed_success cb h

/-- With one successful execution per tick on a fresh window of `n` buckets,
after `i < n` rounds the `i` buckets behind the pointer hold one execution
each and the others none. -/
theorem cycles_ring (n : Nat) (cb : fastBreaker) (hs : cb.state = StateClosed)
    (hr : cb.ring = List.replicate n { executions := 0, failures := 0 }) (i : Nat) (hi : i < n) :
    ((fun c : fastBreaker => (c.execute 0 true).advanceWindow)^[i] cb).state = StateClosed ∧
    ((fun c : fastBreaker => (c.execute 0 true).advanceWindow)^[i] cb).ring
      = List.replicate (n - i) { executions := 0, failures := 0 }
          ++ List.replicate i { executions := 1, failures := 0 } := by
  induction i with
  | zero => simpa using ⟨hs, hr⟩
  | succ i ih =>
    obtain ⟨h1, h2⟩ := ih (by omega)
    rw [Function.iterate_succ_apply']
    obtain ⟨m, hm⟩ : ∃ m, n - i = m + 2 := ⟨n - i - 2, by omega⟩
    have hm2 : n - (i + 1) = m + 1 := by omega
    rw [hm] at h2
    rw [execute_success_closed _ h1, hm2]
    refine ⟨h1, ?_⟩
    show Ring.modifyValue counters.reset (Ring.Next (Ring.modifyValue
      (fun c => { c with executions := u64 (c.executions + 1) }) _)) = _
    rw [h2]
    simp only [List.replicate_succ, List.cons_append, Ring.modifyValue, Ring.Next,
      counters.reset]
    have hu : u64 (0 + 1) = 1 := by norm_num [u64]
    rw [hu, List.append_assoc, ← List.replicate_succ', List.replicate_succ]

theorem grow_ring (n : Nat) (cb : fastBreaker) (hs : cb.state = StateClosed)
    (hr : cb.ring = List.replicate n { executions := 0, failures := 0 }) (i : Nat) (hi : i < n) :
    (((fun c : fastBreaker => (c.execute 0 true).advanceWindow)^[i] cb).execute 0 true).ring
      = { executions := 1, failures := 0 }
          :: List.replicate (n - i - 1) { executions := 0, failures := 0 }
          ++ List.replicate i { executions := 1, failures := 0 } := by
  obtain ⟨h1, h2⟩ := cycles_ring n cb hs hr i hi
  obtain ⟨m, hm⟩ : ∃ m, n - i = m + 1 := ⟨n - i - 1, by omega⟩
  rw [execute_success_closed _ h1]
  show Ring.modifyValue (fun c => { c with executions := u64 (c.executions + 1) }) _ = _
  rw [h2, hm]
  simp [List.replicate_succ, Ring.modifyValue, u64]

theorem handleFeedback_closed_length (cb : fastBreaker) (success : Bool)
    (hs : cb.state = StateClosed) :
    (cb.handleFeedback StateClosed success).ring.length = cb.ring.length := by
  cases hr : cb.ring with
  | nil =>
    have e1 : cb.incExecutions.ring = [] := by
      simp [fastBreaker.incExecutions, hr, Ring.modifyValue]
    have e2 : cb.incExecutions.incFailures.ring = [] := by
      simp [fastBreaker.incFailures, e1, Ring.modifyValue]
    cases success
    · cases hp : cb.configuration.ShouldTrip with
      | none => rw [handleFeedback_closed_failure_nil cb hs hp, e2]
      | some f =>
        rw [handleFeedback_closed_failure cb f hs hp]
        split
        · rw [tripFrom_eq _ _ (show (cb.incExecutions.incFailures.recordShouldTrip _ _).state
              = StateClosed from hs)]
          simpa using e2
        · simpa using e2
    · rw [handleFeedback_closed_success cb hs, e1]
  | cons h rest =>
    rw [handleFeedback_closed_ring cb success h rest hs hr]
    rfl

theorem New_ring (c : Configuration) :
    (New c).ring
      = List.replicate (New c).configuration.NumBuckets.toNat { executions := 0, failures := 0 } := by
  conv_lhs => rw [New_eq]

theorem New_totalCounters (c : Configuration) :
    (New c).totalCounters = { executions := 0, failures := 0 } := by
  rw [New_eq]

theorem New_rejected (c : Configuration) : (New c).rejected = 0 := by
  rw [New_eq]

theorem New_shouldTripCalls (c : Configuration) : (New c).shouldTripCalls = [] := by
  rw [New_eq]

/-- C9: a report counted in the Closed state adds one execution (and, for a
failure, one failure) to what `RollingCounters` returns after `k` further
ticks, for every `k` below the number of buckets, in `uint64` arithmetic, and
adds nothing after as many ticks as there are buckets.  On a fresh breaker
(whose `NumBuckets` is a Go `int`) with one successful execution per tick, the
rolling executions are `1, 2, ..., n` after the first `n` executions, `n` being
the number of buckets, and then, with ticks only, `n - j` after `j` ticks. -/
theorem report_counted_for_numBuckets_ticks (cb : fastBreaker) (success : Bool)
    (c : Configuration) (hs : cb.State = StateClosed) (hc : c.NumBuckets < 2 ^ 63) :
    (∀ k, k < Ring.Len cb.ring →
      (fastBreaker.advanceWindow^[k]
          (fastBreaker.buildFeedbackFunc StateClosed success cb)).RollingCounters
        = (u64 ((fastBreaker.advanceWindow^[k] cb).RollingCounters.1 + 1),
           if success = true then (fastBreaker.advanceWindow^[k] cb).RollingCounters.2
           else u64 ((fastBreaker.advanceWindow^[k] cb).RollingCounters.2 + 1))) ∧
    (fastBreaker.advanceWindow^[Ring.Len cb.ring]
        (fastBreaker.buildFeedbackFunc StateClosed success cb)).RollingCounters
      = (fastBreaker.advanceWindow^[Ring.Len cb.ring] cb).RollingCounters ∧
    Ring.Len (New c).ring = (New c).Configuration.NumBuckets.toNat ∧
    1 ≤ Ring.Len (New c).ring ∧
    (∀ i, i < Ring.Len (New c).ring →
      (((fun b : fastBreaker => (b.execute 0 true).advanceWindow)^[i] (New c)).execute
          0 true).RollingCounters = (i + 1, 0)) ∧
    (∀ j, j ≤ Ring.Len (New c).ring →
      (fastBreaker.advanceWindow^[j]
          (((fun b : fastBreaker => (b.execute 0 true).advanceWindow)^[Ring.Len (New c).ring - 1]
            (New c)).execute 0 true)).RollingCounters
        = (Ring.Len (New c).ring - j, 0)) := by
  have hst : cb.state = StateClosed := hs
  have hlen : Ring.Len (New c).ring = (New c).configuration.NumBuckets.toNat := by
    rw [New_ring]; simp [Ring.Len]
  have hpos : 1 ≤ Ring.Len (New c).ring := by
    rw [hlen]; have := New_NumBuckets_pos c; omega
  have hlt : Ring.Len (New c).ring < 2 ^ 64 := by
    rw [hlen]; have := New_NumBuckets_lt c hc; omega
  have hrep : (New c).ring
      = List.replicate (Ring.Len (New c).ring) { executions := 0, failures := 0 } := by
    rw [hlen]; exact New_ring c
  refine ⟨fun k hk => report_in_window cb success k hst hk, ?_, hlen, hpos, ?_, ?_⟩
  · have h1 := rolling_replicate_zero _ _ (ticks_age_out cb)
    have h2 := rolling_replicate_zero _ _
      (ticks_age_out (cb.handleFeedback StateClosed success))
    have e : Ring.Len (cb.handleFeedback StateClosed success).ring = Ring.Len cb.ring :=
      handleFeedback_closed_length cb success hst
    rw [e] at h2
    simp only [fastBreaker.buildFeedbackFunc]
    rw [h1, h2]
  · intro i hi
    rw [RollingCounters_eq_sum, grow_ring _ (New c) (New_state c) hrep i hi]
    have hi2 : i + 1 < 2 ^ 64 := by omega
    simp [u64, Nat.add_comm]
    omega
  · intro j hj
    have hd := grow_ring _ (New c) (New_state c) hrep (Ring.Len (New c).ring - 1) (by omega)
    generalize Ring.Len (New c).ring = n at *
    have e0 : n - (n - 1) - 1 = 0 := by omega
    rw [e0] at hd
    simp only [List.replicate_zero, List.cons_append, List.nil_append] at hd
    rw [advanceWindow_iterate, RollingCounters_eq_sum]
    simp only [hd]
    rcases Nat.eq_zero_or_pos j with h0 | hjpos
    · subst h0
      simp [u64]
      omega
    · rcases Nat.lt_or_ge j n with hjn | hjn
      · rw [ticks_drop j _ _ hjpos (by simp; omega)]
        simp [u64]
        omega
      · have hjeq : j = n := by omega
        subst hjeq
        have hf := ticks_full (({ executions := 1, failures := 0 } : counters)
          :: List.replicate (j - 1) { executions := 1, failures := 0 })
        have hl : (({ executions := 1, failures := 0 } : counters)
          :: List.replicate (j - 1) { executions := 1, failures := 0 }).length = j := by
          simp; omega
        rw [hl] at hf
        rw [hf]
        simp [u64]

theorem report_counted_for_numBuckets_ticks_witness :
    (New tripAtOnce).State = StateClosed ∧ tripAtOnce.NumBuckets < 2 ^ 63 ∧
    (fastBreaker.advanceWindow^[1]
        (fastBreaker.buildFeedbackFunc StateClosed true (New tripAtOnce))).RollingCounters
      = (1, 0) ∧
    (fastBreaker.advanceWindow^[2]
        (fastBreaker.buildFeedbackFunc StateClosed true (New tripAtOnce))).RollingCounters
      = (0, 0) :=
  ⟨by decide, by decide,
    ((report_counted_for_numBuckets_ticks (New tripAtOnce) true tripAtOnce
      (by decide) (by decide)).1 1 (by decide)).trans (by decide),
    ((report_counted_for_numBuckets_ticks (New tripAtOnce) true tripAtOnce
      (by decide) (by decide)).2.1).trans (by decide)⟩

/-! ## The default policy on a fresh window -/

theorem rolling_head_only (cb : fastBreaker) (x : counters) (m : Nat)
    (hr : cb.ring = x :: List.replicate m { executions := 0, failures := 0 }) :
    cb.RollingCounters = (u64 x.executions, u64 x.failures) := by
  rw [RollingCounters_eq_sum, hr]
  simp

theorem closed_failure_default (cb : fastBreaker) (e fl m : Nat)
    (hs : cb.state = StateClosed)
    (hr : cb.ring = { executions := e, failures := fl }
      :: List.replicate m { executions := 0, failures := 0 })
    (hp : cb.configuration.ShouldTrip = some DefaultShouldTrip)
    (he : e + 1 < 2 ^ 64) (hf : fl + 1 < 2 ^ 64) :
    (cb.handleFeedback StateClosed false).state
      = (if DefaultShouldTrip (e + 1) (fl + 1) = true then StateOpen else StateClosed) ∧
    (cb.handleFeedback StateClosed false).ring
      = { executions := e + 1, failures := fl + 1 }
          :: List.replicate m { executions := 0, failures := 0 } := by
  have hring := handleFeedback_closed_ring cb false _ _ hs hr
  simp only [Bool.false_eq_true, ↓reduceIte, u64_of_lt he, u64_of_lt hf] at hring
  refine ⟨?_, hring⟩
  have e2 : cb.incExecutions.incFailures.ring
      = { executions := u64 (e + 1), failures := u64 (fl + 1) }
          :: List.replicate m { executions := 0, failures := 0 } := by
    simp [fastBreaker.incFailures, fastBreaker.incExecutions, hr, Ring.modifyValue]
  have hroll := rolling_head_only cb.incExecutions.incFailures _ m e2
  simp only [u64_of_lt he, u64_of_lt hf] at hroll
  rw [handleFeedback_closed_failure cb DefaultShouldTrip hs hp, hroll]
  split
  · rw [tripFrom_eq _ _ (show (cb.incExecutions.incFailures.recordShouldTrip _ _).state
        = StateClosed from hs)]
  · exact hs

theorem DefaultShouldTrip_exact (e fl : Nat) (h : fl * 2 < 2 ^ 64) :
    DefaultShouldTrip e fl = true ↔ (e ≥ 20 ∧ 2 * fl ≥ e) := by
  simp only [DefaultShouldTrip, u64_of_lt h, Bool.and_eq_true, decide_eq_true_eq]
  omega

/-- Failed reports on a Closed breaker whose window holds `a` successes in the
current bucket and nothing else, under the default policy. -/
theorem failures_phase (g : fastBreaker → fastBreaker)
    (P1 : ∀ cb, cb.state = StateClosed → g cb = cb.handleFeedback StateClosed false)
    (P2 : ∀ cb, cb.state = StateOpen → (g cb).state = StateOpen)
    (P3 : ∀ cb, (g cb).configuration = cb.configuration)
    (x : fastBreaker) (a m : Nat) (hx : x.state = StateClosed)
    (hr : x.ring = { executions := a, failures := 0 }
      :: List.replicate m { executions := 0, failures := 0 })
    (hp : x.configuration.ShouldTrip = some DefaultShouldTrip) (f : Nat)
    (hb : a + f < 2 ^ 64) :
    (g^[f] x).configuration = x.configuration ∧
    ((a + f ≥ 20 ∧ 2 * f ≥ a + f) → (g^[f] x).state = StateOpen) ∧
    (¬ (a + f ≥ 20 ∧ 2 * f ≥ a + f) →
      (g^[f] x).state = StateClosed ∧
      (g^[f] x).ring = { executions := a + f, failures := f }
        :: List.replicate m { executions := 0, failures := 0 }) := by
  induction f with
  | zero =>
    refine ⟨rfl, fun h => ?_, fun _ => ⟨hx, hr⟩⟩
    omega
  | succ f ih =>
    obtain ⟨ic, io, icl⟩ := ih (by omega)
    rw [Function.iterate_succ_apply']
    refine ⟨(P3 _).trans ic, ?_, ?_⟩
    · intro hT
      by_cases hprev : a + f ≥ 20 ∧ 2 * f ≥ a + f
      · exact P2 _ (io hprev)
      · obtain ⟨h1, h2⟩ := icl hprev
        rw [P1 _ h1]
        have hcf := closed_failure_default _ (a + f) f m h1 h2 (by rw [ic]; exact hp)
          (by omega) (by omega)
        rw [hcf.1]
        have hd : DefaultShouldTrip (a + f + 1) (f + 1) = true :=
          (DefaultShouldTrip_exact _ _ (by omega)).2 (by omega)
        simp [hd]
    · intro hT
      have hprev : ¬ (a + f ≥ 20 ∧ 2 * f ≥ a + f) := by omega
      obtain ⟨h1, h2⟩ := icl hprev
      rw [P1 _ h1]
      have hcf := closed_failure_default _ (a + f) f m h1 h2 (by rw [ic]; exact hp)
        (by omega) (by omega)
      have hd : ¬ DefaultShouldTrip (a + f + 1) (f + 1) = true := by
        rw [DefaultShouldTrip_exact _ _ (by omega)]; omega
      rw [hcf.1, hcf.2, if_neg hd]
      exact ⟨rfl, rfl⟩

/-- Successful reports on a Closed breaker: the current bucket counts them
modulo `2 ^ 64`. -/
theorem successes_phase (g : fastBreaker → fastBreaker)
    (P1 : ∀ cb, cb.state = StateClosed → g cb = cb.handleFeedback StateClosed true)
    (x : fastBreaker) (rest : Ring) (hx : x.state = StateClosed)
    (hr : x.ring = { executions := 0, failures := 0 } :: rest) (s : Nat) :
    (g^[s] x).configuration = x.configuration ∧ (g^[s] x).state = StateClosed ∧
    (g^[s] x).ring = { executions := u64 s, failures := 0 } :: rest := by
  induction s with
  | zero => exact ⟨rfl, hx, by simpa [u64] using hr⟩
  | succ s ih =>
    obtain ⟨ic, is, ir⟩ := ih
    rw [Function.iterate_succ_apply', P1 _ is]
    refine ⟨(handleFeedback_transition _ _ _).1.trans ic, ?_, ?_⟩
    · rw [handleFeedback_closed_success _ is]; exact is
    · rw [handleFeedback_closed_ring _ true _ _ is ir]
      simp [u64_u64_add]

theorem play_append (cb : fastBreaker) (xs ys : List Event) :
    cb.play (xs ++ ys) = (cb.play xs).play ys := by
  induction xs generalizing cb with
  | nil => rfl
  | cons x xs ih => cases x <;> simp [fastBreaker.play, ih]

theorem play_replicate_call (n ticks : Nat) (success : Bool) (cb : fastBreaker) :
    cb.play (List.replicate n (Event.call ticks success))
      = (fun x : fastBreaker => x.execute ticks success)^[n] cb := by
  induction n generalizing cb with
  | zero => rfl
  | succ n ih => simp [List.replicate_succ, fastBreaker.play, ih]

theorem run_replicate_report (n : Nat) (bound : State) (success : Bool) (cb : fastBreaker) :
    cb.run (List.replicate n (Op.report bound success))
      = (fun x : fastBreaker => x.handleFeedback bound success)^[n] cb := by
  induction n generalizing cb with
  | zero => rfl
  | succ n ih =>
    simp [List.replicate_succ, fastBreaker.run, fastBreaker.step, fastBreaker.buildFeedbackFunc, ih]

theorem Allow_closed (cb : fastBreaker) (h : cb.state = StateClosed) :
    cb.Allow = { reporter := some StateClosed, err := none, cb := cb } := by
  simp [fastBreaker.Allow, h]

theorem run_replicate_allow_closed (n : Nat) (cb : fastBreaker) (h : cb.state = StateClosed) :
    cb.run (List.replicate n Op.allow) = cb := by
  induction n with
  | zero => rfl
  | succ n ih =>
    simp [List.replicate_succ, fastBreaker.run, fastBreaker.step, Allow_closed cb h, ih]

theorem execute_zero_closed (cb : fastBreaker) (success : Bool) (h : cb.state = StateClosed) :
    cb.execute 0 success = cb.handleFeedback StateClosed success :=
  execute_closed cb 0 success h

theorem execute_open (cb : fastBreaker) (ticks : Nat) (success : Bool)
    (h : cb.state = StateOpen) :
    cb.execute ticks success = { cb with rejected := u64 (cb.rejected + 1) } := by
  simp [fastBreaker.execute, Allow_open cb h]

theorem execute_configuration (cb : fastBreaker) (ticks : Nat) (success : Bool) :
    (cb.execute ticks success).configuration = cb.configuration := by
  unfold fastBreaker.execute
  cases hr : cb.Allow.reporter with
  | none =>
    simp only [hr]
    exact (Allow_cb_fields cb).2.2.1
  | some st =>
    simp only [hr, fastBreaker.buildFeedbackFunc]
    rw [(handleFeedback_transition _ _ _).1, advanceWindow_iterate]
    exact (Allow_cb_fields cb).2.2.1

theorem New_ring_cons (c : Configuration) :
    (New c).ring = { executions := 0, failures := 0 }
      :: List.replicate ((New c).configuration.NumBuckets.toNat - 1)
          { executions := 0, failures := 0 } := by
  have hpos := New_NumBuckets_pos c
  obtain ⟨k, hk⟩ : ∃ k, (New c).configuration.NumBuckets.toNat = k + 1 :=
    ⟨(New c).configuration.NumBuckets.toNat - 1, by omega⟩
  rw [New_ring, hk]
  simp [List.replicate_succ]

/-- The state after `s` successes followed by `f` failures on a fresh
breaker under the default policy, for any way `g1`, `g2` of delivering
them that acts as the Closed-bound report while the breaker is Closed and
keeps an Open breaker Open. -/
theorem default_policy_after (c : Configuration)
    (hp : c.ShouldTrip = none ∨ c.ShouldTrip = some DefaultShouldTrip)
    (g1 g2 : fastBreaker → fastBreaker)
    (Q1 : ∀ cb, cb.state = StateClosed → g1 cb = cb.handleFeedback StateClosed true)
    (P1 : ∀ cb, cb.state = StateClosed → g2 cb = cb.handleFeedback StateClosed false)
    (P2 : ∀ cb, cb.state = StateOpen → (g2 cb).state = StateOpen)
    (P3 : ∀ cb, (g2 cb).configuration = cb.configuration)
    (s f : Nat) (hb : u64 s + f < 2 ^ 64) :
    ((u64 s + f ≥ 20 ∧ 2 * f ≥ u64 s + f) → (g2^[f] (g1^[s] (New c))).state = StateOpen) ∧
    (¬ (u64 s + f ≥ 20 ∧ 2 * f ≥ u64 s + f) → (g2^[f] (g1^[s] (New c))).state = StateClosed) := by
  obtain ⟨sc, ss, sr⟩ := successes_phase g1 Q1 (New c) _ (New_state c) (New_ring_cons c) s
  have hpol : (g1^[s] (New c)).configuration.ShouldTrip = some DefaultShouldTrip := by
    rw [sc, New_ShouldTrip]
    rcases hp with h | h <;> simp [h]
  obtain ⟨_, fo, fc⟩ := failures_phase g2 P1 P2 P3 (g1^[s] (New c)) (u64 s) _ ss sr hpol f hb
  exact ⟨fo, fun h => (fc h).1⟩

theorem execute_open_state (cb : fastBreaker) (ticks : Nat) (success : Bool)
    (h : cb.state = StateOpen) : (cb.execute ticks success).state = StateOpen := by
  rw [execute_open cb ticks success h]; exact h

theorem handleFeedback_open_state (cb : fastBreaker) (bound : State) (success : Bool)
    (h : cb.state = StateOpen) : (cb.handleFeedback bound success).state = StateOpen := by
  rw [handleFeedback_open cb h]; exact h

/-- C1 (amended): on a fresh breaker with the default policy and no window
tick, after `s` successful executions followed by `f` failed ones, with
`s + f < 2 ^ 64`, the state is Open exactly when `s + f ≥ 20` and
`2 * f ≥ s + f`, and Closed otherwise.  This holds when every execution is an
`Allow` followed by the report through the reporter it returned (a rejected
`Allow` returning none), and also when the `s + f` reporters are obtained
first and called afterwards. -/
theorem default_policy_trip_point (c : Configuration) (s f : Nat)
    (hp : c.ShouldTrip = none ∨ c.ShouldTrip = some DefaultShouldTrip)
    (hb : s + f < 2 ^ 64) :
    (((New c).play (List.replicate s (Event.call 0 true)
        ++ List.replicate f (Event.call 0 false))).State = StateOpen
      ↔ (s + f ≥ 20 ∧ 2 * f ≥ s + f)) ∧
    (¬ (s + f ≥ 20 ∧ 2 * f ≥ s + f) →
      ((New c).play (List.replicate s (Event.call 0 true)
        ++ List.replicate f (Event.call 0 false))).State = StateClosed) ∧
    (((New c).run (List.replicate (s + f) Op.allow
        ++ List.replicate s (Op.report StateClosed true)
        ++ List.replicate f (Op.report StateClosed false))).State = StateOpen
      ↔ (s + f ≥ 20 ∧ 2 * f ≥ s + f)) ∧
    (¬ (s + f ≥ 20 ∧ 2 * f ≥ s + f) →
      ((New c).run (List.replicate (s + f) Op.allow
        ++ List.replicate s (Op.report StateClosed true)
        ++ List.replicate f (Op.report StateClosed false))).State = StateClosed) := by
  have hs : u64 s = s := u64_of_lt (by omega)
  have A := default_policy_after c hp (fun x => x.execute 0 true) (fun x => x.execute 0 false)
    (fun cb h => execute_zero_closed cb true h) (fun cb h => execute_zero_closed cb false h)
    (fun cb h => execute_open_state cb 0 false h)
    (fun cb => execute_configuration cb 0 false) s f (by rw [hs]; exact hb)
  have B := default_policy_after c hp (fun x => x.handleFeedback StateClosed true)
    (fun x => x.handleFeedback StateClosed false)
    (fun _ _ => rfl) (fun _ _ => rfl)
    (fun cb h => handleFeedback_open_state cb StateClosed false h)
    (fun cb => (handleFeedback_transition cb _ _).1) s f (by rw [hs]; exact hb)
  rw [hs] at A B
  have eA : (New c).play (List.replicate s (Event.call 0 true)
        ++ List.replicate f (Event.call 0 false))
      = (fun x : fastBreaker => x.execute 0 false)^[f]
          ((fun x : fastBreaker => x.execute 0 true)^[s] (New c)) := by
    rw [play_append, play_replicate_call, play_replicate_call]
  have eB : (New c).run (List.replicate (s + f) Op.allow
        ++ List.replicate s (Op.report StateClosed true)
        ++ List.replicate f (Op.report StateClosed false))
      = (fun x : fastBreaker => x.handleFeedback StateClosed false)^[f]
          ((fun x : fastBreaker => x.handleFeedback StateClosed true)^[s] (New c)) := by
    rw [run_append, run_append, run_replicate_allow_closed _ _ (New_state c),
      run_replicate_report, run_replicate_report]
  rw [eA, eB]
  simp only [fastBreaker.State]
  refine ⟨⟨fun h => ?_, A.1⟩, A.2, ⟨fun h => ?_, B.1⟩, B.2⟩
  · by_contra hn
    rw [A.2 hn] at h
    exact absurd h (by decide)
  · by_contra hn
    rw [B.2 hn] at h
    exact absurd h (by decide)

theorem default_policy_trip_point_witness :
    (zeroConfiguration.ShouldTrip = none ∨ zeroConfiguration.ShouldTrip = some DefaultShouldTrip) ∧
    1000 + 1000 < 2 ^ 64 ∧ 1000 + 999 < 2 ^ 64 ∧ 0 + 19 < 2 ^ 64 ∧ 0 + 20 < 2 ^ 64 ∧
    ((New zeroConfiguration).play (List.replicate 0 (Event.call 0 true)
        ++ List.replicate 19 (Event.call 0 false))).State = StateClosed ∧
    ((New zeroConfiguration).play (List.replicate 0 (Event.call 0 true)
        ++ List.replicate 20 (Event.call 0 false))).State = StateOpen ∧
    ((New zeroConfiguration).play (List.replicate 1000 (Event.call 0 true)
        ++ List.replicate 999 (Event.call 0 false))).State = StateClosed ∧
    ((New zeroConfiguration).play (List.replicate 1000 (Event.call 0 true)
        ++ List.replicate 1000 (Event.call 0 false))).State = StateOpen :=
  ⟨Or.inl rfl, by norm_num, by norm_num, by norm_num, by norm_num,
    (default_policy_trip_point zeroConfiguration 0 19 (Or.inl rfl) (by norm_num)).2.1
      (by norm_num),
    (default_policy_trip_point zeroConfiguration 0 20 (Or.inl rfl) (by norm_num)).1.2
      (by norm_num),
    (default_policy_trip_point zeroConfiguration 1000 999 (Or.inl rfl) (by norm_num)).2.1
      (by norm_num),
    (default_policy_trip_point zeroConfiguration 1000 1000 (Or.inl rfl) (by norm_num)).1.2
      (by norm_num)⟩

/-- After a number `s` of successful executions that the `uint64` bucket
counter reads as zero, 20 failed executions open a fresh default breaker. -/
theorem twenty_failures_after_wrap (s : Nat) (hs : u64 s = 0) :
    ((New zeroConfiguration).play (List.replicate s (Event.call 0 true)
        ++ List.replicate 20 (Event.call 0 false))).State = StateOpen := by
  have A := default_policy_after zeroConfiguration (Or.inl rfl)
    (fun x => x.execute 0 true) (fun x => x.execute 0 false)
    (fun cb h => execute_zero_closed cb true h) (fun cb h => execute_zero_closed cb false h)
    (fun cb h => execute_open_state cb 0 false h)
    (fun cb => execute_configuration cb 0 false) s 20 (by rw [hs]; norm_num)
  rw [hs] at A
  rw [play_append, play_replicate_call, play_replicate_call]
  exact A.1 (by norm_num)

/-- C1, as stated without a bound on the number of reports, fails: after
`2 ^ 64` successful executions the `uint64` bucket counter is back at zero, so
20 failures then open the breaker although `2 * 20 < 2 ^ 64 + 20`. -/
theorem default_policy_trip_point_wraps :
    ((New zeroConfiguration).play (List.replicate (2 ^ 64) (Event.call 0 true)
        ++ List.replicate 20 (Event.call 0 false))).State = StateOpen ∧
    ¬ (2 ^ 64 + 20 ≥ 20 ∧ 2 * 20 ≥ 2 ^ 64 + 20) :=
  ⟨twenty_failures_after_wrap (2 ^ 64) (by norm_num [u64]), by norm_num⟩

/-! ## Successful executions only -/

theorem play_successes (es : List Event) (x : fastBreaker) (a : Nat)
    (hes : ∀ e ∈ es, e.isFailure = false) (hs : x.state = StateClosed)
    (ht : x.totalCounters = { executions := u64 a, failures := 0 }) :
    (x.play es).state = StateClosed ∧
    (x.play es).totalCounters = { executions := u64 (a + calls es), failures := 0 } ∧
    (x.play es).rejected = x.rejected ∧
    (x.play es).shouldTripCalls = x.shouldTripCalls ∧
    (x.play es).configuration = x.configuration := by
  induction es generalizing x a with
  | nil => exact ⟨hs, by simpa [calls] using ht, rfl, rfl, rfl⟩
  | cons e es ih =>
    have hrest : ∀ e ∈ es, e.isFailure = false := fun o ho => hes o (List.mem_cons_of_mem _ ho)
    have he := hes e (List.mem_cons_self _ _)
    cases e with
    | tick =>
      have := ih x.advanceWindow a hrest hs ht
      simpa [fastBreaker.play, calls] using this
    | call ticks success =>
      cases success with
      | false => simp [Event.isFailure] at he
      | true =>
        have e1 : x.execute ticks true = (fastBreaker.advanceWindow^[ticks] x).incExecutions := by
          rw [execute_closed x ticks true hs]
          exact handleFeedback_closed_success _ (by rw [advanceWindow_iterate]; exact hs)
        have hs2 : (x.execute ticks true).state = StateClosed := by
          rw [e1, advanceWindow_iterate]; exact hs
        have ht2 : (x.execute ticks true).totalCounters
            = { executions := u64 (a + 1), failures := 0 } := by
          rw [e1, advanceWindow_iterate]
          simp [fastBreaker.incExecutions, ht, u64_u64_add]
        have hr2 : (x.execute ticks true).rejected = x.rejected := by
          rw [e1, advanceWindow_iterate]; rfl
        have hl2 : (x.execute ticks true).shouldTripCalls = x.shouldTripCalls := by
          rw [e1, advanceWindow_iterate]; rfl
        have hc2 : (x.execute ticks true).configuration = x.configuration := by
          rw [e1, advanceWindow_iterate]; rfl
        obtain ⟨i1, i2, i3, i4, i5⟩ := ih (x.execute ticks true) (a + 1) hrest hs2 ht2
        simp only [fastBreaker.play, calls]
        refine ⟨i1, ?_, i3.trans hr2, i4.trans hl2, i5.trans hc2⟩
        rw [i2]
        congr 2
        omega

/-- Successful executions and ticks on a fresh breaker, for any number of
executions: the lifetime counter holds their number modulo `2 ^ 64`. -/
theorem successes_from_New (c : Configuration) (es : List Event)
    (hes : ∀ e ∈ es, e.isFailure = false) :
    ((New c).play es).state = StateClosed ∧
    ((New c).play es).totalCounters = { executions := u64 (calls es), failures := 0 } ∧
    ((New c).play es).rejected = 0 ∧
    ((New c).play es).shouldTripCalls = [] := by
  obtain ⟨h1, h2, h3, h4, _⟩ := play_successes es (New c) 0 hes (New_state c)
    (by rw [New_totalCounters]; rfl)
  rw [New_rejected] at h3
  rw [New_shouldTripCalls] at h4
  rw [Nat.zero_add] at h2
  exact ⟨h1, h2, h3, h4⟩

/-- C10 (amended): on a fresh breaker with any configuration, hence any trip
policy, along any sequence of window ticks and guarded executions that all
report success (ticks may also fall between an `Allow` and its report), every
`Allow` returns a reporter bound to Closed and no error, the trip policy is
never called, and at the end `Failures` and `Rejected` are 0, the state is
Closed and `Executions` is the number `N` of executions, provided
`N < 2 ^ 64`. -/
theorem successes_counted_and_closed (c : Configuration) (es : List Event)
    (hes : ∀ e ∈ es, e.isFailure = false) (hN : calls es < 2 ^ 64) :
    ((New c).play es).Executions = calls es ∧
    ((New c).play es).Failures = 0 ∧
    ((New c).play es).Rejected = 0 ∧
    ((New c).play es).State = StateClosed ∧
    ((New c).play es).shouldTripCalls = [] ∧
    (∀ (pre suf : List Event) (ticks : Nat) (success : Bool),
      es = pre ++ Event.call ticks success :: suf →
        ((New c).play pre).Allow.reporter = some StateClosed ∧
        ((New c).play pre).Allow.err = none ∧
        ((New c).play pre).shouldTripCalls = []) := by
  obtain ⟨h1, h2, h3, h4⟩ := successes_from_New c es hes
  refine ⟨?_, ?_, h3, h1, h4, ?_⟩
  · simp [fastBreaker.Executions, h2, u64_of_lt hN]
  · simp [fastBreaker.Failures, h2]
  · intro pre suf ticks success hsplit
    have hpre : ∀ e ∈ pre, e.isFailure = false := fun o ho =>
      hes o (by rw [hsplit]; exact List.mem_append_left _ ho)
    obtain ⟨p1, _, _, p4⟩ := successes_from_New c pre hpre
    rw [Allow_closed _ p1]
    exact ⟨rfl, rfl, p4⟩

theorem successes_counted_and_closed_witness :
    (∀ e ∈ [Event.call 0 true, Event.tick, Event.call 3 true, Event.call 0 true],
      e.isFailure = false) ∧
    calls [Event.call 0 true, Event.tick, Event.call 3 true, Event.call 0 true] < 2 ^ 64 ∧
    ((New tripAtOnce).play
      [Event.call 0 true, Event.tick, Event.call 3 true, Event.call 0 true]).Executions = 3 ∧
    ((New tripAtOnce).play
      [Event.call 0 true, Event.tick, Event.call 3 true, Event.call 0 true]).State
      = StateClosed :=
  ⟨by decide, by decide,
    (successes_counted_and_closed tripAtOnce
      [Event.call 0 true, Event.tick, Event.call 3 true, Event.call 0 true]
      (by decide) (by decide)).1,
    (successes_counted_and_closed tripAtOnce
      [Event.call 0 true, Event.tick, Event.call 3 true, Event.call 0 true]
      (by decide) (by decide)).2.2.2.1⟩

theorem calls_replicate (n ticks : Nat) (success : Bool) :
    calls (List.replicate n (Event.call ticks success)) = n := by
  induction n with
  | zero => rfl
  | succ n ih => simp [List.replicate_succ, calls, ih]

/-- The lifetime counter after `n` successful executions on a fresh breaker. -/
theorem executions_after_successes (c : Configuration) (n : Nat) :
    ((New c).play (List.replicate n (Event.call 0 true))).Executions = u64 n := by
  have h := (successes_from_New c (List.replicate n (Event.call 0 true))
    (fun e he => by rw [List.eq_of_mem_replicate he]; rfl)).2.1
  rw [calls_replicate] at h
  simp [fastBreaker.Executions, h]

/-- C10, as stated for every `N`, fails: after `2 ^ 64` successful executions
`Executions()` is 0, not `2 ^ 64`. -/
theorem successes_counted_wraps :
    calls (List.replicate (2 ^ 64) (Event.call 0 true)) = 2 ^ 64 ∧
    ((New zeroConfiguration).play (List.replicate (2 ^ 64) (Event.call 0 true))).Executions
      ≠ 2 ^ 64 := by
  refine ⟨calls_replicate _ _ _, ?_⟩
  rw [executions_after_successes]
  norm_num [u64]

/-! ## The default policy -/

/-- C11: `DefaultShouldTrip` at 2 ^ 63 executions, all of them failed: the
executions are at least 20 and the exact product `failures * 2` is at least the
executions, yet the function returns false, because the `uint64` product
`failures*2` wraps to 0. -/
theorem DefaultShouldTrip_product_wraps :
    DefaultShouldTrip (2 ^ 63) (2 ^ 63) = false ∧
    2 ^ 63 < 2 ^ 64 ∧ 2 ^ 63 ≥ 20 ∧ 2 ^ 63 * 2 ≥ 2 ^ 63 := by
  refine ⟨?_, by norm_num, by norm_num, by norm_num⟩
  simp [DefaultShouldTrip, u64]

/-! ## Configuration defaults -/

theorem Truncate_Second_of_ge (d : Int) (h : Second ≤ d) :
    Truncate d Second = d / Second * Second ∧ 0 < Truncate d Second ∧ Truncate d Second ≤ d := by
  have hs : (0 : Int) < Second := by unfold Second; norm_num
  have hd : 0 ≤ d := le_trans hs.le h
  have e : Truncate d Second = d / Second * Second := by
    unfold Truncate
    rw [if_neg (not_le.mpr hs), Int.tmod_eq_emod hd hs.le]
    have := Int.emod_add_ediv d Second
    linarith [Int.mul_comm Second (d / Second)]
  have hq : 1 ≤ d / Second := by
    have := Int.ediv_le_ediv hs h
    rwa [Int.ediv_self hs.ne'] at this
  refine ⟨e, ?_, ?_⟩
  · rw [e]; positivity
  · rw [e]; exact Int.ediv_mul_le d hs.ne'

theorem Truncate_Second_of_lt (d : Int) (h : d < Second) : Truncate d Second ≤ 0 := by
  have hs : (0 : Int) < Second := by unfold Second; norm_num
  have e : Truncate d Second = Second * d.tdiv Second := by
    unfold Truncate
    rw [if_neg (not_le.mpr hs), Int.tmod_def]
    omega
  rw [e]
  rcases le_or_lt 0 d with hd | hd
  · rw [Int.tdiv_eq_zero_of_lt hd h]; simp
  · have h1 : d.tdiv Second = -((-d).tdiv Second) := by
      rw [Int.neg_tdiv, neg_neg]
    have h2 : 0 ≤ (-d).tdiv Second := Int.tdiv_nonneg (by omega) hs.le
    rw [h1]
    have : 0 ≤ Second * (-d).tdiv Second := Int.mul_nonneg hs.le h2
    linarith [Int.mul_neg Second ((-d).tdiv Second)]

theorem New_BucketDuration (c : Configuration) :
    (New c).configuration.BucketDuration
      = if Truncate c.BucketDuration Second ≤ 0 then DefaultBucketDuration
        else Truncate c.BucketDuration Second := by
  rw [New_configuration]

theorem New_DurationOfBreak (c : Configuration) :
    (New c).configuration.DurationOfBreak
      = if Truncate c.DurationOfBreak Second ≤ 0 then DefaultDurationOfBreak
        else Truncate c.DurationOfBreak Second := by
  rw [New_configuration]

theorem New_NumBuckets (c : Configuration) :
    (New c).configuration.NumBuckets
      = if c.NumBuckets ≤ 0 then DefaultNumBuckets else c.NumBuckets := by
  rw [New_configuration]

/-- The duration `New` keeps for a supplied duration `d` and a default `dflt`
that is a positive number of seconds. -/
theorem resolved_duration (d dflt : Int) (k : Int) (hk : 0 < k) (hd : dflt = k * Second) :
    (Second ≤ d →
      (if Truncate d Second ≤ 0 then dflt else Truncate d Second) = d / Second * Second ∧
      (if Truncate d Second ≤ 0 then dflt else Truncate d Second) ≤ d) ∧
    (d < Second → (if Truncate d Second ≤ 0 then dflt else Truncate d Second) = dflt) ∧
    0 < (if Truncate d Second ≤ 0 then dflt else Truncate d Second) ∧
    Second ∣ (if Truncate d Second ≤ 0 then dflt else Truncate d Second) := by
  have hs : (0 : Int) < Second := by unfold Second; norm_num
  have hdpos : 0 < dflt := by rw [hd]; positivity
  have hddvd : Second ∣ dflt := ⟨k, by rw [hd, Int.mul_comm]⟩
  rcases lt_or_le d Second with hlt | hge
  · have ht := Truncate_Second_of_lt d hlt
    rw [if_pos ht]
    exact ⟨fun h => absurd h (not_le.mpr hlt), fun _ => rfl, hdpos, hddvd⟩
  · obtain ⟨e, hpos, hle⟩ := Truncate_Second_of_ge d hge
    rw [if_neg (not_le.mpr hpos)]
    exact ⟨fun _ => ⟨e, hle⟩, fun h => absurd hge (not_le.mpr h), hpos,
      ⟨d / Second, by rw [e, Int.mul_comm]⟩⟩

/-- C12: the `NumBuckets` of the configuration a fresh breaker reports is the
supplied one when that is at least 1 and `DefaultNumBuckets`, which is 10,
when it is 0 or less.  `New` is a total function (it returns no error); its
call of `time.NewTicker`, which panics on a non-positive period, receives a
positive period, and its call of `ring.New` a positive length. -/
theorem New_resolves_NumBuckets (c : Configuration) :
    (1 ≤ c.NumBuckets → (New c).Configuration.NumBuckets = c.NumBuckets) ∧
    (c.NumBuckets ≤ 0 → (New c).Configuration.NumBuckets = DefaultNumBuckets) ∧
    DefaultNumBuckets = 10 ∧
    0 < (New c).advanceTicker.period ∧
    (New c).advanceTicker.period = (New c).Configuration.BucketDuration ∧
    0 < (New c).Configuration.NumBuckets := by
  have hn := New_NumBuckets c
  have hper : (New c).advanceTicker.period = (New c).configuration.BucketDuration := by
    conv_lhs => rw [New_eq]
    rfl
  have hb := (resolved_duration c.BucketDuration DefaultBucketDuration 1 (by norm_num)
    (by unfold DefaultBucketDuration; rfl)).2.2.1
  rw [← New_BucketDuration] at hb
  refine ⟨fun h => ?_, fun h => ?_, rfl, ?_, hper, ?_⟩
  · show (New c).configuration.NumBuckets = _
    rw [hn, if_neg (by omega)]
  · show (New c).configuration.NumBuckets = _
    rw [hn, if_pos h]
  · rw [hper]; exact hb
  · have := New_NumBuckets_pos c
    show 0 < (New c).configuration.NumBuckets
    omega

theorem New_resolves_NumBuckets_witness :
    ((1 : Int) ≤ 5 ∧
      (New { NumBuckets := 5, BucketDuration := 0, DurationOfBreak := 0,
             ShouldTrip := none }).Configuration.NumBuckets = 5) ∧
    ((-1 : Int) ≤ 0 ∧
      (New { NumBuckets := -1, BucketDuration := 0, DurationOfBreak := 0,
             ShouldTrip := none }).Configuration.NumBuckets = DefaultNumBuckets) :=
  ⟨⟨by decide, (New_resolves_NumBuckets
      { NumBuckets := 5, BucketDuration := 0, DurationOfBreak := 0, ShouldTrip := none }).1
      (by decide)⟩,
   ⟨by decide, (New_resolves_NumBuckets
      { NumBuckets := -1, BucketDuration := 0, DurationOfBreak := 0, ShouldTrip := none }).2.1
      (by decide)⟩⟩

/-- C13: the `BucketDuration` a fresh breaker keeps is the supplied duration
rounded down to whole seconds when that is at least one second, and the
default, one second, when it is less (negative included); `DurationOfBreak`
likewise with its default of five seconds.  Both are positive multiples of one
second and, when the supplied duration is at least one second, at most it. -/
theorem New_resolves_durations (c : Configuration) :
    (Second ≤ c.BucketDuration →
      (New c).Configuration.BucketDuration = c.BucketDuration / Second * Second ∧
      (New c).Configuration.BucketDuration ≤ c.BucketDuration) ∧
    (c.BucketDuration < Second →
      (New c).Configuration.BucketDuration = DefaultBucketDuration) ∧
    DefaultBucketDuration = 1 * Second ∧
    0 < (New c).Configuration.BucketDuration ∧
    Second ∣ (New c).Configuration.BucketDuration ∧
    (Second ≤ c.DurationOfBreak →
      (New c).Configuration.DurationOfBreak = c.DurationOfBreak / Second * Second ∧
      (New c).Configuration.DurationOfBreak ≤ c.DurationOfBreak) ∧
    (c.DurationOfBreak < Second →
      (New c).Configuration.DurationOfBreak = DefaultDurationOfBreak) ∧
    DefaultDurationOfBreak = 5 * Second ∧
    0 < (New c).Configuration.DurationOfBreak ∧
    Second ∣ (New c).Configuration.DurationOfBreak ∧
    Second = 1000000000 := by
  have hb := resolved_duration c.BucketDuration DefaultBucketDuration 1 (by norm_num)
    (by unfold DefaultBucketDuration; rfl)
  have hd := resolved_duration c.DurationOfBreak DefaultDurationOfBreak 5 (by norm_num)
    (by unfold DefaultDurationOfBreak; rfl)
  rw [← New_BucketDuration] at hb
  rw [← New_DurationOfBreak] at hd
  exact ⟨hb.1, hb.2.1, rfl, hb.2.2.1, hb.2.2.2, hd.1, hd.2.1, rfl, hd.2.2.1, hd.2.2.2, rfl⟩

theorem New_resolves_durations_witness :
    (Second ≤ 2500000000 ∧
      (New { NumBuckets := 0, BucketDuration := 2500000000, DurationOfBreak := -1,
             ShouldTrip := none }).Configuration.BucketDuration = 2000000000) ∧
    ((-1 : Int) < Second ∧
      (New { NumBuckets := 0, BucketDuration := 2500000000, DurationOfBreak := -1,
             ShouldTrip := none }).Configuration.DurationOfBreak = 5000000000) :=
  ⟨⟨by decide, ((New_resolves_durations
      { NumBuckets := 0, BucketDuration := 2500000000, DurationOfBreak := -1,
        ShouldTrip := none }).1 (by decide)).1.trans (by decide)⟩,
   ⟨by decide, ((New_resolves_durations
      { NumBuckets := 0, BucketDuration := 2500000000, DurationOfBreak := -1,
        ShouldTrip := none }).2.2.2.2.2.2.1 (by decide)).trans (by decide)⟩⟩

/-! ## What a report writes -/

/-- The lifetime counters, the rejected counter and the log of policy calls
after a report. -/
theorem handleFeedback_counters (cb : fastBreaker) (bound : State) (success : Bool) :
    (cb.handleFeedback bound success).rejected = cb.rejected ∧
    (cb.handleFeedback bound success).totalCounters
      = (if bound = cb.state ∧ cb.state = StateClosed then
          { executions := u64 (cb.totalCounters.executions + 1),
            failures := if success = true then cb.totalCounters.failures
              else u64 (cb.totalCounters.failures + 1) }
         else cb.totalCounters) ∧
    (cb.handleFeedback bound success).shouldTripCalls
      = (if bound = cb.state ∧ cb.state = StateClosed ∧ success = false
            ∧ cb.configuration.ShouldTrip.isSome = true then
          cb.incExecutions.incFailures.RollingCounters :: cb.shouldTripCalls
         else cb.shouldTripCalls) := by
  by_cases hb : bound = cb.state
  swap
  · rw [handleFeedback_other cb bound success (Or.inl hb)]
    simp [hb]
  by_cases hc : cb.state = StateClosed
  · rw [hb, hc]
    cases success
    · cases hp : cb.configuration.ShouldTrip with
      | none =>
        rw [handleFeedback_closed_failure_nil cb hc hp]
        simp [hc, hp, fastBreaker.incExecutions, fastBreaker.incFailures]
      | some f =>
        rw [handleFeedback_closed_failure cb f hc hp]
        split
        · rw [tripFrom_eq _ _ (show (cb.incExecutions.incFailures.recordShouldTrip _ _).state
            = StateClosed from hc)]
          simp [hc, hp, fastBreaker.incExecutions, fastBreaker.incFailures,
            fastBreaker.recordShouldTrip]
        · simp [hc, hp, fastBreaker.incExecutions, fastBreaker.incFailures,
            fastBreaker.recordShouldTrip]
    · rw [handleFeedback_closed_success cb hc]
      simp [hc, fastBreaker.incExecutions]
  by_cases hh : cb.state = StateHalfOpen
  · rw [hb, hh]
    have hne : ¬ (StateHalfOpen = StateClosed) := by decide
    cases success
    · rw [handleFeedback_halfOpen_failure cb hh, tripFrom_eq _ _ hh]
      simp [hh]
    · rw [handleFeedback_halfOpen_success cb hh]
      refine ⟨?_, ?_, ?_⟩
      · unfold fastBreaker.reset
        cases cb.breakTimer <;> simp <;> split <;> rfl
      · simp [hh, reset_totalCounters]
      · simp only [hh, hne, false_and, and_false, if_false]
        unfold fastBreaker.reset
        cases cb.breakTimer <;> simp <;> split <;> rfl
  · rw [handleFeedback_other cb bound success (Or.inr ⟨hc, hh⟩)]
    simp [hc]

theorem step_configuration (cb : fastBreaker) (op : Op) :
    (cb.step op).configuration = cb.configuration := by
  cases op with
  | allow => exact (Allow_cb_fields cb).2.2.1
  | report bound success => exact (handleFeedback_transition cb bound success).1
  | tick => rfl
  | timer =>
    show cb.breakTimerFunc.configuration = cb.configuration
    rw [breakTimerFunc_eq]
    by_cases h : cb.state = StateOpen <;> simp [h]
  | stop =>
    show cb.Stop.configuration = cb.configuration
    unfold fastBreaker.Stop
    cases cb.breakTimer <;> rfl

theorem run_configuration (ops : List Op) (cb : fastBreaker) :
    (cb.run ops).configuration = cb.configuration := by
  induction ops generalizing cb with
  | nil => rfl
  | cons op ops ih =>
    simp only [fastBreaker.run]
    rw [ih, step_configuration]

/-- C14: the `ShouldTrip` of the configuration a fresh breaker reports is never
nil: it is the supplied function when there is one and `DefaultShouldTrip`
otherwise.  After any sequence of operations the breaker still holds that
configuration, and a failure reported through a Closed reporter while it is
Closed calls exactly that function, on the rolling counters just incremented,
and opens the breaker exactly when it returns true; no other report calls
it. -/
theorem New_ShouldTrip_is_consulted (c : Configuration) (ops : List Op) :
    (New c).Configuration.ShouldTrip ≠ none ∧
    (∀ f, c.ShouldTrip = some f → (New c).Configuration.ShouldTrip = some f) ∧
    (c.ShouldTrip = none → (New c).Configuration.ShouldTrip = some DefaultShouldTrip) ∧
    ((New c).run ops).Configuration = (New c).Configuration ∧
    (((New c).run ops).State = StateClosed →
      (((New c).run ops).handleFeedback StateClosed false).shouldTripCalls
        = ((New c).run ops).incExecutions.incFailures.RollingCounters
            :: ((New c).run ops).shouldTripCalls ∧
      ((((New c).run ops).handleFeedback StateClosed false).State = StateOpen ↔
        (c.ShouldTrip.getD DefaultShouldTrip)
          ((New c).run ops).incExecutions.incFailures.RollingCounters.1
          ((New c).run ops).incExecutions.incFailures.RollingCounters.2 = true)) ∧
    (∀ (bound : State) (success : Bool),
      ¬ (bound = StateClosed ∧ ((New c).run ops).State = StateClosed ∧ success = false) →
      (((New c).run ops).handleFeedback bound success).shouldTripCalls
        = ((New c).run ops).shouldTripCalls) := by
  have hcfg : ((New c).run ops).configuration = (New c).configuration :=
    run_configuration ops (New c)
  have hpol : ((New c).run ops).configuration.ShouldTrip
      = some (c.ShouldTrip.getD DefaultShouldTrip) := by
    rw [hcfg, New_ShouldTrip]
  refine ⟨?_, ?_, ?_, hcfg, ?_, ?_⟩
  · show (New c).configuration.ShouldTrip ≠ none
    rw [New_ShouldTrip]; simp
  · intro f hf
    show (New c).configuration.ShouldTrip = some f
    rw [New_ShouldTrip, hf]; rfl
  · intro hn
    show (New c).configuration.ShouldTrip = some DefaultShouldTrip
    rw [New_ShouldTrip, hn]; rfl
  · intro hs
    have hst : ((New c).run ops).state = StateClosed := hs
    generalize (New c).run ops = x at *
    refine ⟨?_, ?_⟩
    · rw [(handleFeedback_counters x StateClosed false).2.2]
      simp [hst, hpol]
    · rw [handleFeedback_closed_failure x _ hst hpol]
      simp only [fastBreaker.State]
      split
      · rename_i ht
        rw [tripFrom_eq _ _ (show (x.incExecutions.incFailures.recordShouldTrip _ _).state
          = StateClosed from hst)]
        simp [ht]
      · rename_i ht
        have : (x.incExecutions.incFailures.recordShouldTrip
            x.incExecutions.incFailures.RollingCounters.1
            x.incExecutions.incFailures.RollingCounters.2).state = StateClosed := hst
        rw [this]
        simp [ht]
  · intro bound success hno
    have hno2 : ¬ (bound = StateClosed ∧ ((New c).run ops).state = StateClosed
        ∧ success = false) := hno
    generalize (New c).run ops = x at *
    rw [(handleFeedback_counters x bound success).2.2]
    rw [if_neg]
    rintro ⟨h1, h2, h3, _⟩
    exact hno2 ⟨h1.trans h2, h2, h3⟩

/-- C15: the breaker returned by `New` is Closed, its lifetime, rejected and
rolling counters are zero, it has as many buckets as the `NumBuckets` of its
configuration (the supplied number when that is at least 1), all of them zero,
and no break timer. -/
theorem New_initial_state (c : Configuration) :
    (New c).State = StateClosed ∧
    (New c).Executions = 0 ∧
    (New c).Failures = 0 ∧
    (New c).Rejected = 0 ∧
    (New c).RollingCounters = (0, 0) ∧
    ((Ring.Len (New c).ring : Nat) : Int) = (New c).Configuration.NumBuckets ∧
    (1 ≤ c.NumBuckets → ((Ring.Len (New c).ring : Nat) : Int) = c.NumBuckets) ∧
    (∀ b ∈ (New c).ring, b = { executions := 0, failures := 0 }) ∧
    (New c).breakTimer = none ∧
    (New c).halfOpenAllowed = false := by
  have hr := New_ring c
  have hpos := New_NumBuckets_pos c
  have hlen : ((Ring.Len (New c).ring : Nat) : Int) = (New c).configuration.NumBuckets := by
    rw [hr]; simp [Ring.Len]; omega
  refine ⟨New_state c, ?_, ?_, New_rejected c, rolling_replicate_zero _ _ hr, hlen, ?_, ?_,
    New_breakTimer c, ?_⟩
  · simp [fastBreaker.Executions, New_totalCounters]
  · simp [fastBreaker.Failures, New_totalCounters]
  · intro h
    rw [hlen, New_NumBuckets, if_neg (by omega)]
  · intro b hb
    rw [hr] at hb
    exact List.eq_of_mem_replicate hb
  · rw [New_eq]

/-- C17: from any state `Stop` leads to Stopped, keeps `Executions`,
`Failures`, `Rejected`, the rolling counters and every bucket, and a second
`Stop` changes nothing more. -/
theorem Stop_is_idempotent (cb : fastBreaker) :
    cb.Stop.State = StateStopped ∧
    cb.Stop.Executions = cb.Executions ∧
    cb.Stop.Failures = cb.Failures ∧
    cb.Stop.Rejected = cb.Rejected ∧
    cb.Stop.RollingCounters = cb.RollingCounters ∧
    cb.Stop.ring = cb.ring ∧
    cb.Stop.Stop = cb.Stop := by
  have h := Stop_fields cb
  refine ⟨h.1, ?_, ?_, h.2.2.1, ?_, h.2.2.2.1, ?_⟩
  · simp [fastBreaker.Executions, h.2.1]
  · simp [fastBreaker.Failures, h.2.1]
  · simp [fastBreaker.RollingCounters, h.2.2.2.1]
  · unfold fastBreaker.Stop
    cases cb.breakTimer <;> simp [Timer.Stop, Ticker.Stop]

/-- C20: the open gauge of the metrics adapter reads 0 exactly when `State()`
is Closed and 1 for every other state number, whatever breaker stands behind
the interface; in particular for the breaker of this package. -/
theorem circuitBreakerOpen_reads (cb : FastBreaker) (x : fastBreaker) :
    (prometheus.circuitBreakerOpen cb = 0 ↔ cb.State = StateClosed) ∧
    (cb.State ≠ StateClosed → prometheus.circuitBreakerOpen cb = 1) ∧
    (prometheus.circuitBreakerOpen cb = 0 ∨ prometheus.circuitBreakerOpen cb = 1) ∧
    (prometheus.circuitBreakerOpen x.toFastBreaker = 0 ↔ x.State = StateClosed) ∧
    (x.State ≠ StateClosed → prometheus.circuitBreakerOpen x.toFastBreaker = 1) := by
  have key : ∀ y : FastBreaker,
      (prometheus.circuitBreakerOpen y = 0 ↔ y.State = StateClosed) ∧
      (y.State ≠ StateClosed → prometheus.circuitBreakerOpen y = 1) := by
    intro y
    unfold prometheus.circuitBreakerOpen
    by_cases h : y.State = StateClosed <;> simp [h]
  refine ⟨(key cb).1, (key cb).2, ?_, (key x.toFastBreaker).1, (key x.toFastBreaker).2⟩
  unfold prometheus.circuitBreakerOpen
  by_cases h : cb.State = StateClosed <;> simp [h]

theorem circuitBreakerOpen_reads_witness :
    ({ State := 7, Executions := 0, Failures := 0, Rejected := 0,
       RollingCounters := (0, 0) } : FastBreaker).State ≠ StateClosed ∧
    prometheus.circuitBreakerOpen
      { State := 7, Executions := 0, Failures := 0, Rejected := 0, RollingCounters := (0, 0) }
      = 1 ∧
    prometheus.circuitBreakerOpen openBreaker.toFastBreaker = 1 :=
  ⟨by decide,
   (circuitBreakerOpen_reads
      { State := 7, Executions := 0, Failures := 0, Rejected := 0, RollingCounters := (0, 0) }
      openBreaker).2.1 (by decide),
   (circuitBreakerOpen_reads
      { State := 7, Executions := 0, Failures := 0, Rejected := 0, RollingCounters := (0, 0) }
      openBreaker).2.2.2.2 (by decide)⟩

/-! ## What each operation does to the lifetime counters -/

theorem Allow_cases (cb : fastBreaker) :
    (cb.Allow.reporter = none ∧ cb.Allow.err = some Error.ErrCircuitStopped ∧
      cb.Allow.cb = cb) ∨
    ((cb.Allow.reporter = some StateClosed ∨ cb.Allow.reporter = some StateHalfOpen) ∧
      cb.Allow.reporter = some cb.state ∧ cb.Allow.err = none ∧
      cb.Allow.cb.rejected = cb.rejected) ∨
    (cb.Allow.reporter = none ∧ cb.Allow.err = some Error.ErrCircuitOpen ∧
      cb.Allow.cb.rejected = u64 (cb.rejected + 1)) := by
  unfold fastBreaker.Allow
  by_cases h0 : cb.state = StateStopped
  · simp [h0]
  by_cases h1 : cb.state = StateClosed
  · simp [h1]
  by_cases h2 : cb.state = StateHalfOpen ∧ cb.halfOpenAllowed = true
  · simp [h2.1, h2.2]
  · simp [h0, h1, h2]

theorem u64_succ_ne (r : Nat) : r ≠ u64 (r + 1) := by
  unfold u64
  omega

theorem step_rejected (cb : fastBreaker) (op : Op) :
    (cb.step op).rejected
      = if cb.rejects op = true then u64 (cb.rejected + 1) else cb.rejected := by
  cases op with
  | allow =>
    simp only [fastBreaker.step, fastBreaker.rejects, decide_eq_true_eq]
    rcases Allow_cases cb with ⟨_, h2, h3⟩ | ⟨_, _, h2, h3⟩ | ⟨_, h2, h3⟩
    · rw [h3, h2]; simp
    · rw [h3, h2]; simp
    · rw [h3, h2]; simp
  | report bound success =>
    simp only [fastBreaker.step, fastBreaker.rejects, fastBreaker.buildFeedbackFunc]
    rw [(handleFeedback_counters cb bound success).1]; simp
  | tick => simp [fastBreaker.step, fastBreaker.rejects, fastBreaker.advanceWindow]
  | timer =>
    simp only [fastBreaker.step, fastBreaker.rejects, breakTimerFunc_eq]
    by_cases h : cb.state = StateOpen <;> simp [h]
  | stop =>
    simp only [fastBreaker.step, fastBreaker.rejects]
    rw [(Stop_fields cb).2.2.1]; simp

theorem step_totalCounters_of_not_report (cb : fastBreaker) (op : Op)
    (h : ∀ bound success, op ≠ Op.report bound success) :
    (cb.step op).totalCounters = cb.totalCounters := by
  cases op with
  | allow => exact (Allow_cb_fields cb).2.2.2.1
  | report bound success => exact absurd rfl (h bound success)
  | tick => rfl
  | timer =>
    show cb.breakTimerFunc.totalCounters = cb.totalCounters
    rw [breakTimerFunc_eq]
    by_cases h : cb.state = StateOpen <;> simp [h]
  | stop => exact (Stop_fields cb).2.1

theorem step_executions (cb : fastBreaker) (op : Op) :
    (cb.step op).totalCounters.executions
      = if cb.countsExecution op = true then u64 (cb.totalCounters.executions + 1)
        else cb.totalCounters.executions := by
  cases op with
  | report bound success =>
    simp only [fastBreaker.step, fastBreaker.countsExecution, fastBreaker.buildFeedbackFunc,
      decide_eq_true_eq]
    rw [(handleFeedback_counters cb bound success).2.1]
    by_cases hc : cb.state = StateClosed
    · by_cases hb : bound = StateClosed
      · simp [hc, hb]
      · simp [hc, hb]
    · simp [hc]
  | allow =>
    rw [step_totalCounters_of_not_report cb _ (by intro _ _ h; cases h)]
    simp [fastBreaker.countsExecution]
  | tick =>
    rw [step_totalCounters_of_not_report cb _ (by intro _ _ h; cases h)]
    simp [fastBreaker.countsExecution]
  | timer =>
    rw [step_totalCounters_of_not_report cb _ (by intro _ _ h; cases h)]
    simp [fastBreaker.countsExecution]
  | stop =>
    rw [step_totalCounters_of_not_report cb _ (by intro _ _ h; cases h)]
    simp [fastBreaker.countsExecution]

theorem step_failures (cb : fastBreaker) (op : Op) :
    (cb.step op).totalCounters.failures
      = if cb.countsFailure op = true then u64 (cb.totalCounters.failures + 1)
        else cb.totalCounters.failures := by
  cases op with
  | report bound success =>
    simp only [fastBreaker.step, fastBreaker.countsFailure, fastBreaker.buildFeedbackFunc,
      decide_eq_true_eq]
    rw [(handleFeedback_counters cb bound success).2.1]
    by_cases hc : cb.state = StateClosed
    · by_cases hb : bound = StateClosed
      · cases success <;> simp [hc, hb]
      · simp [hc, hb]
    · simp [hc]
  | allow =>
    rw [step_totalCounters_of_not_report cb _ (by intro _ _ h; cases h)]
    simp [fastBreaker.countsFailure]
  | tick =>
    rw [step_totalCounters_of_not_report cb _ (by intro _ _ h; cases h)]
    simp [fastBreaker.countsFailure]
  | timer =>
    rw [step_totalCounters_of_not_report cb _ (by intro _ _ h; cases h)]
    simp [fastBreaker.countsFailure]
  | stop =>
    rw [step_totalCounters_of_not_report cb _ (by intro _ _ h; cases h)]
    simp [fastBreaker.countsFailure]

/-- A counter that every counted operation increments (as a `uint64`) and no
other operation touches holds the number of counted operations modulo
`2 ^ 64`. -/
theorem run_counter (X : fastBreaker → Nat) (p : fastBreaker → Op → Bool)
    (hstep : ∀ cb op, X (cb.step op) = if p cb op = true then u64 (X cb + 1) else X cb)
    (ops : List Op) (x : fastBreaker) (a : Nat) (hx : X x = u64 a) :
    X (x.run ops) = u64 (a + fastBreaker.count p x ops) := by
  induction ops generalizing x a with
  | nil => simpa [fastBreaker.run, fastBreaker.count] using hx
  | cons op ops ih =>
    simp only [fastBreaker.run, fastBreaker.count]
    by_cases hp : p x op = true
    · have h1 : X (x.step op) = u64 (a + 1) := by
        rw [hstep, if_pos hp, hx, u64_u64_add]
      rw [ih _ _ h1, if_pos hp]
      congr 1; omega
    · have h1 : X (x.step op) = u64 a := by
        rw [hstep, if_neg hp, hx]
      rw [ih _ _ h1, if_neg hp]
      congr 1; omega

theorem count_append (p : fastBreaker → Op → Bool) (xs ys : List Op) (x : fastBreaker) :
    fastBreaker.count p x (xs ++ ys)
      = fastBreaker.count p x xs + fastBreaker.count p (x.run xs) ys := by
  induction xs generalizing x with
  | nil => simp [fastBreaker.count, fastBreaker.run]
  | cons op xs ih =>
    rw [List.cons_append]
    simp only [fastBreaker.count, fastBreaker.run]
    rw [ih]
    omega

theorem executions_eq_count (c : Configuration) (ops : List Op) :
    ((New c).run ops).totalCounters.executions
      = u64 (fastBreaker.count fastBreaker.countsExecution (New c) ops) := by
  have h := run_counter (fun cb => cb.totalCounters.executions) fastBreaker.countsExecution
    step_executions ops (New c) 0 (by simp [New_totalCounters, u64])
  simpa using h

theorem failures_eq_count (c : Configuration) (ops : List Op) :
    ((New c).run ops).totalCounters.failures
      = u64 (fastBreaker.count fastBreaker.countsFailure (New c) ops) := by
  have h := run_counter (fun cb => cb.totalCounters.failures) fastBreaker.countsFailure
    step_failures ops (New c) 0 (by simp [New_totalCounters, u64])
  simpa using h

theorem rejected_eq_count (c : Configuration) (ops : List Op) :
    ((New c).run ops).rejected
      = u64 (fastBreaker.count fastBreaker.rejects (New c) ops) := by
  have h := run_counter (fun cb => cb.rejected) fastBreaker.rejects
    step_rejected ops (New c) 0 (by simp [New_rejected, u64])
  simpa using h

/-- Every state reached by a sequential execution is the result of running a
sequence of operations on a fresh breaker. -/
theorem reachable_is_run {cb : fastBreaker} {rs : List State} (hr : Reachable cb rs) :
    ∃ c ops, cb = (New c).run ops := by
  induction hr with
  | new c => exact ⟨c, [], rfl⟩
  | @allow cb rs _ ih =>
    obtain ⟨c, ops, h⟩ := ih
    exact ⟨c, ops ++ [Op.allow], by rw [run_append, ← h]; rfl⟩
  | @report cb rs bound success _ _ ih =>
    obtain ⟨c, ops, h⟩ := ih
    exact ⟨c, ops ++ [Op.report bound success], by rw [run_append, ← h]; rfl⟩
  | @tick cb rs _ _ ih =>
    obtain ⟨c, ops, h⟩ := ih
    exact ⟨c, ops ++ [Op.tick], by rw [run_append, ← h]; rfl⟩
  | @timer cb rs t _ _ _ ih =>
    obtain ⟨c, ops, h⟩ := ih
    exact ⟨c, ops ++ [Op.timer], by rw [run_append, ← h]; rfl⟩
  | @stop cb rs _ ih =>
    obtain ⟨c, ops, h⟩ := ih
    exact ⟨c, ops ++ [Op.stop], by rw [run_append, ← h]; rfl⟩

/-! ## The rejected counter -/

/-- C16: for every breaker, `Allow` adds one to `Rejected` (the `uint64`
increment of `rejected.Add(1)`, which is plus one below the top value) exactly
when it returns `ErrCircuitOpen`; otherwise, granted or `ErrCircuitStopped`,
it leaves `Rejected` as it is; no operation other than `Allow` changes
`Rejected`; and `Allow` returns either a reporter (bound to the current state,
Closed or HalfOpen) with a nil error, or no reporter with `ErrCircuitOpen`, or
no reporter with `ErrCircuitStopped`. -/
theorem Allow_rejected_iff_ErrCircuitOpen (cb : fastBreaker) (op : Op) :
    (cb.Allow.cb.Rejected = u64 (cb.Rejected + 1) ↔
      cb.Allow.err = some Error.ErrCircuitOpen) ∧
    (cb.Allow.err = some Error.ErrCircuitOpen → cb.Rejected + 1 < 2 ^ 64 →
      cb.Allow.cb.Rejected = cb.Rejected + 1) ∧
    (cb.Allow.err = none → cb.Allow.cb.Rejected = cb.Rejected) ∧
    (cb.Allow.err = some Error.ErrCircuitStopped → cb.Allow.cb.Rejected = cb.Rejected) ∧
    (op ≠ Op.allow → (cb.step op).Rejected = cb.Rejected) ∧
    (((cb.Allow.reporter = some StateClosed ∨ cb.Allow.reporter = some StateHalfOpen) ∧
        cb.Allow.reporter = some cb.State ∧ cb.Allow.err = none) ∨
      (cb.Allow.reporter = none ∧ cb.Allow.err = some Error.ErrCircuitOpen) ∨
      (cb.Allow.reporter = none ∧ cb.Allow.err = some Error.ErrCircuitStopped)) := by
  simp only [fastBreaker.Rejected, fastBreaker.State]
  have hne := u64_succ_ne cb.rejected
  refine ⟨?_, ?_, ?_, ?_, ?_, ?_⟩
  · rcases Allow_cases cb with ⟨_, h2, h3⟩ | ⟨_, _, h2, h3⟩ | ⟨_, h2, h3⟩
    · rw [h3, h2]
      exact ⟨fun h => absurd h hne, fun h => by cases h⟩
    · rw [h3, h2]
      exact ⟨fun h => absurd h hne, fun h => by cases h⟩
    · rw [h3, h2]
      exact ⟨fun _ => rfl, fun _ => rfl⟩
  · intro he hlt
    rcases Allow_cases cb with ⟨_, h2, _⟩ | ⟨_, _, h2, _⟩ | ⟨_, _, h3⟩
    · rw [h2] at he; cases he
    · rw [h2] at he; cases he
    · rw [h3]; exact u64_of_lt hlt
  · intro he
    rcases Allow_cases cb with ⟨_, _, h3⟩ | ⟨_, _, _, h3⟩ | ⟨_, h2, _⟩
    · rw [h3]
    · exact h3
    · rw [h2] at he; cases he
  · intro he
    rcases Allow_cases cb with ⟨_, _, h3⟩ | ⟨_, _, _, h3⟩ | ⟨_, h2, _⟩
    · rw [h3]
    · exact h3
    · rw [h2] at he; cases he
  · intro hop
    rw [step_rejected]
    cases op with
    | allow => exact absurd rfl hop
    | report bound success => simp [fastBreaker.rejects]
    | tick => simp [fastBreaker.rejects]
    | timer => simp [fastBreaker.rejects]
    | stop => simp [fastBreaker.rejects]
  · rcases Allow_cases cb with ⟨h1, h2, _⟩ | ⟨h0, h1, h2, _⟩ | ⟨h1, h2, _⟩
    · exact Or.inr (Or.inr ⟨h1, h2⟩)
    · exact Or.inl ⟨h0, h1, h2⟩
    · exact Or.inr (Or.inl ⟨h1, h2⟩)

theorem Allow_rejected_iff_ErrCircuitOpen_witness :
    openBreaker.Allow.err = some Error.ErrCircuitOpen ∧ openBreaker.Rejected + 1 < 2 ^ 64 ∧
    openBreaker.Allow.cb.Rejected = openBreaker.Rejected + 1 ∧
    Op.timer ≠ Op.allow ∧ (openBreaker.step Op.timer).Rejected = openBreaker.Rejected :=
  ⟨by decide, by decide,
    (Allow_rejected_iff_ErrCircuitOpen openBreaker Op.timer).2.1 (by decide) (by decide),
    by decide,
    (Allow_rejected_iff_ErrCircuitOpen openBreaker Op.timer).2.2.2.2.1 (by decide)⟩

/-! ## The lifetime counters along an execution -/

/-- C18 (amended): after any sequence of operations on a fresh breaker, hence
in every state reached by a sequential execution, `Executions()` is, modulo
`2 ^ 64`, the number of reporter calls made through a reporter bound to Closed
while the state was Closed, each call counted whatever its outcome. -/
theorem Executions_counts_closed_reports (c : Configuration) (ops : List Op) :
    ((New c).run ops).Executions
      = u64 (fastBreaker.count fastBreaker.countsExecution (New c) ops) ∧
    (fastBreaker.count fastBreaker.countsExecution (New c) ops < 2 ^ 64 →
      ((New c).run ops).Executions
        = fastBreaker.count fastBreaker.countsExecution (New c) ops) ∧
    (∀ (cb : fastBreaker) (rs : List State), Reachable cb rs →
      ∃ c2 ops2, cb = (New c2).run ops2 ∧
        cb.Executions = u64 (fastBreaker.count fastBreaker.countsExecution (New c2) ops2)) := by
  refine ⟨executions_eq_count c ops, fun h => ?_, ?_⟩
  · exact (executions_eq_count c ops).trans (u64_of_lt h)
  · intro cb rs hr
    obtain ⟨c2, ops2, h⟩ := reachable_is_run hr
    exact ⟨c2, ops2, h, by rw [h]; exact executions_eq_count c2 ops2⟩

theorem Executions_counts_closed_reports_witness :
    fastBreaker.count fastBreaker.countsExecution (New zeroConfiguration)
      [Op.allow, Op.report StateClosed true, Op.allow, Op.report StateClosed false] < 2 ^ 64 ∧
    ((New zeroConfiguration).run
      [Op.allow, Op.report StateClosed true, Op.allow, Op.report StateClosed false]).Executions
      = 2 :=
  ⟨by decide,
    ((Executions_counts_closed_reports zeroConfiguration
      [Op.allow, Op.report StateClosed true, Op.allow, Op.report StateClosed false]).2.1
      (by decide)).trans (by decide)⟩

/-- C18, as stated, fails: on a fresh breaker one granted `Allow` that is not
reported leaves `Executions()` at 0, and one granted `Allow` whose reporter is
called twice takes it to 2; both states are reached by sequential executions. -/
theorem Executions_is_not_granted_allows :
    Reachable ((New zeroConfiguration).run [Op.allow]) [StateClosed] ∧
    fastBreaker.count fastBreaker.grants (New zeroConfiguration) [Op.allow] = 1 ∧
    ((New zeroConfiguration).run [Op.allow]).Executions = 0 ∧
    Reachable
      ((New zeroConfiguration).run
        [Op.allow, Op.report StateClosed true, Op.report StateClosed true])
      [StateClosed] ∧
    fastBreaker.count fastBreaker.grants (New zeroConfiguration)
      [Op.allow, Op.report StateClosed true, Op.report StateClosed true] = 1 ∧
    ((New zeroConfiguration).run
      [Op.allow, Op.report StateClosed true, Op.report StateClosed true]).Executions = 2 := by
  have r1 : Reachable ((New zeroConfiguration).run [Op.allow]) [StateClosed] :=
    Reachable.allow (Reachable.new zeroConfiguration)
  have r2 : Reachable ((New zeroConfiguration).run [Op.allow, Op.report StateClosed true])
      [StateClosed] := Reachable.report StateClosed true r1 (by decide)
  have r3 : Reachable
      ((New zeroConfiguration).run
        [Op.allow, Op.report StateClosed true, Op.report StateClosed true])
      [StateClosed] := Reachable.report StateClosed true r2 (by decide)
  exact ⟨r1, by decide, by decide, r3, by decide, by decide⟩

/-- C19: every operation leaves each of `Executions`, `Failures` and
`Rejected` as it is or adds one to it as a `uint64`, so none of them decreases
unless it is at the top value `2 ^ 64 - 1`; and along any sequence of
operations on a fresh breaker, as long as the events a counter has counted, the
operation included, are fewer than `2 ^ 64`, the counter after the operation
is at least the counter before it. -/
theorem lifetime_counters_monotonic (c : Configuration) (ops : List Op) (op : Op)
    (cb : fastBreaker) :
    ((cb.step op).Executions = cb.Executions ∨
      (cb.step op).Executions = u64 (cb.Executions + 1)) ∧
    ((cb.step op).Failures = cb.Failures ∨
      (cb.step op).Failures = u64 (cb.Failures + 1)) ∧
    ((cb.step op).Rejected = cb.Rejected ∨
      (cb.step op).Rejected = u64 (cb.Rejected + 1)) ∧
    (cb.Executions + 1 < 2 ^ 64 → cb.Executions ≤ (cb.step op).Executions) ∧
    (cb.Failures + 1 < 2 ^ 64 → cb.Failures ≤ (cb.step op).Failures) ∧
    (cb.Rejected + 1 < 2 ^ 64 → cb.Rejected ≤ (cb.step op).Rejected) ∧
    (fastBreaker.count fastBreaker.countsExecution (New c) (ops ++ [op]) < 2 ^ 64 →
      ((New c).run ops).Executions ≤ (((New c).run ops).step op).Executions) ∧
    (fastBreaker.count fastBreaker.countsFailure (New c) (ops ++ [op]) < 2 ^ 64 →
      ((New c).run ops).Failures ≤ (((New c).run ops).step op).Failures) ∧
    (fastBreaker.count fastBreaker.rejects (New c) (ops ++ [op]) < 2 ^ 64 →
      ((New c).run ops).Rejected ≤ (((New c).run ops).step op).Rejected) := by
  simp only [fastBreaker.Executions, fastBreaker.Failures, fastBreaker.Rejected]
  have he := step_executions cb op
  have hf := step_failures cb op
  have hr := step_rejected cb op
  have along : ∀ (X : fastBreaker → Nat) (p : fastBreaker → Op → Bool),
      (∀ l, X ((New c).run l) = u64 (fastBreaker.count p (New c) l)) →
      fastBreaker.count p (New c) (ops ++ [op]) < 2 ^ 64 →
      X ((New c).run ops) ≤ X (((New c).run ops).step op) := by
    intro X p hX hlt
    have h1 := hX ops
    have h2 := hX (ops ++ [op])
    rw [run_append] at h2
    have h3 := count_append p ops [op] (New c)
    have e : ((New c).run ops).run [op] = ((New c).run ops).step op := rfl
    rw [e] at h2
    rw [h1, h2, u64_of_lt hlt, u64_of_lt (by omega)]
    omega
  refine ⟨?_, ?_, ?_, ?_, ?_, ?_, ?_, ?_, ?_⟩
  · rw [he]; split
    · exact Or.inr rfl
    · exact Or.inl rfl
  · rw [hf]; split
    · exact Or.inr rfl
    · exact Or.inl rfl
  · rw [hr]; split
    · exact Or.inr rfl
    · exact Or.inl rfl
  · intro h; rw [he]; split
    · rw [u64_of_lt h]; omega
    · exact le_refl _
  · intro h; rw [hf]; split
    · rw [u64_of_lt h]; omega
    · exact le_refl _
  · intro h; rw [hr]; split
    · rw [u64_of_lt h]; omega
    · exact le_refl _
  · exact along (fun x => x.totalCounters.executions) _ (executions_eq_count c)
  · exact along (fun x => x.totalCounters.failures) _ (failures_eq_count c)
  · exact along (fun x => x.rejected) _ (rejected_eq_count c)

theorem lifetime_counters_monotonic_witness :
    fastBreaker.count fastBreaker.countsFailure (New tripAtOnce)
      ([Op.allow] ++ [Op.report StateClosed false]) < 2 ^ 64 ∧
    ((New tripAtOnce).run [Op.allow]).Failures
      ≤ (((New tripAtOnce).run [Op.allow]).step (Op.report StateClosed false)).Failures ∧
    openBreaker.Rejected + 1 < 2 ^ 64 ∧
    openBreaker.Rejected ≤ (openBreaker.step Op.allow).Rejected :=
  ⟨by decide,
    (lifetime_counters_monotonic tripAtOnce [Op.allow] (Op.report StateClosed false)
      openBreaker).2.2.2.2.2.2.2.1 (by decide),
    by decide,
    (lifetime_counters_monotonic tripAtOnce [Op.allow] Op.allow
      openBreaker).2.2.2.2.2.1 (by decide)⟩

theorem New_ShouldTrip_is_consulted_witness :
    ((New tripAtOnce).run [Op.allow]).State = StateClosed ∧
    (((New tripAtOnce).run [Op.allow]).handleFeedback StateClosed false).State = StateOpen ∧
    (((New tripAtOnce).run [Op.allow]).handleFeedback StateClosed false).shouldTripCalls
      = [(1, 1)] :=
  ⟨by decide,
    ((New_ShouldTrip_is_consulted tripAtOnce [Op.allow]).2.2.2.2.1 (by decide)).2.mpr rfl,
    ((New_ShouldTrip_is_consulted tripAtOnce [Op.allow]).2.2.2.2.1 (by decide)).1.trans
      (by decide)⟩

theorem New_initial_state_witness :
    (1 : Int) ≤ tripAtOnce.NumBuckets ∧
    ((Ring.Len (New tripAtOnce).ring : Nat) : Int) = tripAtOnce.NumBuckets ∧
    (New tripAtOnce).RollingCounters = (0, 0) :=
  ⟨by decide, (New_initial_state tripAtOnce).2.2.2.2.2.2.1 (by decide),
    (New_initial_state tripAtOnce).2.2.2.2.1⟩

/-! ## Transitions -/

theorem breakTimerFunc_fields (cb : fastBreaker) :
    (cb.state = StateOpen →
      cb.breakTimerFunc.state = StateHalfOpen ∧ cb.breakTimerFunc.halfOpenAllowed = true) ∧
    (cb.state ≠ StateOpen →
      cb.breakTimerFunc.state = cb.state ∧
      cb.breakTimerFunc.halfOpenAllowed = cb.halfOpenAllowed) ∧
    cb.breakTimerFunc.breakTimer = none ∧
    cb.breakTimerFunc.totalCounters = cb.totalCounters ∧
    cb.breakTimerFunc.rejected = cb.rejected ∧
    cb.breakTimerFunc.ring = cb.ring := by
  rw [breakTimerFunc_eq]
  by_cases h : cb.state = StateOpen <;> simp [h]

theorem step_tick_or_timer_closed (cb : fastBreaker) (op : Op) (h : cb.state = StateClosed)
    (hop : op = Op.tick ∨ op = Op.timer) : (cb.step op).state = StateClosed := by
  rcases hop with rfl | rfl
  · exact h
  · have := (breakTimerFunc_fields cb).2.1 (by rw [h]; decide)
    show cb.breakTimerFunc.state = StateClosed
    rw [this.1, h]

theorem run_ticks_and_timers_closed (ops : List Op) (cb : fastBreaker)
    (h : cb.state = StateClosed) (hops : ∀ op ∈ ops, op = Op.tick ∨ op = Op.timer) :
    (cb.run ops).state = StateClosed := by
  induction ops generalizing cb with
  | nil => exact h
  | cons op ops ih =>
    exact ih _ (step_tick_or_timer_closed cb op h (hops op (List.mem_cons_self _ _)))
      (fun o ho => hops o (List.mem_cons_of_mem _ ho))

/-- C22: when the break timer fires on an Open breaker the state becomes
HalfOpen and the half-open permit is set; on a breaker in any other state the
state is unchanged and the permit is left as it was.  Once a success reported
in HalfOpen has closed the breaker, any sequence of window ticks and timer
firings leaves it Closed. -/
theorem timer_opens_half_only_from_open (cb : fastBreaker) (ops : List Op) :
    (cb.State = StateOpen →
      cb.breakTimerFunc.State = StateHalfOpen ∧ cb.breakTimerFunc.halfOpenAllowed = true) ∧
    (cb.State ≠ StateOpen →
      cb.breakTimerFunc.State = cb.State ∧
      cb.breakTimerFunc.halfOpenAllowed = cb.halfOpenAllowed) ∧
    (cb.State = StateHalfOpen → (∀ op ∈ ops, op = Op.tick ∨ op = Op.timer) →
      (fastBreaker.buildFeedbackFunc StateHalfOpen true cb).State = StateClosed ∧
      ((fastBreaker.buildFeedbackFunc StateHalfOpen true cb).run ops).State = StateClosed) := by
  have hf := breakTimerFunc_fields cb
  refine ⟨hf.1, hf.2.1, ?_⟩
  intro hs hops
  have hs2 : cb.state = StateHalfOpen := hs
  have hc : (fastBreaker.buildFeedbackFunc StateHalfOpen true cb).state = StateClosed := by
    simp only [fastBreaker.buildFeedbackFunc]
    rw [handleFeedback_halfOpen_success cb hs2]
    exact reset_state cb
  exact ⟨hc, run_ticks_and_timers_closed ops _ hc hops⟩

theorem timer_opens_half_only_from_open_witness :
    openBreaker.State = StateOpen ∧ openBreaker.breakTimerFunc.State = StateHalfOpen ∧
    halfOpenBreaker.State = StateHalfOpen ∧
    (∀ op ∈ [Op.timer, Op.tick, Op.timer], op = Op.tick ∨ op = Op.timer) ∧
    ((fastBreaker.buildFeedbackFunc StateHalfOpen true halfOpenBreaker).run
      [Op.timer, Op.tick, Op.timer]).State = StateClosed :=
  ⟨by decide,
    ((timer_opens_half_only_from_open openBreaker []).1 (by decide)).1,
    by decide, by decide,
    ((timer_opens_half_only_from_open halfOpenBreaker [Op.timer, Op.tick, Op.timer]).2.2
      (by decide) (by decide)).2⟩

/-- The state after one operation, against the state before it. -/
theorem step_state (cb : fastBreaker) (op : Op) :
    (cb.step op).state = cb.state ∨
    (cb.state = StateClosed ∧ (cb.step op).state = StateOpen ∧
      op = Op.report StateClosed false) ∨
    (cb.state = StateOpen ∧ (cb.step op).state = StateHalfOpen ∧ op = Op.timer) ∨
    (cb.state = StateHalfOpen ∧ (cb.step op).state = StateClosed ∧
      op = Op.report StateHalfOpen true) ∨
    (cb.state = StateHalfOpen ∧ (cb.step op).state = StateOpen ∧
      op = Op.report StateHalfOpen false) ∨
    ((cb.step op).state = StateStopped ∧ op = Op.stop) := by
  cases op with
  | allow => exact Or.inl (Allow_cb_fields cb).1
  | report bound success =>
    simp only [fastBreaker.step, fastBreaker.buildFeedbackFunc]
    rcases (handleFeedback_transition cb bound success).2 with
      ⟨h1, _⟩ | ⟨h0, hb, hsu, h1, _⟩ | ⟨h0, hb, hsu, h1, _⟩
    · exact Or.inl h1
    · rcases h0 with h0 | h0
      · exact Or.inr (Or.inl ⟨h0, h1, by rw [hb, hsu, h0]⟩)
      · exact Or.inr (Or.inr (Or.inr (Or.inr (Or.inl ⟨h0, h1, by rw [hb, hsu, h0]⟩))))
    · exact Or.inr (Or.inr (Or.inr (Or.inl ⟨h0, h1, by rw [hb, hsu, h0]⟩)))
  | tick => exact Or.inl rfl
  | timer =>
    by_cases h : cb.state = StateOpen
    · exact Or.inr (Or.inr (Or.inl ⟨h, ((breakTimerFunc_fields cb).1 h).1, rfl⟩))
    · exact Or.inl ((breakTimerFunc_fields cb).2.1 h).1
  | stop => exact Or.inr (Or.inr (Or.inr (Or.inr (Or.inr ⟨(Stop_fields cb).1, rfl⟩))))

/-- C23: for every breaker, reachable or not, and every operation, the state
after the operation is the state before it, or the operation is a failure
report through a Closed reporter taking Closed to Open, the timer firing taking
Open to HalfOpen, a success report through a HalfOpen reporter taking HalfOpen
to Closed, a failure report through a HalfOpen reporter taking HalfOpen to
Open, or `Stop` leading to Stopped.  No operation takes Closed to HalfOpen,
Open to Closed, or Stopped to anything else. -/
theorem state_transitions (cb : fastBreaker) (op : Op) :
    ((cb.step op).State = cb.State ∨
      (cb.State = StateClosed ∧ (cb.step op).State = StateOpen ∧
        op = Op.report StateClosed false) ∨
      (cb.State = StateOpen ∧ (cb.step op).State = StateHalfOpen ∧ op = Op.timer) ∨
      (cb.State = StateHalfOpen ∧ (cb.step op).State = StateClosed ∧
        op = Op.report StateHalfOpen true) ∨
      (cb.State = StateHalfOpen ∧ (cb.step op).State = StateOpen ∧
        op = Op.report StateHalfOpen false) ∨
      ((cb.step op).State = StateStopped ∧ op = Op.stop)) ∧
    ¬ (cb.State = StateClosed ∧ (cb.step op).State = StateHalfOpen) ∧
    ¬ (cb.State = StateOpen ∧ (cb.step op).State = StateClosed) ∧
    (cb.State = StateStopped → (cb.step op).State = StateStopped) := by
  simp only [fastBreaker.State]
  have h := step_state cb op
  refine ⟨h, ?_, ?_, ?_⟩
  · rintro ⟨h1, h2⟩
    rcases h with h | ⟨_, h, _⟩ | ⟨h, _, _⟩ | ⟨h, _, _⟩ | ⟨h, _, _⟩ | ⟨h, _⟩
    · rw [h1] at h; rw [h] at h2; exact absurd h2 (by decide)
    · rw [h] at h2; exact absurd h2 (by decide)
    · rw [h] at h1; exact absurd h1 (by decide)
    · rw [h] at h1; exact absurd h1 (by decide)
    · rw [h] at h1; exact absurd h1 (by decide)
    · rw [h] at h2; exact absurd h2 (by decide)
  · rintro ⟨h1, h2⟩
    rcases h with h | ⟨h, _, _⟩ | ⟨_, h, _⟩ | ⟨h, _, _⟩ | ⟨h, _, _⟩ | ⟨h, _⟩
    · rw [h1] at h; rw [h] at h2; exact absurd h2 (by decide)
    · rw [h] at h1; exact absurd h1 (by decide)
    · rw [h] at h2; exact absurd h2 (by decide)
    · rw [h] at h1; exact absurd h1 (by decide)
    · rw [h] at h1; exact absurd h1 (by decide)
    · rw [h] at h2; exact absurd h2 (by decide)
  · intro h1
    rcases h with h | ⟨h, _, _⟩ | ⟨h, _, _⟩ | ⟨h, _, _⟩ | ⟨h, _, _⟩ | ⟨h, _⟩
    · rw [h, h1]
    · rw [h] at h1; exact absurd h1 (by decide)
    · rw [h] at h1; exact absurd h1 (by decide)
    · rw [h] at h1; exact absurd h1 (by decide)
    · rw [h] at h1; exact absurd h1 (by decide)
    · exact h

theorem state_transitions_witness :
    halfOpenBreaker.State = StateHalfOpen ∧
    (halfOpenBreaker.step (Op.report StateHalfOpen true)).State = StateClosed ∧
    ¬ (openBreaker.State = StateOpen ∧
      (openBreaker.step (Op.report StateClosed true)).State = StateClosed) :=
  ⟨by decide, by decide, (state_transitions openBreaker (Op.report StateClosed true)).2.2.1⟩

/-! ## Break timer and old reporters -/

/-- C27: in every state reached from `New` by operations executed one after
the other, when the state is Open a break timer is pending, armed with the
configured `DurationOfBreak`, so that its firing is possible and leads to
HalfOpen with the permit set; and when the state is Closed or HalfOpen the
breaker holds no timer. -/
theorem open_has_pending_timer (cb : fastBreaker) (rs : List State) (hr : Reachable cb rs) :
    (cb.State = StateOpen →
      cb.breakTimer = some { duration := cb.Configuration.DurationOfBreak, pending := true } ∧
      (∃ t, cb.breakTimer = some t ∧ t.pending = true) ∧
      Reachable cb.breakTimerFunc rs ∧
      cb.breakTimerFunc.State = StateHalfOpen ∧
      cb.breakTimerFunc.halfOpenAllowed = true) ∧
    (cb.State = StateClosed ∨ cb.State = StateHalfOpen → cb.breakTimer = none) := by
  have h := reachable_breakTimer hr
  refine ⟨fun ho => ?_, h.1⟩
  have ht := h.2 ho
  have hf := (breakTimerFunc_fields cb).1 ho
  exact ⟨ht, ⟨_, ht, rfl⟩, Reachable.timer _ hr ht rfl, hf.1, hf.2⟩

theorem openBreaker_reachable : Reachable openBreaker [StateClosed] :=
  Reachable.report StateClosed false (Reachable.allow (Reachable.new tripAtOnce)) (by decide)

theorem open_has_pending_timer_witness :
    Reachable openBreaker [StateClosed] ∧ openBreaker.State = StateOpen ∧
    (∃ t, openBreaker.breakTimer = some t ∧ t.pending = true) ∧
    openBreaker.breakTimerFunc.State = StateHalfOpen :=
  ⟨openBreaker_reachable, by decide,
    ((open_has_pending_timer openBreaker [StateClosed] openBreaker_reachable).1
      (by decide)).2.1,
    ((open_has_pending_timer openBreaker [StateClosed] openBreaker_reachable).1
      (by decide)).2.2.2.1⟩

theorem run_snoc (x : fastBreaker) (ops : List Op) (op : Op) :
    x.run (ops ++ [op]) = (x.run ops).step op := by
  rw [run_append]; rfl

theorem reachable_snoc_allow {x : fastBreaker} {ops : List Op} {rs : List State}
    (h : Reachable (x.run ops) rs) (st : State)
    (hrep : (x.run ops).Allow.reporter = some st) :
    Reachable (x.run (ops ++ [Op.allow])) (st :: rs) := by
  rw [run_snoc]
  have := Reachable.allow h
  rw [hrep] at this
  exact this

theorem reachable_snoc_report {x : fastBreaker} {ops : List Op} {rs : List State}
    (h : Reachable (x.run ops) rs) (bound : State) (success : Bool) (hmem : bound ∈ rs) :
    Reachable (x.run (ops ++ [Op.report bound success])) rs := by
  rw [run_snoc]
  exact Reachable.report bound success h hmem

theorem reachable_snoc_timer {x : fastBreaker} {ops : List Op} {rs : List State}
    (h : Reachable (x.run ops) rs) (hst : (x.run ops).state = StateOpen) :
    Reachable (x.run (ops ++ [Op.timer])) rs := by
  rw [run_snoc]
  exact Reachable.timer _ h ((reachable_breakTimer h).2 hst) rfl

theorem staleHalfOpenReport_reachable :
    Reachable ((New tripAtOnce).run staleHalfOpenReport) [StateHalfOpen, StateClosed] := by
  have r0 : Reachable ((New tripAtOnce).run []) [] := Reachable.new tripAtOnce
  have r1 := reachable_snoc_allow r0 StateClosed (by decide)
  have r2 := reachable_snoc_report r1 StateClosed false (List.mem_cons_self _ _)
  have r3 := reachable_snoc_timer r2 (by decide)
  have r4 := reachable_snoc_allow r3 StateHalfOpen (by decide)
  have r5 := reachable_snoc_report r4 StateHalfOpen false (List.mem_cons_self _ _)
  have r6 := reachable_snoc_timer r5 (by decide)
  exact reachable_snoc_report r6 StateHalfOpen true (List.mem_cons_self _ _)

/-- C26: on the breaker of `tripAtOnce`, the execution `staleHalfOpenReport`
is sequential; in its first half-open period the `Allow` is granted a reporter
bound to HalfOpen, whose failure report re-opens the breaker; after the timer
has fired again the breaker is HalfOpen with its permit still unused, no
`Allow` having been made in that period; and the call of the reporter of the
first period with success then closes the breaker. -/
theorem halfOpen_reporter_outlives_its_period :
    staleHalfOpenReport
      = [Op.allow, Op.report StateClosed false, Op.timer, Op.allow,
         Op.report StateHalfOpen false] ++ [Op.timer] ++ [Op.report StateHalfOpen true] ∧
    ((New tripAtOnce).run [Op.allow, Op.report StateClosed false, Op.timer]).State
      = StateHalfOpen ∧
    ((New tripAtOnce).run [Op.allow, Op.report StateClosed false, Op.timer]).Allow.reporter
      = some StateHalfOpen ∧
    ((New tripAtOnce).run [Op.allow, Op.report StateClosed false, Op.timer, Op.allow,
      Op.report StateHalfOpen false]).State = StateOpen ∧
    ((New tripAtOnce).run ([Op.allow, Op.report StateClosed false, Op.timer, Op.allow,
      Op.report StateHalfOpen false] ++ [Op.timer])).State = StateHalfOpen ∧
    ((New tripAtOnce).run ([Op.allow, Op.report StateClosed false, Op.timer, Op.allow,
      Op.report StateHalfOpen false] ++ [Op.timer])).halfOpenAllowed = true ∧
    fastBreaker.count fastBreaker.grants
      ((New tripAtOnce).run ([Op.allow, Op.report StateClosed false, Op.timer, Op.allow,
        Op.report StateHalfOpen false] ++ [Op.timer]))
      [Op.report StateHalfOpen true] = 0 ∧
    ((New tripAtOnce).run staleHalfOpenReport).State = StateClosed ∧
    Reachable ((New tripAtOnce).run staleHalfOpenReport) [StateHalfOpen, StateClosed] :=
  ⟨rfl, by decide, by decide, by decide, by decide, by decide, by decide, by decide,
    staleHalfOpenReport_reachable⟩

/-! ## A failure report in the Closed state -/

theorem RollingCounters_congr (a b : fastBreaker) (h : a.ring = b.ring) :
    a.RollingCounters = b.RollingCounters := by
  unfold fastBreaker.RollingCounters
  rw [h]

theorem incFailures_ring (cb : fastBreaker) (h : counters) (rest : Ring)
    (hr : cb.ring = h :: rest) :
    cb.incExecutions.incFailures.ring
      = { executions := u64 (h.executions + 1), failures := u64 (h.failures + 1) } :: rest := by
  simp [fastBreaker.incFailures, fastBreaker.incExecutions, hr, Ring.modifyValue]

/-- C21: on a Closed breaker with policy `P` and current bucket `h`, a failure
reported through a Closed reporter adds one to `Executions`, to `Failures` and
to both counters of the current bucket (as `uint64` increments), leaves the
other buckets as they are, calls `P` on the rolling sums so incremented, and
leaves the state Open exactly when `P` returns true (and Closed otherwise).  A
second Closed breaker with the same policy and the same rolling sums takes the
same decision whatever its lifetime totals.  On the default breaker, 19
failures, then 10 ticks (its number of buckets), then one more failure leave it
Closed with totals `(20, 20)`. -/
theorem closed_failure_trips_on_rolling_sums (cb cb2 : fastBreaker) (P : ShouldTripFunc)
    (h : counters) (rest : Ring) (h2 : counters) (rest2 : Ring)
    (hs : cb.State = StateClosed) (hp : cb.Configuration.ShouldTrip = some P)
    (hr : cb.ring = h :: rest)
    (hs2 : cb2.State = StateClosed) (hp2 : cb2.Configuration.ShouldTrip = some P)
    (hr2 : cb2.ring = h2 :: rest2) (hsame : cb2.RollingCounters = cb.RollingCounters) :
    (fastBreaker.buildFeedbackFunc StateClosed false cb).Executions = u64 (cb.Executions + 1) ∧
    (fastBreaker.buildFeedbackFunc StateClosed false cb).Failures = u64 (cb.Failures + 1) ∧
    (fastBreaker.buildFeedbackFunc StateClosed false cb).ring
      = { executions := u64 (h.executions + 1), failures := u64 (h.failures + 1) } :: rest ∧
    (fastBreaker.buildFeedbackFunc StateClosed false cb).RollingCounters
      = (u64 (cb.RollingCounters.1 + 1), u64 (cb.RollingCounters.2 + 1)) ∧
    (fastBreaker.buildFeedbackFunc StateClosed false cb).shouldTripCalls
      = (u64 (cb.RollingCounters.1 + 1), u64 (cb.RollingCounters.2 + 1))
          :: cb.shouldTripCalls ∧
    ((fastBreaker.buildFeedbackFunc StateClosed false cb).State = StateOpen ↔
      P (u64 (cb.RollingCounters.1 + 1)) (u64 (cb.RollingCounters.2 + 1)) = true) ∧
    ((fastBreaker.buildFeedbackFunc StateClosed false cb).State = StateOpen ∨
      (fastBreaker.buildFeedbackFunc StateClosed false cb).State = StateClosed) ∧
    (cb.RollingCounters.1 + 1 < 2 ^ 64 → cb.RollingCounters.2 + 1 < 2 ^ 64 →
      ((fastBreaker.buildFeedbackFunc StateClosed false cb).State = StateOpen ↔
        P (cb.RollingCounters.1 + 1) (cb.RollingCounters.2 + 1) = true)) ∧
    ((fastBreaker.buildFeedbackFunc StateClosed false cb2).State = StateOpen ↔
      (fastBreaker.buildFeedbackFunc StateClosed false cb).State = StateOpen) ∧
    ((New zeroConfiguration).play (List.replicate 19 (Event.call 0 false)
        ++ List.replicate 10 Event.tick ++ [Event.call 0 false])).State = StateClosed ∧
    ((New zeroConfiguration).play (List.replicate 19 (Event.call 0 false)
        ++ List.replicate 10 Event.tick ++ [Event.call 0 false])).Executions = 20 ∧
    ((New zeroConfiguration).play (List.replicate 19 (Event.call 0 false)
        ++ List.replicate 10 Event.tick ++ [Event.call 0 false])).Failures = 20 ∧
    (New zeroConfiguration).Configuration.NumBuckets = 10 := by
  have key : ∀ (x : fastBreaker) (hx : counters) (rx : Ring), x.state = StateClosed →
      x.configuration.ShouldTrip = some P → x.ring = hx :: rx →
      (x.handleFeedback StateClosed false).RollingCounters
        = (u64 (x.RollingCounters.1 + 1), u64 (x.RollingCounters.2 + 1)) ∧
      ((x.handleFeedback StateClosed false).state = StateOpen ↔
        P (u64 (x.RollingCounters.1 + 1)) (u64 (x.RollingCounters.2 + 1)) = true) ∧
      ((x.handleFeedback StateClosed false).state = StateOpen ∨
        (x.handleFeedback StateClosed false).state = StateClosed) := by
    intro x hx rx hxs hxp hxr
    have hwin := report_in_window x false 0 hxs (by rw [hxr]; simp [Ring.Len])
    simp only [Function.iterate_zero, id_eq, Bool.false_eq_true, if_false] at hwin
    have hroll : x.incExecutions.incFailures.RollingCounters
        = (u64 (x.RollingCounters.1 + 1), u64 (x.RollingCounters.2 + 1)) := by
      rw [← hwin]
      apply RollingCounters_congr
      rw [incFailures_ring x hx rx hxr, handleFeedback_closed_ring x false hx rx hxs hxr]
      simp
    refine ⟨hwin, ?_, ?_⟩
    · rw [handleFeedback_closed_failure x P hxs hxp, hroll]
      split
      · rename_i ht
        rw [tripFrom_eq _ _ (show (x.incExecutions.incFailures.recordShouldTrip _ _).state
          = StateClosed from hxs)]
        exact ⟨fun _ => ht, fun _ => rfl⟩
      · rename_i ht
        have e : (x.incExecutions.incFailures.recordShouldTrip
            (u64 (x.RollingCounters.1 + 1)) (u64 (x.RollingCounters.2 + 1))).state
            = StateClosed := hxs
        rw [e]
        exact ⟨fun hc => absurd hc (by decide), fun hc => absurd hc ht⟩
    · rw [handleFeedback_closed_failure x P hxs hxp]
      split
      · left
        rw [tripFrom_eq _ _ (show (x.incExecutions.incFailures.recordShouldTrip _ _).state
          = StateClosed from hxs)]
      · right
        exact hxs
  have k1 := key cb h rest hs hp hr
  have k2 := key cb2 h2 rest2 hs2 hp2 hr2
  have hc := handleFeedback_counters cb StateClosed false
  have hst : cb.state = StateClosed := hs
  have hpp : cb.configuration.ShouldTrip = some P := hp
  have hroll : cb.incExecutions.incFailures.RollingCounters
      = (u64 (cb.RollingCounters.1 + 1), u64 (cb.RollingCounters.2 + 1)) := by
    rw [← k1.1]
    apply RollingCounters_congr
    rw [incFailures_ring cb h rest hr, handleFeedback_closed_ring cb false h rest hst hr]
    simp
  simp only [fastBreaker.buildFeedbackFunc, fastBreaker.State, fastBreaker.Executions,
    fastBreaker.Failures]
  refine ⟨?_, ?_, ?_, k1.1, ?_, k1.2.1, k1.2.2, ?_, ?_, ?_, ?_, ?_, ?_⟩
  · rw [hc.2.1]; simp [hst]
  · rw [hc.2.1]; simp [hst]
  · rw [handleFeedback_closed_ring cb false h rest hst hr]; simp
  · rw [hc.2.2, hroll]; simp [hst, hpp]
  · intro h1 h2
    have := k1.2.1
    rwa [u64_of_lt h1, u64_of_lt h2] at this
  · rw [k2.2.1, k1.2.1, hsame]
  · decide
  · decide
  · decide
  · decide

theorem closed_failure_trips_on_rolling_sums_witness :
    (New tripAtOnce).State = StateClosed ∧
    (fastBreaker.buildFeedbackFunc StateClosed false (New tripAtOnce)).State = StateOpen ∧
    (fastBreaker.buildFeedbackFunc StateClosed false (New tripAtOnce)).RollingCounters
      = (1, 1) :=
  ⟨by decide,
    ((closed_failure_trips_on_rolling_sums (New tripAtOnce) (New tripAtOnce) (fun _ _ => true)
      { executions := 0, failures := 0 } [{ executions := 0, failures := 0 }]
      { executions := 0, failures := 0 } [{ executions := 0, failures := 0 }]
      (by decide) rfl (by decide) (by decide) rfl (by decide) rfl).2.2.2.2.2.1).mpr rfl,
    ((closed_failure_trips_on_rolling_sums (New tripAtOnce) (New tripAtOnce) (fun _ _ => true)
      { executions := 0, failures := 0 } [{ executions := 0, failures := 0 }]
      { executions := 0, failures := 0 } [{ executions := 0, failures := 0 }]
      (by decide) rfl (by decide) (by decide) rfl (by decide) rfl).2.2.2.1).trans
      (by decide)⟩

/-! ## One window tick -/

theorem handleFeedback_ring_length (cb : fastBreaker) (bound : State) (success : Bool) :
    (cb.handleFeedback bound success).ring.length = cb.ring.length := by
  by_cases hb : bound = cb.state
  swap
  · rw [handleFeedback_other cb bound success (Or.inl hb)]
  by_cases hc : cb.state = StateClosed
  · rw [hb, hc]; exact handleFeedback_closed_length cb success hc
  by_cases hh : cb.state = StateHalfOpen
  · rw [hb, hh]
    cases success
    · rw [handleFeedback_halfOpen_failure cb hh, tripFrom_eq _ _ hh]
    · rw [handleFeedback_halfOpen_success cb hh, reset_ring cb hc]; simp
  · rw [handleFeedback_other cb bound success (Or.inr ⟨hc, hh⟩)]

theorem step_ring_length (cb : fastBreaker) (op : Op) :
    (cb.step op).ring.length = cb.ring.length := by
  cases op with
  | allow => rw [show (cb.step Op.allow).ring = cb.ring from (Allow_cb_fields cb).2.2.2.2]
  | report bound success => exact handleFeedback_ring_length cb bound success
  | tick =>
    show (Ring.modifyValue counters.reset (Ring.Next cb.ring)).length = _
    rw [Ring_modifyValue_length, Ring_Next_length]
  | timer =>
    rw [show (cb.step Op.timer).ring = cb.ring from (breakTimerFunc_fields cb).2.2.2.2.2]
  | stop => rw [show (cb.step Op.stop).ring = cb.ring from (Stop_fields cb).2.2.2.1]

theorem run_ring_length (ops : List Op) (cb : fastBreaker) :
    (cb.run ops).ring.length = cb.ring.length := by
  induction ops generalizing cb with
  | nil => rfl
  | cons op ops ih =>
    simp only [fastBreaker.run]
    rw [ih, step_ring_length]

/-- C24: in any state, one window tick makes the next bucket in cyclic order
(the head of `Ring.Next`) the current bucket and zeroes it, keeps every other
bucket in its place in the cycle, and changes nothing else: lifetime totals,
`Rejected`, state, permit and timer.  The number of buckets is kept, and after
any sequence of operations on a fresh breaker it is `NumBuckets`.  The rolling
counters before the tick are those after it plus the former contents of that
next bucket, in `uint64` arithmetic, hence the difference when the sum over
the window is below `2 ^ 64`. -/
theorem tick_clears_next_bucket (cb : fastBreaker) (h : counters) (rest : Ring)
    (c : Configuration) (ops : List Op) (hr : cb.ring = h :: rest) :
    Ring.Next cb.ring = rest ++ [h] ∧
    (∃ next others, Ring.Next cb.ring = next :: others ∧
      cb.advanceWindow.ring = { executions := 0, failures := 0 } :: others ∧
      u64 (cb.advanceWindow.RollingCounters.1 + next.executions) = cb.RollingCounters.1 ∧
      u64 (cb.advanceWindow.RollingCounters.2 + next.failures) = cb.RollingCounters.2 ∧
      ((cb.ring.map counters.executions).sum < 2 ^ 64 →
        next.executions ≤ cb.RollingCounters.1 ∧
        cb.advanceWindow.RollingCounters.1 = cb.RollingCounters.1 - next.executions) ∧
      ((cb.ring.map counters.failures).sum < 2 ^ 64 →
        next.failures ≤ cb.RollingCounters.2 ∧
        cb.advanceWindow.RollingCounters.2 = cb.RollingCounters.2 - next.failures)) ∧
    Ring.Len cb.advanceWindow.ring = Ring.Len cb.ring ∧
    cb.advanceWindow.Executions = cb.Executions ∧
    cb.advanceWindow.Failures = cb.Failures ∧
    cb.advanceWindow.Rejected = cb.Rejected ∧
    cb.advanceWindow.State = cb.State ∧
    cb.advanceWindow.halfOpenAllowed = cb.halfOpenAllowed ∧
    cb.advanceWindow.breakTimer = cb.breakTimer ∧
    cb.advanceWindow.Configuration = cb.Configuration ∧
    ((Ring.Len ((New c).run ops).advanceWindow.ring : Nat) : Int)
      = (New c).Configuration.NumBuckets := by
  have hnext : Ring.Next cb.ring = rest ++ [h] := by rw [hr]; rfl
  have hlen : Ring.Len cb.advanceWindow.ring = Ring.Len cb.ring := by
    show (Ring.modifyValue counters.reset (Ring.Next cb.ring)).length = cb.ring.length
    rw [Ring_modifyValue_length, Ring_Next_length]
  refine ⟨hnext, ?_, hlen, rfl, rfl, rfl, rfl, rfl, rfl, rfl, ?_⟩
  · obtain ⟨next, others, hno⟩ : ∃ next others, rest ++ [h] = next :: others := by
      cases rest with
      | nil => exact ⟨h, [], rfl⟩
      | cons r rs => exact ⟨r, rs ++ [h], rfl⟩
    have hring : cb.advanceWindow.ring = { executions := 0, failures := 0 } :: others := by
      show Ring.modifyValue counters.reset (Ring.Next cb.ring) = _
      rw [hnext, hno]; rfl
    have hse : (cb.ring.map counters.executions).sum
        = next.executions + (others.map counters.executions).sum := by
      have : ((rest ++ [h]).map counters.executions).sum
          = ((next :: others).map counters.executions).sum := by rw [hno]
      rw [hr]
      simp only [List.map_append, List.map_cons, List.map_nil, List.sum_append, List.sum_cons,
        List.sum_nil] at this ⊢
      omega
    have hsf : (cb.ring.map counters.failures).sum
        = next.failures + (others.map counters.failures).sum := by
      have : ((rest ++ [h]).map counters.failures).sum
          = ((next :: others).map counters.failures).sum := by rw [hno]
      rw [hr]
      simp only [List.map_append, List.map_cons, List.map_nil, List.sum_append, List.sum_cons,
        List.sum_nil] at this ⊢
      omega
    refine ⟨next, others, hnext.trans hno, hring, ?_, ?_, ?_, ?_⟩
    · rw [RollingCounters_eq_sum, RollingCounters_eq_sum, hring, hse]
      simp only [List.map_cons, List.sum_cons]
      rw [u64_u64_add]; congr 1; omega
    · rw [RollingCounters_eq_sum, RollingCounters_eq_sum, hring, hsf]
      simp only [List.map_cons, List.sum_cons]
      rw [u64_u64_add]; congr 1; omega
    · intro hlt
      rw [RollingCounters_eq_sum, RollingCounters_eq_sum, hring]
      simp only [List.map_cons, List.sum_cons]
      rw [u64_of_lt hlt, hse, u64_of_lt (by omega)]
      omega
    · intro hlt
      rw [RollingCounters_eq_sum, RollingCounters_eq_sum, hring]
      simp only [List.map_cons, List.sum_cons]
      rw [u64_of_lt hlt, hsf, u64_of_lt (by omega)]
      omega
  · have h1 : ((New c).run ops).advanceWindow.ring.length = (New c).ring.length := by
      rw [show ((New c).run ops).advanceWindow = ((New c).run ops).step Op.tick from rfl,
        step_ring_length, run_ring_length]
    have h2 := New_ring c
    have h3 := New_NumBuckets_pos c
    show ((((New c).run ops).advanceWindow.ring.length : Nat) : Int)
      = (New c).configuration.NumBuckets
    rw [h1, h2]
    simp
    omega

theorem tick_clears_next_bucket_witness :
    openBreaker.ring = { executions := 1, failures := 1 } :: [{ executions := 0, failures := 0 }] ∧
    openBreaker.advanceWindow.ring
      = [{ executions := 0, failures := 0 }, { executions := 1, failures := 1 }] ∧
    openBreaker.advanceWindow.advanceWindow.ring
      = [{ executions := 0, failures := 0 }, { executions := 0, failures := 0 }] ∧
    openBreaker.advanceWindow.State = StateOpen ∧
    Ring.Len openBreaker.advanceWindow.ring = Ring.Len openBreaker.ring :=
  ⟨by decide, by decide, by decide, by decide,
    (tick_clears_next_bucket openBreaker { executions := 1, failures := 1 }
      [{ executions := 0, failures := 0 }] tripAtOnce [] (by decide)).2.2.1⟩

/-! ## Failures never exceed executions -/

theorem handleFeedback_ring_uncounted (cb : fastBreaker) (bound : State) (success : Bool)
    (h : ¬ (bound = cb.state ∧ cb.state = StateClosed)) :
    (cb.handleFeedback bound success).ring = cb.ring ∨
    (cb.handleFeedback bound success).ring
      = List.replicate cb.ring.length { executions := 0, failures := 0 } := by
  by_cases hb : bound = cb.state
  swap
  · rw [handleFeedback_other cb bound success (Or.inl hb)]; exact Or.inl rfl
  have hc : cb.state ≠ StateClosed := fun hc => h ⟨hb, hc⟩
  by_cases hh : cb.state = StateHalfOpen
  · rw [hb, hh]
    cases success
    · rw [handleFeedback_halfOpen_failure cb hh, tripFrom_eq _ _ hh]; exact Or.inl rfl
    · rw [handleFeedback_halfOpen_success cb hh]; exact Or.inr (reset_ring cb hc)
  · rw [handleFeedback_other cb bound success (Or.inr ⟨hc, hh⟩)]; exact Or.inl rfl

theorem handleFeedback_closed_ring_cases (cb : fastBreaker) (success : Bool)
    (hs : cb.state = StateClosed) :
    (cb.ring = [] ∧ (cb.handleFeedback StateClosed success).ring = []) ∨
    (∃ h rest, cb.ring = h :: rest ∧
      (cb.handleFeedback StateClosed success).ring
        = { executions := u64 (h.executions + 1),
            failures := if success = true then h.failures else u64 (h.failures + 1) }
            :: rest) := by
  cases hr : cb.ring with
  | nil =>
    left
    refine ⟨rfl, ?_⟩
    have := handleFeedback_closed_length cb success hs
    rw [hr] at this
    exact List.length_eq_zero.mp this
  | cons h rest =>
    right
    exact ⟨h, rest, rfl, handleFeedback_closed_ring cb success h rest hs hr⟩

theorem tick_ring_mem (r : Ring) (b : counters)
    (hb : b ∈ Ring.modifyValue counters.reset (Ring.Next r)) :
    b = { executions := 0, failures := 0 } ∨ b ∈ r := by
  cases r with
  | nil => simp [Ring.Next, Ring.modifyValue] at hb
  | cons h rest =>
    cases rest with
    | nil =>
      simp [Ring.Next, Ring.modifyValue, counters.reset] at hb
      exact Or.inl hb
    | cons r rs =>
      simp [Ring.Next, Ring.modifyValue, counters.reset] at hb
      rcases hb with hb | hb | hb
      · exact Or.inl hb
      · exact Or.inr (by simp [hb])
      · exact Or.inr (by simp [hb])

theorem tick_ring_sum_le (r : Ring) :
    ((Ring.modifyValue counters.reset (Ring.Next r)).map counters.executions).sum
      ≤ (r.map counters.executions).sum := by
  cases r with
  | nil => simp [Ring.Next, Ring.modifyValue]
  | cons h rest =>
    cases rest with
    | nil => simp [Ring.Next, Ring.modifyValue, counters.reset]
    | cons r rs =>
      simp [Ring.Next, Ring.modifyValue, counters.reset]
      omega

theorem sum_failures_le_sum_executions (r : Ring) (h : ∀ b ∈ r, b.failures ≤ b.executions) :
    (r.map counters.failures).sum ≤ (r.map counters.executions).sum := by
  induction r with
  | nil => simp
  | cons b bs ih =>
    have h1 := h b (List.mem_cons_self _ _)
    have h2 := ih (fun x hx => h x (List.mem_cons_of_mem _ hx))
    simp only [List.map_cons, List.sum_cons]
    omega

/-- One operation keeps the order between the counters, as long as the
executions counted stay below `2 ^ 64`. -/
theorem step_ordered (x : fastBreaker) (op : Op) (n : Nat)
    (he : x.totalCounters.executions = n) (hf : x.totalCounters.failures ≤ n)
    (hb : ∀ b ∈ x.ring, b.failures ≤ b.executions)
    (hsum : (x.ring.map counters.executions).sum ≤ n)
    (hlt : n + (if x.countsExecution op = true then 1 else 0) < 2 ^ 64) :
    (x.step op).totalCounters.executions
      = n + (if x.countsExecution op = true then 1 else 0) ∧
    (x.step op).totalCounters.failures
      ≤ n + (if x.countsExecution op = true then 1 else 0) ∧
    (∀ b ∈ (x.step op).ring, b.failures ≤ b.executions) ∧
    ((x.step op).ring.map counters.executions).sum
      ≤ n + (if x.countsExecution op = true then 1 else 0) := by
  have same : ∀ y : fastBreaker, y.totalCounters = x.totalCounters → y.ring = x.ring →
      x.countsExecution op = false →
      y.totalCounters.executions = n + (if x.countsExecution op = true then 1 else 0) ∧
      y.totalCounters.failures ≤ n + (if x.countsExecution op = true then 1 else 0) ∧
      (∀ b ∈ y.ring, b.failures ≤ b.executions) ∧
      (y.ring.map counters.executions).sum
        ≤ n + (if x.countsExecution op = true then 1 else 0) := by
    intro y ht hr hc
    rw [ht, hr, hc]
    simp only [Bool.false_eq_true, if_false, Nat.add_zero]
    exact ⟨he, hf, hb, hsum⟩
  cases op with
  | allow => exact same _ (Allow_cb_fields x).2.2.2.1 (Allow_cb_fields x).2.2.2.2 rfl
  | timer =>
    exact same _ (breakTimerFunc_fields x).2.2.2.1 (breakTimerFunc_fields x).2.2.2.2.2 rfl
  | stop => exact same _ (Stop_fields x).2.1 (Stop_fields x).2.2.2.1 rfl
  | tick =>
    simp only [fastBreaker.countsExecution, Bool.false_eq_true, if_false, Nat.add_zero]
    refine ⟨he, hf, ?_, ?_⟩
    · intro b hbm
      rcases tick_ring_mem x.ring b hbm with h0 | h0
      · rw [h0]
      · exact hb b h0
    · exact le_trans (tick_ring_sum_le x.ring) hsum
  | report bound success =>
    have hc := (handleFeedback_counters x bound success).2.1
    simp only [fastBreaker.step, fastBreaker.buildFeedbackFunc]
    by_cases hcount : bound = StateClosed ∧ x.state = StateClosed
    · obtain ⟨hbd, hst⟩ := hcount
      have hcnt : x.countsExecution (Op.report bound success) = true := by
        simp [fastBreaker.countsExecution, hbd, hst]
      rw [hcnt] at hlt ⊢
      simp only [if_true] at hlt ⊢
      rw [if_pos ⟨hbd.trans hst.symm, hst⟩] at hc
      rw [hc, he]
      subst hbd
      refine ⟨u64_of_lt hlt, ?_, ?_, ?_⟩
      · show (if success = true then x.totalCounters.failures
          else u64 (x.totalCounters.failures + 1)) ≤ n + 1
        split
        · omega
        · rw [u64_of_lt (by omega)]; omega
      · rcases handleFeedback_closed_ring_cases x success hst with ⟨_, h2⟩ | ⟨h, rest, h1, h2⟩
        · rw [h2]; intro b hbm; cases hbm
        · rw [h2]
          rw [h1] at hb hsum
          have hh := hb h (List.mem_cons_self _ _)
          have hhe : h.executions ≤ n := by
            simp only [List.map_cons, List.sum_cons] at hsum; omega
          intro b hbm
          rcases List.mem_cons.mp hbm with hbm | hbm
          · rw [hbm]
            show (if success = true then h.failures else u64 (h.failures + 1))
              ≤ u64 (h.executions + 1)
            have e1 : u64 (h.executions + 1) = h.executions + 1 := u64_of_lt (by omega)
            have e2 : u64 (h.failures + 1) = h.failures + 1 := u64_of_lt (by omega)
            rw [e1, e2]
            split <;> omega
          · exact hb b (List.mem_cons_of_mem _ hbm)
      · rcases handleFeedback_closed_ring_cases x success hst with ⟨_, h2⟩ | ⟨h, rest, h1, h2⟩
        · rw [h2]; simp
        · rw [h2]
          rw [h1] at hsum
          simp only [List.map_cons, List.sum_cons] at hsum ⊢
          rw [u64_of_lt (by omega)]
          omega
    · have hcnt : x.countsExecution (Op.report bound success) = false := by
        simp only [fastBreaker.countsExecution, decide_eq_false_iff_not]
        exact hcount
      have hno : ¬ (bound = x.state ∧ x.state = StateClosed) :=
        fun h => hcount ⟨h.1.trans h.2, h.2⟩
      rw [if_neg hno] at hc
      rw [hcnt]
      simp only [Bool.false_eq_true, if_false, Nat.add_zero]
      rw [hc]
      refine ⟨he, hf, ?_, ?_⟩
      · rcases handleFeedback_ring_uncounted x bound success hno with h1 | h1
        · rw [h1]; exact hb
        · rw [h1]
          intro b hbm
          rw [List.eq_of_mem_replicate hbm]
      · rcases handleFeedback_ring_uncounted x bound success hno with h1 | h1
        · rw [h1]; exact hsum
        · rw [h1]; simp

theorem run_ordered (ops : List Op) (x : fastBreaker) (n : Nat)
    (he : x.totalCounters.executions = n) (hf : x.totalCounters.failures ≤ n)
    (hb : ∀ b ∈ x.ring, b.failures ≤ b.executions)
    (hsum : (x.ring.map counters.executions).sum ≤ n)
    (hlt : n + fastBreaker.count fastBreaker.countsExecution x ops < 2 ^ 64) :
    (x.run ops).totalCounters.executions
      = n + fastBreaker.count fastBreaker.countsExecution x ops ∧
    (x.run ops).totalCounters.failures
      ≤ n + fastBreaker.count fastBreaker.countsExecution x ops ∧
    (∀ b ∈ (x.run ops).ring, b.failures ≤ b.executions) ∧
    ((x.run ops).ring.map counters.executions).sum
      ≤ n + fastBreaker.count fastBreaker.countsExecution x ops := by
  induction ops generalizing x n with
  | nil => exact ⟨he, hf, hb, hsum⟩
  | cons op ops ih =>
    simp only [fastBreaker.count] at hlt ⊢
    obtain ⟨s1, s2, s3, s4⟩ := step_ordered x op n he hf hb hsum (by omega)
    have := ih (x.step op) _ s1 s2 s3 s4 (by omega)
    simp only [fastBreaker.run]
    rw [← Nat.add_assoc]
    exact this

theorem count_le_count (p q : fastBreaker → Op → Bool)
    (hpq : ∀ cb op, p cb op = true → q cb op = true) (ops : List Op) (x : fastBreaker) :
    fastBreaker.count p x ops ≤ fastBreaker.count q x ops := by
  induction ops generalizing x with
  | nil => exact le_refl _
  | cons op ops ih =>
    simp only [fastBreaker.count]
    have := ih (x.step op)
    by_cases hp : p x op = true
    · rw [if_pos hp, if_pos (hpq x op hp)]; omega
    · rw [if_neg hp]; split <;> omega

/-- C25: after any sequence of operations on a fresh breaker (hence in every
state reached by a sequential execution) with fewer than `2 ^ 64` calls of
reporters, `Failures()` is at most `Executions()`, every bucket has at most as
many failures as executions, the rolling failures are at most the rolling
executions, which are at most `Executions()`, and the `uint64` difference
`Executions() - Failures()` taken by the adapter is the exact difference, so
it does not wrap below zero. -/
theorem failures_le_executions (c : Configuration) (ops : List Op)
    (h : fastBreaker.count fastBreaker.reports (New c) ops < 2 ^ 64) :
    ((New c).run ops).Failures ≤ ((New c).run ops).Executions ∧
    (∀ b ∈ ((New c).run ops).ring, b.failures ≤ b.executions) ∧
    ((New c).run ops).RollingCounters.2 ≤ ((New c).run ops).RollingCounters.1 ∧
    ((New c).run ops).RollingCounters.1 ≤ ((New c).run ops).Executions ∧
    prometheus.executionsSuccess ((New c).run ops).toFastBreaker
      = ((New c).run ops).Executions - ((New c).run ops).Failures ∧
    ((New c).run ops).Executions
      ≤ fastBreaker.count fastBreaker.reports (New c) ops := by
  have hle : fastBreaker.count fastBreaker.countsExecution (New c) ops
      ≤ fastBreaker.count fastBreaker.reports (New c) ops := by
    apply count_le_count
    intro cb op hp
    cases op <;> simp [fastBreaker.countsExecution, fastBreaker.reports] at hp ⊢
  have h0 := New_totalCounters c
  have hring := New_ring c
  obtain ⟨r1, r2, r3, r4⟩ := run_ordered ops (New c) 0 (by rw [h0]) (by rw [h0])
    (by intro b hb; rw [hring] at hb; rw [List.eq_of_mem_replicate hb])
    (by rw [hring]; simp) (by omega)
  rw [Nat.zero_add] at r1 r2 r4
  have hfe := sum_failures_le_sum_executions _ r3
  have hroll := RollingCounters_eq_sum ((New c).run ops)
  simp only [fastBreaker.Failures, fastBreaker.Executions, prometheus.executionsSuccess,
    fastBreaker.toFastBreaker]
  rw [hroll, r1]
  refine ⟨r2, r3, ?_, ?_, ?_, hle⟩
  · show u64 _ ≤ u64 _
    rw [u64_of_lt (by omega), u64_of_lt (by omega)]; exact hfe
  · show u64 _ ≤ _
    rw [u64_of_lt (by omega)]; exact r4
  · unfold u64
    have : ((New c).run ops).totalCounters.failures < 2 ^ 64 := by omega
    omega

theorem failures_le_executions_witness :
    fastBreaker.count fastBreaker.reports (New tripAtOnce) staleHalfOpenReport < 2 ^ 64 ∧
    ((New tripAtOnce).run staleHalfOpenReport).Failures
      ≤ ((New tripAtOnce).run staleHalfOpenReport).Executions ∧
    prometheus.executionsSuccess ((New tripAtOnce).run staleHalfOpenReport).toFastBreaker = 0 :=
  ⟨by decide, (failures_le_executions tripAtOnce staleHalfOpenReport (by decide)).1,
    ((failures_le_executions tripAtOnce staleHalfOpenReport (by decide)).2.2.2.2.1).trans
      (by decide)⟩

/-! ## Calls between the statements of the callback -/

theorem unusedPermitBreaker_reachable :
    Reachable unusedPermitBreaker [StateClosed, StateHalfOpen, StateClosed] := by
  have r7 := staleHalfOpenReport_reachable
  have r8 := reachable_snoc_allow r7 StateClosed (by decide)
  have r9 := reachable_snoc_report r8 StateClosed false (List.mem_cons_self _ _)
  rw [List.append_assoc] at r9
  exact r9

/-- C2 (counterexample): on the Open breaker `openBreaker`, whose permit is
clear, an `Allow` made after the compare-and-swap of the callback and before
its store finds the state HalfOpen and is the first of the half-open period, yet
it is rejected with `ErrCircuitOpen`, and the `Allow` made after the store,
the second of the period, is granted.  On the Open breaker
`unusedPermitBreaker`, whose permit was left set, the `Allow` made between the
swap and the store is granted, and so is the `Allow` made after the store: two
calls of one half-open period are granted and `Rejected` does not change.
That breaker is reached from `New` by operations run one after the other. -/
theorem halfOpen_first_allow_not_the_granted_one :
    (openBreaker.State = StateOpen ∧
      openBreaker.breakTimerSwap.1.State = StateHalfOpen ∧
      openBreaker.breakTimerSwap.1.Allow.reporter = none ∧
      openBreaker.breakTimerSwap.1.Allow.err = some Error.ErrCircuitOpen ∧
      (openBreaker.breakTimerSwap.1.interleave [Stmt.call Op.allow, Stmt.store]).State
        = StateHalfOpen ∧
      (openBreaker.breakTimerSwap.1.interleave
        [Stmt.call Op.allow, Stmt.store]).Allow.reporter = some StateHalfOpen) ∧
    (unusedPermitBreaker.State = StateOpen ∧
      unusedPermitBreaker.breakTimerSwap.1.State = StateHalfOpen ∧
      unusedPermitBreaker.breakTimerSwap.1.Allow.reporter = some StateHalfOpen ∧
      (unusedPermitBreaker.breakTimerSwap.1.interleave
        [Stmt.call Op.allow, Stmt.store]).State = StateHalfOpen ∧
      (unusedPermitBreaker.breakTimerSwap.1.interleave
        [Stmt.call Op.allow, Stmt.store]).Allow.reporter = some StateHalfOpen ∧
      (unusedPermitBreaker.breakTimerSwap.1.interleave
        [Stmt.call Op.allow, Stmt.store, Stmt.call Op.allow]).Rejected
        = unusedPermitBreaker.Rejected ∧
      Reachable unusedPermitBreaker [StateClosed, StateHalfOpen, StateClosed]) :=
  ⟨by decide, by decide, by decide, by decide, by decide, by decide, by decide,
    unusedPermitBreaker_reachable⟩

end fastbreaker
